import Mathlib

/-!
Shallow embedding of the in-memory OLAP cube engine
(src/engine/aggregations.ts, src/engine/cube-manager.ts, the query planner,
src/cube/manager.ts and the cache described in the specification).

Modelling conventions:
* TypeScript `number` is modelled by `Rat` (exact arithmetic; float rounding
  is not modelled).
* `Record<string, T>` and JS `Map` are modelled by insertion-ordered
  association lists with the JS update discipline (replace in place,
  append new keys at the end).
* `undefined`/`null` become explicit constructors or `Option`.
* `String(x)` on numbers is rendered exactly for integers; non-integral
  rationals are rendered as `num/den` (no claim depends on that case).
-/

/-- `DimensionValue = string | number` from cube-manager.ts. -/
inductive DimValue where
  | str : String → DimValue
  | num : Rat → DimValue
deriving DecidableEq, Repr

/-- `MeasureValue = number | string | null | undefined` from aggregations.ts.
An absent record field is collapsed into `undef`, matching JS lookup. -/
inductive MeasureValue where
  | num : Rat → MeasureValue
  | str : String → MeasureValue
  | null : MeasureValue
  | undef : MeasureValue
deriving DecidableEq, Repr

/-- Decimal rendering of a rational, exact for integers (JS `String(n)` and
`JSON.stringify(n)` agree with this on integral values). -/
def ratToJsString (q : Rat) : String :=
  if q.den = 1 then toString q.num else toString q.num ++ "/" ++ toString q.den

/-- JS `String(value)` on a dimension value. -/
def dimValueToString : DimValue → String
  | .str s => s
  | .num q => ratToJsString q

/-- JS `String(value)` on a measure value. -/
def measureValueToString : MeasureValue → String
  | .num q => ratToJsString q
  | .str s => s
  | .null => "null"
  | .undef => "undefined"

/-- Digit characters to a natural number (`none` if any char is not a digit
or the list is empty). -/
def digitsToNat : List Char → Option Nat
  | [] => none
  | cs => cs.foldl
      (fun acc c => acc.bind fun n =>
        if c.isDigit then some (n * 10 + (c.toNat - 48)) else none)
      (some 0)

/-- JS `String.prototype.trim` (whitespace stripped from both ends),
written over the character list so it evaluates by reduction. -/
def jsTrim (s : String) : String :=
  String.mk (((s.data.dropWhile Char.isWhitespace).reverse.dropWhile
    Char.isWhitespace).reverse)

/-- Lexicographic `≤` on character lists (UTF-16 code-unit comparison of
JS restricted to the basic plane). -/
def charListLe : List Char → List Char → Bool
  | [], _ => true
  | _ :: _, [] => false
  | a :: as, b :: bs => if a = b then charListLe as bs else decide (a < b)

/-- Lexicographic `≤` on strings. -/
def strLe (a b : String) : Bool := charListLe a.data b.data

/-- Strict lexicographic `<` on strings. -/
def strLt (a b : String) : Bool := strLe a b && !(a == b)

/-- The key ordering used when sorting rendered object fields. -/
def fieldLe (a b : String × String) : Bool := strLe a.1 b.1

/-- JS `Number(string)` restricted to optionally-signed decimal literals
(`none` models NaN; the empty/whitespace string is 0, as in JS). Exotic
forms (hex, exponent, Infinity) are not modelled; no claim exercises them. -/
def parseJsNumber (s : String) : Option Rat :=
  let t := jsTrim s
  if t = "" then some 0 else
  let cs := t.toList
  let (neg, body) :=
    match cs with
    | '-' :: rest => (true, rest)
    | '+' :: rest => (false, rest)
    | _ => (false, cs)
  let intPart := body.takeWhile (· ≠ '.')
  let rest := body.dropWhile (· ≠ '.')
  match rest with
  | [] =>
      (digitsToNat intPart).map fun n => if neg then -(n : Rat) else (n : Rat)
  | _ :: fracPart =>
      if intPart = [] ∧ fracPart = [] then none
      else
        let ip : Option Nat := if intPart = [] then some 0 else digitsToNat intPart
        let fp : Option Nat := if fracPart = [] then some 0 else digitsToNat fracPart
        match ip, fp with
        | some i, some f =>
            let mag : Rat := (i : Rat) + (f : Rat) / ((10 : Rat) ^ fracPart.length)
            some (if neg then -mag else mag)
        | _, _ => none

/-- JS `Number(value)` on a dimension value (`none` models NaN). -/
def jsNumber : DimValue → Option Rat
  | .num q => some q
  | .str s => parseJsNumber s

/-- JS `Map.prototype.get` / record lookup on an insertion-ordered
association list. -/
def jsGet [DecidableEq α] (k : α) : List (α × β) → Option β
  | [] => none
  | (k', v) :: rest => if k = k' then some v else jsGet k rest

/-- JS `Map.prototype.set` / record assignment: replace in place if the key
exists, otherwise append at the end. -/
def jsSet [DecidableEq α] (k : α) (v : β) : List (α × β) → List (α × β)
  | [] => [(k, v)]
  | (k', v') :: rest => if k = k' then (k, v) :: rest else (k', v') :: jsSet k v rest

/-- Update the value at a key in place, no-op when the key is absent
(in the source the key is always present at the call sites). -/
def jsUpdate [DecidableEq α] (k : α) (f : β → β) : List (α × β) → List (α × β)
  | [] => []
  | (k', v) :: rest => if k = k' then (k', f v) :: rest else (k', v) :: jsUpdate k f rest

/-- `new Map(list)`: later entries for the same key overwrite earlier ones,
keeping the position of the first occurrence. -/
def mapOfList [DecidableEq α] (l : List (α × β)) : List (α × β) :=
  l.foldl (fun m kv => jsSet kv.1 kv.2 m) []

/-- `AggregationType` from aggregations.ts. -/
inductive AggregationType where
  | SUM | COUNT | AVG | MIN | MAX | DISTINCT
deriving DecidableEq, Repr

/-- The running state of one accumulator object (one constructor per class
in aggregations.ts). -/
inductive AccState where
  | sum (value : Rat)
  | count (value : Nat)
  | avg (sum : Rat) (count : Nat)
  | minA (value : Option Rat)
  | maxA (value : Option Rat)
  | distinct (seen : List String)
deriving DecidableEq, Repr

/-- `createAccumulator` from aggregations.ts. -/
def createAccumulator : AggregationType → AccState
  | .SUM => .sum 0
  | .COUNT => .count 0
  | .AVG => .avg 0 0
  | .MIN => .minA none
  | .MAX => .maxA none
  | .DISTINCT => .distinct []

/-- `add(value)` of each accumulator class. A JS `Set<string>` keeps
insertion order, hence the append-if-absent list. -/
def accAdd (st : AccState) (v : MeasureValue) : AccState :=
  match st with
  | .sum acc =>
      match v with
      | .num q => .sum (acc + q)
      | _ => .sum acc
  | .count n =>
      match v with
      | .null => .count n
      | .undef => .count n
      | _ => .count (n + 1)
  | .avg s n =>
      match v with
      | .num q => .avg (s + q) (n + 1)
      | _ => .avg s n
  | .minA cur =>
      match v with
      | .num q =>
          match cur with
          | none => .minA (some q)
          | some m => if q < m then .minA (some q) else .minA (some m)
      | _ => .minA cur
  | .maxA cur =>
      match v with
      | .num q =>
          match cur with
          | none => .maxA (some q)
          | some m => if q > m then .maxA (some q) else .maxA (some m)
      | _ => .maxA cur
  | .distinct seen =>
      match v with
      | .null => .distinct seen
      | .undef => .distinct seen
      | _ =>
          let s := measureValueToString v
          if s ∈ seen then .distinct seen else .distinct (seen ++ [s])

/-- `finalize()` of each accumulator class. -/
def accFinalize : AccState → Rat
  | .sum v => v
  | .count n => n
  | .avg s n => if n = 0 then 0 else s / (n : Rat)
  | .minA cur => cur.getD 0
  | .maxA cur => cur.getD 0
  | .distinct seen => seen.length

/-- Create an accumulator, feed it the whole input list, and finalize. -/
def runAccumulator (t : AggregationType) (xs : List MeasureValue) : Rat :=
  accFinalize (xs.foldl accAdd (createAccumulator t))

/-- The numeric inputs of a list of measure values, in order. -/
def numericInputs (xs : List MeasureValue) : List Rat :=
  xs.filterMap fun v => match v with | .num q => some q | _ => none

/-- Is the input non-null and non-absent? -/
def isPresent : MeasureValue → Bool
  | .null => false
  | .undef => false
  | _ => true

/-- The stringified forms of the non-null, non-absent inputs. -/
def presentStrings (xs : List MeasureValue) : List String :=
  (xs.filter isPresent).map measureValueToString

/-- `CubeDimension` from cube-manager.ts. -/
structure CubeDimension where
  name : String
  label : Option String := none
  hierarchy : List String
deriving DecidableEq, Repr

/-- `CubeMeasure` from cube-manager.ts. -/
structure CubeMeasure where
  name : String
  label : Option String := none
  valueField : String
  aggregation : AggregationType
  format : Option String := none
deriving DecidableEq, Repr

/-- `FactRow` from cube-manager.ts: nested records of scalars. -/
structure FactRow where
  dimensions : List (String × List (String × DimValue))
  metrics : List (String × MeasureValue)
deriving DecidableEq, Repr

/-- `CubeDefinition` from cube-manager.ts. -/
structure CubeDefinition where
  name : String
  description : Option String := none
  dimensions : List CubeDimension
  measures : List CubeMeasure
  rows : List FactRow
deriving DecidableEq, Repr

/-- `row.dimensions[d]?.[l]` (undefined is `none`). -/
def factDimValue (row : FactRow) (d l : String) : Option DimValue :=
  (jsGet d row.dimensions).bind (jsGet l)

/-- `row.metrics[f]`: an absent field reads as `undefined`. -/
def factMetric (row : FactRow) (f : String) : MeasureValue :=
  (jsGet f row.metrics).getD MeasureValue.undef

/-- `CubeManager.storeKey`. -/
def storeKey (dimension level : String) : String :=
  dimension ++ "." ++ level

/-- A per-measure record of accumulator states (`Record<string, AggregationAccumulator>`). -/
abbrev AccRecord := List (String × AccState)

/-- The mutable store built inside `materializeAggregates`. -/
abbrev WorkingStore := List (String × List (DimValue × AccRecord))

/-- The finalized store (`Map<string, Map<DimensionValue, Record<string, number>>>`). -/
abbrev AggregateStore := List (String × List (DimValue × List (String × Rat)))

/-- `CubeManager.createMeasureAccumulatorSet`. -/
def createMeasureAccumulatorSet (measures : List CubeMeasure) : AccRecord :=
  measures.foldl (fun acc m => jsSet m.name (createAccumulator m.aggregation) acc) []

/-- The inner loop of `materializeAggregates` that feeds one fact row into
the accumulator record of one (dimension.level, value) cell. -/
def ingestRow (measures : List CubeMeasure) (row : FactRow) (rec : AccRecord) : AccRecord :=
  measures.foldl
    (fun r m => jsUpdate m.name (fun st => accAdd st (factMetric row m.valueField)) r)
    rec

/-- Processing of a single (row, dimension, level) triple in
`materializeAggregates`. -/
def processRowLevel (measures : List CubeMeasure) (row : FactRow) (dName level : String)
    (ws : WorkingStore) : WorkingStore :=
  match factDimValue row dName level with
  | none => ws
  | some v =>
      let key := storeKey dName level
      let levelStore := (jsGet key ws).getD []
      let levelStore :=
        if (jsGet v levelStore).isSome then levelStore
        else jsSet v (createMeasureAccumulatorSet measures) levelStore
      let levelStore := jsUpdate v (ingestRow measures row) levelStore
      jsSet key levelStore ws

/-- Processing of a single fact row (the two inner loops of
`materializeAggregates`). -/
def processRow (defn : CubeDefinition) (ws : WorkingStore) (row : FactRow) : WorkingStore :=
  defn.dimensions.foldl
    (fun ws dim =>
      dim.hierarchy.foldl (fun ws level => processRowLevel defn.measures row dim.name level ws) ws)
    ws

/-- The working store after the scan phase of `materializeAggregates`. -/
def materializeWorking (defn : CubeDefinition) : WorkingStore :=
  defn.rows.foldl (processRow defn) []

/-- The finalize phase of `materializeAggregates`: per measure, read its
accumulator and store the finalized number under the measure name. -/
def finalizeRecord (measures : List CubeMeasure) (rec : AccRecord) : List (String × Rat) :=
  measures.foldl
    (fun r m =>
      jsSet m.name (accFinalize ((jsGet m.name rec).getD (createAccumulator m.aggregation))) r)
    []

/-- `CubeManager.materializeAggregates`. -/
def materializeAggregates (defn : CubeDefinition) : AggregateStore :=
  (materializeWorking defn).map fun kv =>
    (kv.1, kv.2.map fun cell => (cell.1, finalizeRecord defn.measures cell.2))

/-- The `CubeInstance` stored by `registerCube`. -/
structure CubeInstance where
  definition : CubeDefinition
  dimensionMap : List (String × CubeDimension)
  measureMap : List (String × CubeMeasure)
  aggregateStore : AggregateStore
deriving DecidableEq, Repr

/-- Building the instance as `registerCube` does. -/
def mkCubeInstance (defn : CubeDefinition) : CubeInstance :=
  { definition := defn
    dimensionMap := mapOfList (defn.dimensions.map fun d => (d.name, d))
    measureMap := mapOfList (defn.measures.map fun m => (m.name, m))
    aggregateStore := materializeAggregates defn }

/-- `AxisSpec` from query-contract.ts (`alias` is renamed `aliasName`;
neither it nor `sort` is read by the engine). -/
structure AxisSpec where
  dimension : String
  level : Option String := none
  aliasName : Option String := none
  sort : Option String := none
deriving DecidableEq, Repr

/-- A filter's `value`: a scalar or an array of scalars (the zod schema's
2-tuple is the length-2 array case). -/
inductive FilterValue where
  | scalar : DimValue → FilterValue
  | list : List DimValue → FilterValue
deriving DecidableEq, Repr

/-- `FilterOperator` from query-contract.ts (`in` is spelled `inOp`). -/
inductive FilterOp where
  | eq | neq | inOp | nin | gt | gte | lt | lte | between
deriving DecidableEq, Repr

/-- `FilterSpec` from query-contract.ts. -/
structure FilterSpec where
  dimension : String
  level : Option String := none
  operator : FilterOp
  value : FilterValue
deriving DecidableEq, Repr

/-- `DrillSpec` from query-contract.ts. -/
structure DrillSpec where
  dimension : String
  fromLevel : String
  toLevel : String
  path : Option (List DimValue) := none
deriving DecidableEq, Repr

/-- `RollupSpec` from query-contract.ts. -/
structure RollupSpec where
  dimension : String
  level : String
deriving DecidableEq, Repr

/-- `PivotSpec` from query-contract.ts. -/
structure PivotSpec where
  rows : Option (List AxisSpec) := none
  columns : Option (List AxisSpec) := none
deriving DecidableEq, Repr

/-- `QueryPayload` from query-contract.ts. -/
structure QueryPayload where
  cube : String
  mdx : Option String := none
  rows : Option (List AxisSpec) := none
  columns : Option (List AxisSpec) := none
  slices : Option (List FilterSpec) := none
  dices : Option (List FilterSpec) := none
  filters : Option (List FilterSpec) := none
  measures : List String
  drill : Option DrillSpec := none
  rollup : Option RollupSpec := none
  pivot : Option PivotSpec := none
  includeFlattened : Option Bool := none
deriving DecidableEq, Repr

/-- `NormalizedQuery` from cube-manager.ts. -/
structure NormalizedQuery where
  cube : String
  measures : List String
  rows : List AxisSpec
  columns : List AxisSpec
  slices : List FilterSpec
  dices : List FilterSpec
  filters : List FilterSpec
  allFilters : List FilterSpec
  drill : Option DrillSpec
  rollup : Option RollupSpec
  includeFlattened : Bool
  mdx : Option String
deriving DecidableEq, Repr

/-- `CubeError` (typed engine failure with an HTTP status class). -/
structure CubeError where
  status : Nat
  message : String
deriving DecidableEq, Repr

/-- JS strict equality `value === target` between the possibly-undefined
fact value and a scalar target. -/
def strictEq (value : Option DimValue) (t : DimValue) : Bool :=
  value = some t

/-- `CubeManager.evaluateFilter`. Numeric operators demand `typeof` number
on both sides; `between` coerces its two bounds with `Number(...)`. -/
def evaluateFilter (value : Option DimValue) (filter : FilterSpec) : Bool :=
  match filter.operator with
  | .eq =>
      match filter.value with
      | .scalar t => strictEq value t
      | .list _ => false
  | .neq =>
      match filter.value with
      | .scalar t => !strictEq value t
      | .list _ => true
  | .inOp =>
      match filter.value with
      | .list ts => ts.any (strictEq value)
      | .scalar t => strictEq value t
  | .nin =>
      match filter.value with
      | .list ts => !ts.any (strictEq value)
      | .scalar t => !strictEq value t
  | .gt =>
      match value, filter.value with
      | some (.num a), .scalar (.num b) => a > b
      | _, _ => false
  | .gte =>
      match value, filter.value with
      | some (.num a), .scalar (.num b) => a ≥ b
      | _, _ => false
  | .lt =>
      match value, filter.value with
      | some (.num a), .scalar (.num b) => a < b
      | _, _ => false
  | .lte =>
      match value, filter.value with
      | some (.num a), .scalar (.num b) => a ≤ b
      | _, _ => false
  | .between =>
      match filter.value with
      | .list [mn, mx] =>
          match value with
          | some (.num q) =>
              (match jsNumber mn with | some m => decide (q ≥ m) | none => false) &&
              (match jsNumber mx with | some m => decide (q ≤ m) | none => false)
          | _ => false
      | _ => false

/-- `CubeManager.valueForFilter`: the fact value at the filter's dimension
and level, defaulting to the finest level of the hierarchy. -/
def valueForFilter (row : FactRow) (filter : FilterSpec) (cube : CubeInstance) :
    Option DimValue :=
  match jsGet filter.dimension cube.dimensionMap with
  | none => none
  | some dim =>
      match filter.level with
      | some level => factDimValue row filter.dimension level
      | none =>
          match dim.hierarchy.getLast? with
          | some level => factDimValue row filter.dimension level
          | none => none

/-- `Array.prototype.indexOf` on level names (`none` models `-1`). -/
def levelIndex (hierarchy : List String) (level : String) : Option Nat :=
  match hierarchy with
  | [] => none
  | x :: rest => if x = level then some 0 else (levelIndex rest level).map (· + 1)

/-- One bound-level comparison inside `matchesDrill`: numbers compare via
`Number(expected)`, everything else via stringification. -/
def drillValueMatches (actual : DimValue) (expected : DimValue) : Bool :=
  match actual with
  | .num a =>
      match jsNumber expected with
      | some e => e = a
      | none => false
  | .str _ => dimValueToString actual = dimValueToString expected

/-- `CubeManager.matchesDrill`. -/
def matchesDrill (row : FactRow) (drill : DrillSpec) (cube : CubeInstance) : Bool :=
  match jsGet drill.dimension cube.dimensionMap with
  | none => true
  | some dim =>
      match drill.path with
      | none => true
      | some [] => true
      | some path =>
          match levelIndex dim.hierarchy drill.fromLevel, levelIndex dim.hierarchy drill.toLevel with
          | some fromIdx, some toIdx =>
              let start := min fromIdx toIdx
              let len := min path.length ((max fromIdx toIdx - min fromIdx toIdx) + 1)
              (List.range len).all fun i =>
                match dim.hierarchy.get? (start + i), path.get? i with
                | some level, some expected =>
                    match factDimValue row drill.dimension level with
                    | none => false
                    | some actual => drillValueMatches actual expected
                | _, _ => false
          | _, _ => true

/-- `CubeManager.matchesFilters`. -/
def matchesFilters (row : FactRow) (query : NormalizedQuery) (cube : CubeInstance) : Bool :=
  query.allFilters.all (fun f => evaluateFilter (valueForFilter row f cube) f) &&
  (match query.drill with
   | none => true
   | some drill =>
       match drill.path with
       | none => true
       | some [] => true
       | some _ => matchesDrill row drill cube)

/-- `compareValues` from cube-manager.ts: numeric difference for two
numbers, otherwise lexicographic comparison of string forms
(`localeCompare` is modelled as code-point comparison). -/
def compareValues (a b : DimValue) : Rat :=
  match a, b with
  | .num x, .num y => x - y
  | _, _ =>
      let sa := dimValueToString a
      let sb := dimValueToString b
      if sa = sb then 0 else if strLt sa sb then -1 else 1

/-- `PartialQuery` (the parser's output; every field optional). -/
structure PartialQuery where
  cube : Option String := none
  mdx : Option String := none
  rows : Option (List AxisSpec) := none
  columns : Option (List AxisSpec) := none
  slices : Option (List FilterSpec) := none
  dices : Option (List FilterSpec) := none
  filters : Option (List FilterSpec) := none
  measures : Option (List String) := none
  drill : Option DrillSpec := none
  rollup : Option RollupSpec := none
  pivot : Option PivotSpec := none
  includeFlattened : Option Bool := none
deriving DecidableEq, Repr

/-- `fragment.split(/\s+/)` on trimmed text: whitespace-separated tokens. -/
def splitWs (s : String) : List String :=
  (s.split Char.isWhitespace).filter (· ≠ "")

/-- `.replace(/^['"]|['"]$/g, '')`: strip one leading and one trailing
quote character. -/
def stripQuotes (s : String) : String :=
  let cs := s.toList
  let cs := match cs with
    | c :: rest => if c = '\'' ∨ c = '"' then rest else cs
    | [] => []
  let cs := match cs.getLast? with
    | some c => if c = '\'' ∨ c = '"' then cs.dropLast else cs
    | none => cs
  String.mk cs

/-- `parseScalarToken`: numeric-looking tokens become numbers. -/
def parseScalarToken (token : String) : DimValue :=
  match parseJsNumber token with
  | some q => .num q
  | none => .str token

/-- `parseAxisList`. -/
def parseAxisList (value : String) : List AxisSpec :=
  ((value.splitOn ",").map String.trim).filter (· ≠ "") |>.map fun token =>
    match token.splitOn "." with
    | [] => { dimension := "" }
    | [d] => { dimension := d }
    | d :: l :: _ => { dimension := d, level := some l }

/-- `parseEqualityFilter` (used by SLICE). -/
def parseEqualityFilter (expression : String) (operator : FilterOp) :
    Except CubeError FilterSpec :=
  let parts := expression.splitOn "="
  let lhs := (parts.get? 0).getD ""
  match lhs, parts.get? 1 with
  | "", _ => .error ⟨400, "Invalid slice expression: " ++ expression⟩
  | _, none => .error ⟨400, "Invalid slice expression: " ++ expression⟩
  | _, some "" => .error ⟨400, "Invalid slice expression: " ++ expression⟩
  | _, some rhs =>
      let lparts := lhs.trim.splitOn "."
      let dimension := (lparts.get? 0).getD ""
      let level := lparts.get? 1
      let value := parseScalarToken (stripQuotes rhs.trim)
      .ok { dimension, level, operator, value := .scalar value }

/-- Attempted match of the DICE regex `([^\s]+)\s+IN\s*\(([^)]+)\)`
at the head of the character list. -/
def matchSetAt (cs : List Char) : Option (String × String) :=
  let g1 := cs.takeWhile (fun c => !c.isWhitespace)
  if g1 = [] then none else
  let rest1 := cs.dropWhile (fun c => !c.isWhitespace)
  if rest1.takeWhile Char.isWhitespace = [] then none else
  match rest1.dropWhile Char.isWhitespace with
  | i :: n :: rest3 =>
      if i.toUpper = 'I' ∧ n.toUpper = 'N' then
        match rest3.dropWhile Char.isWhitespace with
        | '(' :: rest5 =>
            let inner := rest5.takeWhile (· ≠ ')')
            if inner = [] then none
            else if rest5.dropWhile (· ≠ ')') = [] then none
            else some (String.mk g1, String.mk inner)
        | _ => none
      else none
  | _ => none

/-- Scan of the DICE regex over every start position (first match wins). -/
def matchSetScan : List Char → Option (String × String)
  | [] => none
  | c :: rest =>
      match matchSetAt (c :: rest) with
      | some r => some r
      | none => matchSetScan rest

/-- `parseSetFilter` (used by DICE). -/
def parseSetFilter (expression : String) : Except CubeError FilterSpec :=
  match matchSetScan expression.toList with
  | none => .error ⟨400, "Invalid dice expression: " ++ expression⟩
  | some (g1, inner) =>
      let lparts := g1.splitOn "."
      let dimension := (lparts.get? 0).getD ""
      let level := lparts.get? 1
      let value := (inner.splitOn ",").map fun token =>
        parseScalarToken (stripQuotes token.trim)
      .ok { dimension, level, operator := .inOp, value := .list value }

/-- Comparison operators in the alternation order of the FILTER regex
`(=|!=|>=|<=|>|<)`, paired with the `operatorMap` results. -/
def comparisonOps : List (List Char × FilterOp) :=
  [(['='], .eq), (['!', '='], .neq), (['>', '='], .gte),
   (['<', '='], .lte), (['>'], .gt), (['<'], .lt)]

/-- Drop a literal character sequence from the front of a list. -/
def dropLiteral : List Char → List Char → Option (List Char)
  | [], cs => some cs
  | _ :: _, [] => none
  | p :: ps, c :: cs => if p = c then dropLiteral ps cs else none

/-- Backtracking over the greedy group `([^\s]+)` of the FILTER regex:
try the run from longest prefix down (the run is passed reversed), then the
operator alternation, then `\s*(.+)`. -/
def matchCompBack : List Char → List Char → Option (String × FilterOp × String)
  | [], _ => none
  | c :: g1rev, rest =>
      let afterWs := rest.dropWhile Char.isWhitespace
      let hit := comparisonOps.findSome? fun op =>
        (dropLiteral op.1 afterWs).map fun tail => (op.2, tail)
      match hit with
      | some (op, tail) =>
          let tail2 := tail.dropWhile Char.isWhitespace
          if tail2 = [] then matchCompBack g1rev (c :: rest)
          else some (String.mk (c :: g1rev).reverse, op, String.mk tail2)
      | none => matchCompBack g1rev (c :: rest)

/-- Attempted match of the FILTER regex at the head of the list. -/
def matchCompAt (cs : List Char) : Option (String × FilterOp × String) :=
  let run := cs.takeWhile (fun c => !c.isWhitespace)
  matchCompBack run.reverse (cs.drop run.length)

/-- Scan of the FILTER regex over every start position. -/
def matchCompScan : List Char → Option (String × FilterOp × String)
  | [] => none
  | c :: rest =>
      match matchCompAt (c :: rest) with
      | some r => some r
      | none => matchCompScan rest

/-- `parseComparisonFilter` (used by FILTER). -/
def parseComparisonFilter (expression : String) : Except CubeError FilterSpec :=
  match matchCompScan expression.toList with
  | none => .error ⟨400, "Invalid filter expression: " ++ expression⟩
  | some (g1, op, raw) =>
      let lparts := g1.splitOn "."
      let dimension := (lparts.get? 0).getD ""
      let level := lparts.get? 1
      let value := parseScalarToken (stripQuotes raw.trim)
      .ok { dimension, level, operator := op, value := .scalar value }

/-- The DRILL clause body. -/
def parseDrillClause (rest : String) : Except CubeError DrillSpec :=
  let parts := splitWs rest
  let dimension? := parts.get? 0
  let fromLevel? := parts.get? 1
  let arrowIndex? := parts.findIdx? fun t => t = "->" ∨ t.toLower = "to"
  let toLevel? := match arrowIndex? with
    | some i => parts.get? (i + 1)
    | none => parts.get? 2
  match dimension?, fromLevel?, toLevel? with
  | some dimension, some fromLevel, some toLevel =>
      let path := match parts.findIdx? (fun t => t.toLower = "path") with
        | some i =>
            let joined := " ".intercalate (parts.drop (i + 1))
            ((joined.split fun c => c = ',' ∨ c = '>').map String.trim).filter (· ≠ "")
        | none => []
      .ok { dimension, fromLevel, toLevel, path := some (path.map DimValue.str) }
  | _, _, _ => .error ⟨400, "Invalid DRILL clause: " ++ rest⟩

/-- One fragment of the textual helper applied to the partial query. -/
def applyFragment (pq : PartialQuery) (fragment : String) :
    Except CubeError PartialQuery :=
  match splitWs fragment with
  | [] => .ok pq
  | keywordRaw :: restParts =>
      let keyword := keywordRaw.toUpper
      let rest := (" ".intercalate restParts).trim
      if keyword = "MEASURES" then
        .ok { pq with
              measures := some (((rest.splitOn ",").map String.trim).filter (· ≠ "")) }
      else if keyword = "ROWS" then
        .ok { pq with rows := some (parseAxisList rest) }
      else if keyword = "COLUMNS" then
        .ok { pq with columns := some (parseAxisList rest) }
      else if keyword = "SLICE" then
        (parseEqualityFilter rest .eq).map fun f =>
          { pq with slices := some ((pq.slices.getD []) ++ [f]) }
      else if keyword = "DICE" then
        (parseSetFilter rest).map fun f =>
          { pq with dices := some ((pq.dices.getD []) ++ [f]) }
      else if keyword = "FILTER" then
        (parseComparisonFilter rest).map fun f =>
          { pq with filters := some ((pq.filters.getD []) ++ [f]) }
      else if keyword = "DRILL" then
        (parseDrillClause rest).map fun d => { pq with drill := some d }
      else if keyword = "ROLLUP" then
        -- The source assigns `{ dimension, level }` from a 2-way destructuring;
        -- a missing token is JS `undefined`, later acting as an unknown level.
        let toks := splitWs rest
        .ok { pq with
              rollup := some { dimension := (toks.get? 0).getD ""
                               level := (toks.get? 1).getD "undefined" } }
      else
        .ok pq

/-- `parseLightweightMdx`. -/
def parseLightweightMdx (mdx : Option String) : Except CubeError PartialQuery :=
  match mdx with
  | none => .ok {}
  | some text =>
      let fragments := ((text.splitOn ";").map String.trim).filter (· ≠ "")
      fragments.foldlM applyFragment {}

/-- `mergeQueryPayload`: the structured payload wins field by field. -/
def mergeQueryPayload (base : PartialQuery) (override : QueryPayload) : QueryPayload :=
  { cube := override.cube
    mdx := override.mdx <|> base.mdx
    rows := override.rows <|> base.rows
    columns := override.columns <|> base.columns
    slices := override.slices <|> base.slices
    dices := override.dices <|> base.dices
    filters := override.filters <|> base.filters
    measures := override.measures
    drill := override.drill <|> base.drill
    rollup := override.rollup <|> base.rollup
    pivot := override.pivot <|> base.pivot
    includeFlattened := override.includeFlattened <|> base.includeFlattened }

/-- Fail-fast mapping over a list in `Except` (the sequencing of the
source's loops and `map` calls that may throw). -/
def mapExcept (f : α → Except ε β) : List α → Except ε (List β)
  | [] => .ok []
  | a :: rest =>
      match f a with
      | .error e => .error e
      | .ok b =>
          match mapExcept f rest with
          | .error e => .error e
          | .ok bs => .ok (b :: bs)

/-- Fail-fast left fold in `Except` (the source's `for` loop over facts). -/
def foldlExcept (f : σ → α → Except ε σ) (init : σ) : List α → Except ε σ
  | [] => .ok init
  | a :: rest =>
      match f init a with
      | .error e => .error e
      | .ok st => foldlExcept f st rest

/-- The rollup rewrite step of `CubeManager.resolveAxis`. -/
def resolveRollupLevel (axis : AxisSpec) (query : QueryPayload)
    (dimension : CubeDimension) (lv : String) : Except CubeError String :=
  match query.rollup with
  | none => .ok lv
  | some rollup =>
      if rollup.dimension = axis.dimension then
        match levelIndex dimension.hierarchy rollup.level,
            levelIndex dimension.hierarchy lv with
        | none, _ =>
            .error ⟨400, "Roll-up level " ++ rollup.level ++
              " not found in dimension " ++ axis.dimension ++ "."⟩
        | some rollupIdx, some levelIdx =>
            .ok (if levelIdx > rollupIdx then rollup.level else lv)
        | some _, none => .ok lv
      else .ok lv

/-- The drill rewrite step of `CubeManager.resolveAxis`. -/
def resolveDrillLevel (axis : AxisSpec) (query : QueryPayload)
    (dimension : CubeDimension) (level1 : String) : Except CubeError String :=
  match query.drill with
  | none => .ok level1
  | some drill =>
      if drill.dimension = axis.dimension then
        if drill.toLevel ∉ dimension.hierarchy then
          .error ⟨400, "Drill target level " ++ drill.toLevel ++
            " is not part of dimension " ++ axis.dimension ++ "."⟩
        else .ok drill.toLevel
      else .ok level1

/-- `CubeManager.resolveAxis`: default to the finest level, apply rollup
and drill rewrites, reject unknown dimensions or levels. -/
def resolveAxis (axis : AxisSpec) (query : QueryPayload) (cube : CubeInstance) :
    Except CubeError AxisSpec :=
  match jsGet axis.dimension cube.dimensionMap with
  | none =>
      .error ⟨400, "Dimension " ++ axis.dimension ++ " is not defined for cube " ++
        cube.definition.name ++ "."⟩
  | some dimension =>
      match axis.level <|> dimension.hierarchy.getLast? with
      | none => .error ⟨400, "Unknown level undefined for dimension " ++ axis.dimension ++ "."⟩
      | some lv =>
          if lv ∉ dimension.hierarchy then
            .error ⟨400, "Unknown level " ++ lv ++ " for dimension " ++ axis.dimension ++ "."⟩
          else
            match resolveRollupLevel axis query dimension lv with
            | .error e => .error e
            | .ok level1 =>
                match resolveDrillLevel axis query dimension level1 with
                | .error e => .error e
                | .ok level2 => .ok { axis with level := some level2 }

/-- `CubeManager.defaultRows` (reading `dimensions[0]` of an empty list is a
JS `TypeError`, surfaced as a 500-class failure). -/
def defaultRows (cube : CubeInstance) : Except CubeError (List AxisSpec) :=
  match cube.definition.dimensions with
  | [] => .error ⟨500, "TypeError: cannot read properties of undefined"⟩
  | dimension :: _ =>
      .ok [{ dimension := dimension.name, level := dimension.hierarchy.head? }]

/-- `CubeManager.normalizeQuery`. -/
def normalizeQuery (payload : QueryPayload) (cube : CubeInstance) :
    Except CubeError NormalizedQuery := do
  let mdxHints ← parseLightweightMdx payload.mdx
  let merged := mergeQueryPayload mdxHints payload
  let includeFlattened := merged.includeFlattened.getD true
  let rowAxes := ((merged.pivot.bind PivotSpec.rows) <|> merged.rows).getD []
  let columnAxes := ((merged.pivot.bind PivotSpec.columns) <|> merged.columns).getD []
  let slices := merged.slices.getD []
  let dices := merged.dices.getD []
  let filters := merged.filters.getD []
  let allFilters := slices ++ dices ++ filters
  let resolvedRows ← mapExcept (resolveAxis · merged cube) rowAxes
  let resolvedColumns ← mapExcept (resolveAxis · merged cube) columnAxes
  let finalRows ←
    if resolvedRows.length ≠ 0 ∨ resolvedColumns.length ≠ 0 then pure resolvedRows
    else defaultRows cube
  match merged.measures.find? (fun m => (jsGet m cube.measureMap).isNone) with
  | some m =>
      .error ⟨400, "Unknown measure " ++ m ++ " for cube " ++ cube.definition.name ++ "."⟩
  | none =>
      .ok { cube := merged.cube
            measures := merged.measures
            rows := finalRows
            columns := resolvedColumns
            slices, dices, filters, allFilters
            drill := merged.drill
            rollup := merged.rollup
            includeFlattened
            mdx := payload.mdx }

/-- `PlanningStrategy` from the planner module. -/
inductive PlanningStrategy where
  | preAggregate | rawScan
deriving DecidableEq, Repr

/-- `ExecutionPlan` from the planner module. -/
structure ExecutionPlan where
  strategy : PlanningStrategy
  reason : String
deriving DecidableEq, Repr

/-- `PlanningContext` from the planner module. -/
structure PlanningContext where
  rows : List AxisSpec
  columns : List AxisSpec
  appliedFilterCount : Nat
  measures : List String
  hasDrill : Bool
  hasRollup : Bool
deriving DecidableEq, Repr

/-- `QueryPlanner.referencesSingleDimension`. -/
def referencesSingleDimension (rows columns : List AxisSpec) : Bool :=
  (((rows ++ columns).map AxisSpec.dimension).dedup).length ≤ 1

/-- `QueryPlanner.plan` (the cube metadata argument is never read). -/
def plannerPlan (context : PlanningContext) : ExecutionPlan :=
  let axisCount := context.rows.length + context.columns.length
  let noFilters := context.appliedFilterCount = 0 ∧
    context.hasDrill = false ∧ context.hasRollup = false
  if axisCount = 1 ∧ context.columns.length = 0 ∧
      referencesSingleDimension context.rows context.columns ∧ noFilters then
    { strategy := .preAggregate
      reason := "Single-axis aggregation with no filters leverages materialized hierarchy totals." }
  else
    { strategy := .rawScan
      reason := "Query requires either multiple axes, filters, or drill/roll operations so raw fact scanning is cheaper." }

/-- The planning context `execute` builds from a normalized query. -/
def planningContextOf (q : NormalizedQuery) : PlanningContext :=
  { rows := q.rows
    columns := q.columns
    appliedFilterCount := q.allFilters.length
    measures := q.measures
    hasDrill := q.drill.isSome
    hasRollup := q.rollup.isSome }

/-- The plan `execute` obtains for a normalized query. -/
def planOf (q : NormalizedQuery) : ExecutionPlan :=
  plannerPlan (planningContextOf q)

/-- A JS value fed to `stableStringify` (`undef` renders as the bare text
`undefined`, as template interpolation of `JSON.stringify(undefined)` does). -/
inductive Json where
  | undef : Json
  | null : Json
  | bool : Bool → Json
  | num : Rat → Json
  | str : String → Json
  | arr : List Json → Json
  | obj : List (String × Json) → Json

/-- Four-digit hex rendering for JSON control-character escapes. -/
def hex4 (n : Nat) : String :=
  let d := fun k => String.singleton (Nat.digitChar (n / 16 ^ k % 16))
  d 3 ++ d 2 ++ d 1 ++ d 0

/-- One character of `JSON.stringify` string escaping. -/
def jsonEscapeChar (c : Char) : String :=
  if c = '"' then "\\\""
  else if c = '\\' then "\\\\"
  else if c = '\n' then "\\n"
  else if c = '\t' then "\\t"
  else if c = '\r' then "\\r"
  else if c.toNat = 8 then "\\b"
  else if c.toNat = 12 then "\\f"
  else if c.toNat < 32 then "\\u" ++ hex4 c.toNat
  else String.singleton c

/-- `JSON.stringify` of a string. -/
def jsonQuote (s : String) : String :=
  "\"" ++ String.join (s.toList.map jsonEscapeChar) ++ "\""

/-- Stable insertion into a sorted list: `x` goes before the first `y` it
compares `≤` to, matching a stable JS `sort` with comparator `le`. -/
def sortedInsert (le : α → α → Bool) (x : α) : List α → List α
  | [] => [x]
  | y :: ys => if le x y then x :: y :: ys else y :: sortedInsert le x ys

/-- Stable sort by a boolean `≤`, modelling `Array.prototype.sort` with a
comparator (JS sort is stable). -/
def stableSort (le : α → α → Bool) (l : List α) : List α :=
  l.foldr (sortedInsert le) []

-- stableStringify from cube-manager.ts: object keys sorted
-- lexicographically, arrays in order. Fields are rendered first and sorted
-- by key afterwards, which agrees with the source's
-- Object.keys(value).sort().map(...) because JS object keys are unique.
mutual

/-- `stableStringify` from cube-manager.ts. -/
def stableStringify : Json → String
  | .undef => "undefined"
  | .null => "null"
  | .bool true => "true"
  | .bool false => "false"
  | .num q => ratToJsString q
  | .str s => jsonQuote s
  | .arr items => "[" ++ ",".intercalate (stringifyItems items) ++ "]"
  | .obj fields =>
      "\x7b" ++
        ",".intercalate
          ((stableSort fieldLe (stringifyFields fields)).map
            fun kv => jsonQuote kv.1 ++ ":" ++ kv.2) ++
        "\x7d"

/-- `stableStringify` mapped over array items. -/
def stringifyItems : List Json → List String
  | [] => []
  | j :: rest => stableStringify j :: stringifyItems rest

/-- `stableStringify` mapped over object fields. -/
def stringifyFields : List (String × Json) → List (String × String)
  | [] => []
  | (k, j) :: rest => (k, stableStringify j) :: stringifyFields rest
end

/-- Scalars to JSON. -/
def dimValueToJson : DimValue → Json
  | .str s => .str s
  | .num q => .num q

/-- An optional JSON field: omitted when the value is absent (zod-parsed
payloads carry no key for omitted optionals). -/
def optField (name : String) (v : Option Json) : List (String × Json) :=
  match v with
  | none => []
  | some j => [(name, j)]

/-- An axis spec as the JS object flowing into the fingerprint (`level` is
always present after resolution; `alias`/`sort` only when provided). -/
def axisToJson (a : AxisSpec) : Json :=
  .obj ([("dimension", .str a.dimension),
         ("level", (a.level.map Json.str).getD .undef)] ++
        optField "alias" (a.aliasName.map Json.str) ++
        optField "sort" (a.sort.map Json.str))

/-- A filter value as JSON. -/
def filterValueToJson : FilterValue → Json
  | .scalar v => dimValueToJson v
  | .list vs => .arr (vs.map dimValueToJson)

/-- Operator names as serialized. -/
def filterOpName : FilterOp → String
  | .eq => "eq" | .neq => "neq" | .inOp => "in" | .nin => "nin"
  | .gt => "gt" | .gte => "gte" | .lt => "lt" | .lte => "lte"
  | .between => "between"

/-- A filter spec as JSON. -/
def filterToJson (f : FilterSpec) : Json :=
  .obj ([("dimension", .str f.dimension)] ++
        optField "level" (f.level.map Json.str) ++
        [("operator", .str (filterOpName f.operator)),
         ("value", filterValueToJson f.value)])

/-- A drill spec as JSON. -/
def drillToJson (d : DrillSpec) : Json :=
  .obj ([("dimension", .str d.dimension),
         ("fromLevel", .str d.fromLevel),
         ("toLevel", .str d.toLevel)] ++
        optField "path" (d.path.map fun p => .arr (p.map dimValueToJson)))

/-- A rollup spec as JSON. -/
def rollupToJson (r : RollupSpec) : Json :=
  .obj [("dimension", .str r.dimension), ("level", .str r.level)]

/-- The `NormalizedQuery` object as fed to `stableStringify` (every key of
the object literal is present; absent options hold JS `undefined`). -/
def normalizedQueryToJson (q : NormalizedQuery) : Json :=
  .obj [("cube", .str q.cube),
        ("measures", .arr (q.measures.map Json.str)),
        ("rows", .arr (q.rows.map axisToJson)),
        ("columns", .arr (q.columns.map axisToJson)),
        ("slices", .arr (q.slices.map filterToJson)),
        ("dices", .arr (q.dices.map filterToJson)),
        ("filters", .arr (q.filters.map filterToJson)),
        ("allFilters", .arr (q.allFilters.map filterToJson)),
        ("drill", (q.drill.map drillToJson).getD .undef),
        ("rollup", (q.rollup.map rollupToJson).getD .undef),
        ("includeFlattened", .bool q.includeFlattened),
        ("mdx", (q.mdx.map Json.str).getD .undef)]

/-- Strategy names as serialized. -/
def strategyName : PlanningStrategy → String
  | .preAggregate => "pre-aggregate"
  | .rawScan => "raw-scan"

/-- An execution plan as JSON. -/
def planToJson (p : ExecutionPlan) : Json :=
  .obj [("strategy", .str (strategyName p.strategy)), ("reason", .str p.reason)]

/-- The fingerprint object `{ cube: normalized.cube, query: normalized,
plan }` built in `execute`. -/
def fingerprintJson (q : NormalizedQuery) : Json :=
  .obj [("cube", .str q.cube),
        ("query", normalizedQueryToJson q),
        ("plan", planToJson (planOf q))]

/-- The cache key computed in `execute`:
`stableStringify({ cube: normalized.cube, query: normalized, plan })`. -/
def cacheKeyOf (q : NormalizedQuery) : String :=
  stableStringify (fingerprintJson q)

/-- `PivotCoordinate` (the `'All'` sentinel is the string `"All"`, exactly
as in the source where it is a string literal). -/
structure PivotCoordinate where
  dimension : String
  level : String
  value : DimValue
deriving DecidableEq, Repr

/-- `PivotHeader`. -/
structure PivotHeader where
  key : String
  label : String
  coordinates : List PivotCoordinate
deriving DecidableEq, Repr

/-- `PivotMeasureMatrix`. -/
structure PivotMeasureMatrix where
  name : String
  values : List (List Rat)
deriving DecidableEq, Repr

/-- `FlatRow`. -/
structure FlatRow where
  rowKey : String
  columnKey : String
  coordinates : List (String × DimValue)
  measures : List (String × Rat)
deriving DecidableEq, Repr

/-- `BreadcrumbEntry`. -/
structure BreadcrumbEntry where
  dimension : String
  level : String
  value : DimValue
deriving DecidableEq, Repr

/-- The `data.pivot` block. -/
structure PivotData where
  rows : List PivotHeader
  columns : List PivotHeader
  measures : List PivotMeasureMatrix
deriving DecidableEq, Repr

/-- `QueryResultData`. -/
structure QueryResultData where
  pivot : PivotData
  flat : List FlatRow
deriving DecidableEq, Repr

/-- `CachedPayload`: what the executor produces and the cache stores. -/
structure CachedPayload where
  data : QueryResultData
  breadcrumbs : List BreadcrumbEntry
  suggestions : List String
  plan : ExecutionPlan
deriving DecidableEq, Repr

/-- `CubeManager.buildAxisKey`. -/
def buildAxisKey (coords : List PivotCoordinate) : String :=
  match coords with
  | [] => "__all__"
  | _ =>
      "|".intercalate (coords.map fun c =>
        c.dimension ++ "." ++ c.level ++ ":" ++ dimValueToString c.value)

/-- `CubeManager.toHeader` (the label separator reproduces the source's
literal bytes). -/
def toHeader (key : String) (coords : List PivotCoordinate) : PivotHeader :=
  let label :=
    match coords with
    | [] => "All"
    | _ => " â€¢ ".intercalate (coords.map fun c => dimValueToString c.value)
  { key, label, coordinates := coords }

/-- One coordinate of `CubeManager.buildCoordinates` (a falsy resolved
level — `undefined` or the empty string — throws). -/
def buildCoordinate (row : FactRow) (axis : AxisSpec) (cube : CubeInstance) :
    Except CubeError PivotCoordinate :=
  let dimension := jsGet axis.dimension cube.dimensionMap
  let defaultLevel := dimension.bind fun d => d.hierarchy.getLast?
  match axis.level <|> defaultLevel with
  | none => .error ⟨400, "Unable to resolve level for dimension " ++ axis.dimension ++ "."⟩
  | some level =>
      if level = "" then
        .error ⟨400, "Unable to resolve level for dimension " ++ axis.dimension ++ "."⟩
      else
        .ok { dimension := axis.dimension
              level
              value := (factDimValue row axis.dimension level).getD (.str "All") }

/-- `CubeManager.buildCoordinates`. -/
def buildCoordinates (row : FactRow) (axes : List AxisSpec) (cube : CubeInstance) :
    Except CubeError (List PivotCoordinate) :=
  mapExcept (buildCoordinate row · cube) axes

/-- `CubeManager.buildCoordinateRecord`. -/
def buildCoordinateRecord (rowHeader columnHeader : PivotHeader) :
    List (String × DimValue) :=
  (rowHeader.coordinates ++ columnHeader.coordinates).foldl
    (fun rec c => jsSet (c.dimension ++ "." ++ c.level) c.value rec) []

/-- `CubeManager.deriveVisualSuggestions` (the inserted strings are
pairwise distinct, so the JS `Set` is just the list). -/
def deriveVisualSuggestions (rows columns : List AxisSpec) (measures : List String) :
    List String :=
  if rows.length ≠ 0 ∧ columns.length ≠ 0 then ["heatmap", "stacked-bar"]
  else if rows.length ≠ 0 then [if rows.length = 1 then "column" else "matrix", "line"]
  else [if measures.length > 1 then "multi-stat" else "big-number"]

/-- `CubeManager.buildBreadcrumbs`. -/
def buildBreadcrumbs (query : NormalizedQuery) (cube : CubeInstance) :
    List BreadcrumbEntry :=
  match query.drill with
  | none => []
  | some drill =>
      match drill.path with
      | none => []
      | some [] => []
      | some path =>
          match jsGet drill.dimension cube.dimensionMap with
          | none => []
          | some dimension =>
              match levelIndex dimension.hierarchy drill.fromLevel,
                  levelIndex dimension.hierarchy drill.toLevel with
              | some fromIdx, some toIdx =>
                  let start := min fromIdx toIdx
                  let breadth := (max fromIdx toIdx - min fromIdx toIdx) + 1
                  let relevantLevels := (dimension.hierarchy.drop start).take breadth
                  path.enum.map fun vi =>
                    { dimension := drill.dimension
                      level := (relevantLevels.get? vi.1).getD drill.toLevel
                      value := vi.2 }
              | _, _ => []

/-- `CubeManager.emptyResult`. -/
def emptyResult (plan : ExecutionPlan) : CachedPayload :=
  { data := { pivot := { rows := [], columns := [], measures := [] }, flat := [] }
    breadcrumbs := []
    suggestions := []
    plan }

/-- `CubeManager.runPreAggregate`. -/
def runPreAggregate (query : NormalizedQuery) (cube : CubeInstance)
    (plan : ExecutionPlan) : CachedPayload :=
  match query.rows.head? <|> query.columns.head? with
  | none => emptyResult plan
  | some axis =>
      -- `axis.level!` interpolates JS undefined as the text "undefined".
      let level := axis.level.getD "undefined"
      let store := (jsGet (storeKey axis.dimension level) cube.aggregateStore).getD []
      let sortedEntries := stableSort (fun a b => compareValues a.1 b.1 ≤ 0) store
      let mkCoord := fun (v : DimValue) =>
        ({ dimension := axis.dimension, level, value := v } : PivotCoordinate)
      let rowHeaders := sortedEntries.map fun e =>
        toHeader (buildAxisKey [mkCoord e.1]) [mkCoord e.1]
      let columnHeader := toHeader "__all__" []
      let measures := query.measures.map fun mName =>
        ({ name := mName
           values := sortedEntries.map fun e => [(jsGet mName e.2).getD 0] } :
          PivotMeasureMatrix)
      let flat :=
        if query.includeFlattened then
          sortedEntries.map fun e =>
            let header := toHeader (buildAxisKey [mkCoord e.1]) [mkCoord e.1]
            ({ rowKey := header.key
               columnKey := columnHeader.key
               coordinates := buildCoordinateRecord header columnHeader
               measures := query.measures.foldl
                 (fun acc mName => jsSet mName ((jsGet mName e.2).getD 0) acc) [] } :
              FlatRow)
        else []
      { data := { pivot := { rows := rowHeaders, columns := [columnHeader], measures }
                  flat }
        breadcrumbs := buildBreadcrumbs query cube
        suggestions := deriveVisualSuggestions query.rows query.columns query.measures
        plan }

/-- The scan state of `runRawScan` (the `rowHeaders`/`columnHeaders` maps
are keyed by the same keys as the order lists, so membership is checked on
the order lists). -/
structure ScanState where
  rowOrder : List PivotHeader
  columnOrder : List PivotHeader
  table : List (String × List (String × AccRecord))
deriving Repr

/-- One fact row of the `runRawScan` scan loop. -/
def scanRow (query : NormalizedQuery) (cube : CubeInstance)
    (measureDefs : List CubeMeasure) (st : ScanState) (row : FactRow) :
    Except CubeError ScanState := do
  if !matchesFilters row query cube then
    return st
  let rowCoords ← buildCoordinates row query.rows cube
  let columnCoords ← buildCoordinates row query.columns cube
  let rowKey := buildAxisKey rowCoords
  let columnKey := buildAxisKey columnCoords
  let rowOrder :=
    if (st.rowOrder.map PivotHeader.key).contains rowKey then st.rowOrder
    else st.rowOrder ++ [toHeader rowKey rowCoords]
  let columnOrder :=
    if (st.columnOrder.map PivotHeader.key).contains columnKey then st.columnOrder
    else st.columnOrder ++ [toHeader columnKey columnCoords]
  let rowMap := (jsGet rowKey st.table).getD []
  let cell := (jsGet columnKey rowMap).getD (createMeasureAccumulatorSet measureDefs)
  let cell := measureDefs.foldl
    (fun c m => jsUpdate m.name (fun acc => accAdd acc (factMetric row m.valueField)) c)
    cell
  return { rowOrder, columnOrder, table := jsSet rowKey (jsSet columnKey cell rowMap) st.table }

/-- The finalize pass of `runRawScan` on one cell. -/
def resolveCell (queryMeasures : List String) (cell : AccRecord) : List (String × Rat) :=
  queryMeasures.foldl
    (fun r mName =>
      jsSet mName (accFinalize ((jsGet mName cell).getD (createAccumulator .SUM))) r)
    []

/-- The `cube.measureMap.get(name)!` lookups of `runRawScan`; a missing
measure would be a JS `TypeError`, surfaced as a 500-class failure. -/
def lookupMeasureDef (cube : CubeInstance) (n : String) : Except CubeError CubeMeasure :=
  match jsGet n cube.measureMap with
  | some m => Except.ok m
  | none => Except.error ⟨500, "TypeError: cannot read properties of undefined"⟩

/-- `CubeManager.runRawScan`. -/
def runRawScan (query : NormalizedQuery) (cube : CubeInstance)
    (plan : ExecutionPlan) : Except CubeError CachedPayload := do
  let measureDefs ← mapExcept (lookupMeasureDef cube) query.measures
  let st ← foldlExcept (scanRow query cube measureDefs)
    ({ rowOrder := [], columnOrder := [], table := [] } : ScanState)
    cube.definition.rows
  let resolvedTable := st.table.map fun kv =>
    (kv.1, kv.2.map fun cell => (cell.1, resolveCell query.measures cell.2))
  let measures := query.measures.map fun mName =>
    ({ name := mName
       values := st.rowOrder.map fun rh =>
         st.columnOrder.map fun ch =>
           match jsGet ch.key ((jsGet rh.key resolvedTable).getD []) with
           | some rec => (jsGet mName rec).getD 0
           | none => 0 } : PivotMeasureMatrix)
  let flat :=
    (if query.includeFlattened then
      st.rowOrder.flatMap fun rh =>
        st.columnOrder.filterMap fun ch =>
          (jsGet ch.key ((jsGet rh.key resolvedTable).getD [])).map fun rec =>
            ({ rowKey := rh.key
               columnKey := ch.key
               coordinates := buildCoordinateRecord rh ch
               measures := rec } : FlatRow)
    else [])
  return { data := { pivot := { rows := st.rowOrder, columns := st.columnOrder, measures }
                     flat }
           breadcrumbs := buildBreadcrumbs query cube
           suggestions := deriveVisualSuggestions query.rows query.columns query.measures
           plan }

/-- `CubeManager.runPlan`. -/
def runPlan (plan : ExecutionPlan) (query : NormalizedQuery) (cube : CubeInstance) :
    Except CubeError CachedPayload :=
  match plan.strategy with
  | .preAggregate => .ok (runPreAggregate query cube plan)
  | .rawScan => runRawScan query cube plan

/-- `CacheStats`: the counters surfaced in responses. -/
structure CacheStats where
  hits : Nat
  misses : Nat
  size : Nat
deriving DecidableEq, Repr

/-- The `cache` block of response metadata. -/
structure CacheMeta where
  hit : Bool
  key : String
  ttlRemainingMs : Option Int
  stats : CacheStats
deriving DecidableEq, Repr

/-- `QueryResponseMetadata`. -/
structure QueryResponseMetadata where
  cube : String
  measures : List String
  availableMeasures : List CubeMeasure
  breadcrumbs : List BreadcrumbEntry
  cache : CacheMeta
  planner : ExecutionPlan
  suggestions : List String
deriving DecidableEq, Repr

/-- `OlapQueryResponse`. -/
structure OlapQueryResponse where
  data : QueryResultData
  metadata : QueryResponseMetadata
deriving DecidableEq, Repr

/-- One stored cache entry with its insertion instant. -/
structure CacheEntry where
  payload : CachedPayload
  insertedAt : Nat
deriving DecidableEq, Repr

/-- Modelled from the spec: the result cache is the external `lru-cache`
dependency, described in the specification as a bounded LRU with per-entry
TTL. Entries are kept least-recently-used first; time is an explicit
`Nat` instant. -/
structure LruCache where
  max : Nat
  ttlMs : Nat
  entries : List (String × CacheEntry)
deriving DecidableEq, Repr

/-- Modelled from the spec: `get(key)` returns the live entry's payload
(refreshing recency) or none; a stale entry is dropped. -/
def lruGet (c : LruCache) (now : Nat) (k : String) :
    Option CachedPayload × LruCache :=
  match jsGet k c.entries with
  | none => (none, c)
  | some e =>
      if now < e.insertedAt + c.ttlMs then
        (some e.payload,
         { c with entries := c.entries.filter (fun kv => kv.1 != k) ++ [(k, e)] })
      else
        (none, { c with entries := c.entries.filter (fun kv => kv.1 != k) })

/-- Modelled from the spec: `set(key, entry)` stores the payload at the
most-recent position, evicting least-recently-used entries beyond `max`. -/
def lruSet (c : LruCache) (now : Nat) (k : String) (p : CachedPayload) : LruCache :=
  let without := c.entries.filter (fun kv => kv.1 != k)
  let trimmed :=
    if without.length + 1 > c.max then without.drop (without.length + 1 - c.max)
    else without
  { c with entries := trimmed ++ [(k, { payload := p, insertedAt := now })] }

/-- Modelled from the spec: `getRemainingTTL(key) -> ms|none`. -/
def lruRemainingTTL (c : LruCache) (now : Nat) (k : String) : Option Int :=
  (jsGet k c.entries).map fun e => ((e.insertedAt + c.ttlMs : Nat) : Int) - (now : Int)

/-- `CubeInvalidationEvent` from src/cube/manager.ts. -/
structure CubeInvalidationEvent where
  cube : String
  sources : List String
  timestamp : Nat
  reason : String
deriving DecidableEq, Repr

/-- The engine's mutable state: registered cubes, the result cache, the
hit/miss counters, and the recorded invalidation events. -/
structure EngineState where
  cubes : List (String × CubeInstance)
  cache : LruCache
  hits : Nat
  misses : Nat
  invalidations : List CubeInvalidationEvent
deriving DecidableEq, Repr

/-- A fresh engine with the configured cache bounds
(defaults `max = 200`, `ttlMs = 30000`). -/
def mkEngineState (max ttlMs : Nat) : EngineState :=
  { cubes := [], cache := { max, ttlMs, entries := [] }, hits := 0, misses := 0,
    invalidations := [] }

/-- `CubeManager.registerCube`. -/
def registerCube (s : EngineState) (defn : CubeDefinition) :
    Except CubeError EngineState :=
  if (jsGet defn.name s.cubes).isSome then
    .error ⟨400, "Cube " ++ defn.name ++ " is already registered."⟩
  else if defn.dimensions.length = 0 then
    .error ⟨400, "Cube definitions require at least one dimension."⟩
  else
    .ok { s with cubes := jsSet defn.name (mkCubeInstance defn) s.cubes }

/-- `CubeManager.listCubes`. -/
def listCubes (s : EngineState) : List String :=
  s.cubes.map Prod.fst

/-- `CubeManager.decorateResponse`, reading the cache block from the
post-operation state. -/
def decorateResponse (cube : CubeInstance) (query : NormalizedQuery)
    (payload : CachedPayload) (cacheKey : String) (cacheHit : Bool)
    (s : EngineState) (now : Nat) : OlapQueryResponse :=
  { data := payload.data
    metadata :=
      { cube := cube.definition.name
        measures := query.measures
        availableMeasures := cube.definition.measures
        breadcrumbs := payload.breadcrumbs
        cache :=
          { hit := cacheHit
            key := cacheKey
            ttlRemainingMs := lruRemainingTTL s.cache now cacheKey
            stats := { hits := s.hits, misses := s.misses, size := s.cache.entries.length } }
        planner := payload.plan
        suggestions := payload.suggestions } }

/-- `CubeManager.execute`. The state is threaded through even on error, so
that mutations made before an exception stay visible, as in the source. -/
def execute (s : EngineState) (payload : QueryPayload) (now : Nat) :
    Except CubeError OlapQueryResponse × EngineState :=
  match jsGet payload.cube s.cubes with
  | none => (.error ⟨404, "Cube " ++ payload.cube ++ " is not registered."⟩, s)
  | some cube =>
      match normalizeQuery payload cube with
      | .error e => (.error e, s)
      | .ok normalized =>
          let plan := planOf normalized
          let cacheKey := cacheKeyOf normalized
          match lruGet s.cache now cacheKey with
          | (some cached, cache1) =>
              let s1 := { s with cache := cache1, hits := s.hits + 1 }
              (.ok (decorateResponse cube normalized cached cacheKey true s1 now), s1)
          | (none, cache1) =>
              let s1 := { s with cache := cache1, misses := s.misses + 1 }
              match runPlan plan normalized cube with
              | .error e => (.error e, s1)
              | .ok fresh =>
                  let s2 := { s1 with cache := lruSet s1.cache now cacheKey fresh }
                  (.ok (decorateResponse cube normalized fresh cacheKey false s2 now), s2)

/-- Does the second list start with the first? -/
def listStarts [DecidableEq α] : List α → List α → Bool
  | [], _ => true
  | _ :: _, [] => false
  | a :: as, b :: bs => a = b && listStarts as bs

/-- The opening of every canonical cache key of a cube: the fingerprint's
sorted serialization always begins with its `cube` field. -/
def cubeKeyStart (name : String) : String :=
  "\x7b\"cube\":" ++ jsonQuote name

/-- Modelled from the spec: `invalidateCube(name, reason)` evicts all cache
entries whose fingerprint starts with that cube name (canonical keys open
with the stringified `cube` field) and records an invalidation event for
external observers (the event half is `CubeManager.invalidate` in
src/cube/manager.ts; the cache-evicting half has no source under src/). -/
def invalidateCube (s : EngineState) (name reason : String) (now : Nat) : EngineState :=
  { s with
    cache :=
      { s.cache with
        entries := s.cache.entries.filter fun kv =>
          !listStarts (cubeKeyStart name).toList kv.1.toList }
    invalidations :=
      s.invalidations ++ [{ cube := name, sources := [], timestamp := now, reason }] }

/-! ### General lemmas about the JS map model -/

theorem jsGet_jsSet_self [DecidableEq α] (k : α) (v : β) (l : List (α × β)) :
    jsGet k (jsSet k v l) = some v := by
  induction l with
  | nil => simp [jsGet, jsSet]
  | cons kv rest ih =>
      by_cases h : k = kv.1
      · simp [jsSet, jsGet, h]
      · simp [jsSet, jsGet, h, ih]

theorem jsGet_jsSet_ne [DecidableEq α] {k k2 : α} (v : β) (l : List (α × β))
    (h : k ≠ k2) : jsGet k (jsSet k2 v l) = jsGet k l := by
  induction l with
  | nil => simp [jsGet, jsSet, h]
  | cons kv rest ih =>
      by_cases h2 : k2 = kv.1
      · subst h2
        simp [jsSet, jsGet, h]
      · by_cases h3 : k = kv.1 <;> simp [jsSet, jsGet, h2, h3, ih]

theorem jsGet_jsUpdate_self [DecidableEq α] (k : α) (f : β → β) (l : List (α × β)) :
    jsGet k (jsUpdate k f l) = (jsGet k l).map f := by
  induction l with
  | nil => simp [jsGet, jsUpdate]
  | cons kv rest ih =>
      by_cases h : k = kv.1
      · simp [jsUpdate, jsGet, h]
      · simp [jsUpdate, jsGet, h, ih]

theorem jsGet_jsUpdate_ne [DecidableEq α] {k k2 : α} (f : β → β) (l : List (α × β))
    (h : k ≠ k2) : jsGet k (jsUpdate k2 f l) = jsGet k l := by
  induction l with
  | nil => simp [jsGet, jsUpdate]
  | cons kv rest ih =>
      by_cases h2 : k2 = kv.1
      · subst h2
        simp [jsUpdate, jsGet, h]
      · by_cases h3 : k = kv.1 <;> simp [jsUpdate, jsGet, h2, h3, ih]

theorem jsGet_map_snd [DecidableEq α] (k : α) (g : β → γ) (l : List (α × β)) :
    jsGet k (l.map fun kv => (kv.1, g kv.2)) = (jsGet k l).map g := by
  induction l with
  | nil => simp [jsGet]
  | cons kv rest ih =>
      by_cases h : k = kv.1 <;> simp [jsGet, h, ih]

/-! ### Accumulator fold characterizations (for C5, C2, C1) -/

theorem foldl_accAdd_sum (xs : List MeasureValue) (a : Rat) :
    xs.foldl accAdd (AccState.sum a) = .sum (a + (numericInputs xs).sum) := by
  induction xs generalizing a with
  | nil => simp [numericInputs]
  | cons v xs ih =>
      cases v <;>
        simp [accAdd, numericInputs, ih, List.filterMap_cons] <;>
        ring_nf

theorem foldl_accAdd_count (xs : List MeasureValue) (n : Nat) :
    xs.foldl accAdd (AccState.count n) = .count (n + (xs.filter isPresent).length) := by
  induction xs generalizing n with
  | nil => simp
  | cons v xs ih =>
      cases v <;> simp [accAdd, isPresent, ih, List.filter_cons] <;> omega

theorem foldl_accAdd_avg (xs : List MeasureValue) (s : Rat) (n : Nat) :
    xs.foldl accAdd (AccState.avg s n) =
      .avg (s + (numericInputs xs).sum) (n + (numericInputs xs).length) := by
  induction xs generalizing s n with
  | nil => simp [numericInputs]
  | cons v xs ih =>
      cases v <;>
        simp [accAdd, numericInputs, ih, List.filterMap_cons] <;>
        constructor <;> first | ring_nf | omega

/-- The option-valued running minimum used by the MIN accumulator. -/
def omin (o : Option Rat) (q : Rat) : Option Rat :=
  match o with
  | none => some q
  | some m => if q < m then some q else some m

/-- The option-valued running maximum used by the MAX accumulator. -/
def omax (o : Option Rat) (q : Rat) : Option Rat :=
  match o with
  | none => some q
  | some m => if q > m then some q else some m

theorem foldl_accAdd_min (xs : List MeasureValue) (cur : Option Rat) :
    xs.foldl accAdd (AccState.minA cur) = .minA ((numericInputs xs).foldl omin cur) := by
  induction xs generalizing cur with
  | nil => simp [numericInputs]
  | cons v xs ih =>
      cases v with
      | num q =>
          cases cur with
          | none => simpa [accAdd, numericInputs, List.filterMap_cons, omin] using ih (some q)
          | some m =>
              by_cases h : q < m
              · simpa [accAdd, numericInputs, List.filterMap_cons, omin, h] using ih (some q)
              · simpa [accAdd, numericInputs, List.filterMap_cons, omin, h] using ih (some m)
      | str s => simpa [accAdd, numericInputs, List.filterMap_cons] using ih cur
      | null => simpa [accAdd, numericInputs, List.filterMap_cons] using ih cur
      | undef => simpa [accAdd, numericInputs, List.filterMap_cons] using ih cur

theorem foldl_accAdd_max (xs : List MeasureValue) (cur : Option Rat) :
    xs.foldl accAdd (AccState.maxA cur) = .maxA ((numericInputs xs).foldl omax cur) := by
  induction xs generalizing cur with
  | nil => simp [numericInputs]
  | cons v xs ih =>
      cases v with
      | num q =>
          cases cur with
          | none => simpa [accAdd, numericInputs, List.filterMap_cons, omax] using ih (some q)
          | some m =>
              by_cases h : q > m
              · simpa [accAdd, numericInputs, List.filterMap_cons, omax, h] using ih (some q)
              · simpa [accAdd, numericInputs, List.filterMap_cons, omax, h] using ih (some m)
      | str s => simpa [accAdd, numericInputs, List.filterMap_cons] using ih cur
      | null => simpa [accAdd, numericInputs, List.filterMap_cons] using ih cur
      | undef => simpa [accAdd, numericInputs, List.filterMap_cons] using ih cur

theorem foldl_omin_spec (l : List Rat) (m0 : Rat) :
    ∃ m, l.foldl omin (some m0) = some m ∧ (m = m0 ∨ m ∈ l) ∧ m ≤ m0 ∧
      ∀ y ∈ l, m ≤ y := by
  induction l generalizing m0 with
  | nil => exact ⟨m0, rfl, .inl rfl, le_refl m0, by simp⟩
  | cons q l ih =>
      by_cases h : q < m0
      · obtain ⟨m, hm, hmem, hle, hall⟩ := ih q
        refine ⟨m, by simpa [omin, h] using hm, ?_, ?_, ?_⟩
        · rcases hmem with rfl | hm2
          · exact .inr (by simp)
          · exact .inr (by simp [hm2])
        · exact le_trans hle (le_of_lt h)
        · intro y hy
          rcases List.mem_cons.mp hy with rfl | hy2
          · exact hle
          · exact hall y hy2
      · obtain ⟨m, hm, hmem, hle, hall⟩ := ih m0
        refine ⟨m, by simpa [omin, h] using hm,
          hmem.imp id (List.mem_cons_of_mem q), hle, ?_⟩
        intro y hy
        rcases List.mem_cons.mp hy with rfl | hy2
        · exact le_trans hle (not_lt.mp h)
        · exact hall y hy2

theorem foldl_omax_spec (l : List Rat) (m0 : Rat) :
    ∃ m, l.foldl omax (some m0) = some m ∧ (m = m0 ∨ m ∈ l) ∧ m0 ≤ m ∧
      ∀ y ∈ l, y ≤ m := by
  induction l generalizing m0 with
  | nil => exact ⟨m0, rfl, .inl rfl, le_refl m0, by simp⟩
  | cons q l ih =>
      by_cases h : q > m0
      · obtain ⟨m, hm, hmem, hle, hall⟩ := ih q
        refine ⟨m, by simpa [omax, h] using hm, ?_, ?_, ?_⟩
        · rcases hmem with rfl | hm2
          · exact .inr (by simp)
          · exact .inr (by simp [hm2])
        · exact le_trans (le_of_lt h) hle
        · intro y hy
          rcases List.mem_cons.mp hy with rfl | hy2
          · exact hle
          · exact hall y hy2
      · obtain ⟨m, hm, hmem, hle, hall⟩ := ih m0
        refine ⟨m, by simpa [omax, h] using hm,
          hmem.imp id (List.mem_cons_of_mem q), hle, ?_⟩
        intro y hy
        rcases List.mem_cons.mp hy with rfl | hy2
        · exact le_trans (not_lt.mp h) hle
        · exact hall y hy2

theorem foldl_accAdd_distinct (xs : List MeasureValue) (seen : List String)
    (h : seen.Nodup) :
    ∃ seen2, xs.foldl accAdd (AccState.distinct seen) = .distinct seen2 ∧
      seen2.Nodup ∧ seen2.toFinset = seen.toFinset ∪ (presentStrings xs).toFinset := by
  induction xs generalizing seen with
  | nil => exact ⟨seen, rfl, h, by simp [presentStrings]⟩
  | cons v xs ih =>
      by_cases hp : isPresent v = true
      · by_cases hmem : measureValueToString v ∈ seen
        · have hstep : accAdd (AccState.distinct seen) v = .distinct seen := by
            cases v <;> simp_all [accAdd, isPresent]
          obtain ⟨seen2, h1, h2, h3⟩ := ih seen h
          refine ⟨seen2, by simpa [hstep] using h1, h2, ?_⟩
          rw [h3]
          have hv : measureValueToString v ∈ seen.toFinset := by simpa using hmem
          simp [presentStrings, List.filter_cons, hp]
          rw [Finset.insert_eq_self.mpr (Finset.mem_union_left _ hv)]
        · have hstep : accAdd (AccState.distinct seen) v =
              .distinct (seen ++ [measureValueToString v]) := by
            cases v <;> simp_all [accAdd, isPresent]
          have hnd : (seen ++ [measureValueToString v]).Nodup := by
            simp [List.nodup_append, h, hmem]
          obtain ⟨seen2, h1, h2, h3⟩ := ih _ hnd
          refine ⟨seen2, by simpa [hstep] using h1, h2, ?_⟩
          rw [h3]
          simp [presentStrings, List.filter_cons, hp]
          ext a
          simp
          tauto
      · have hstep : accAdd (AccState.distinct seen) v = .distinct seen := by
          cases v <;> simp_all [accAdd, isPresent]
        obtain ⟨seen2, h1, h2, h3⟩ := ih seen h
        refine ⟨seen2, by simpa [hstep] using h1, h2, ?_⟩
        rw [h3]
        simp [presentStrings, List.filter_cons, hp]

/-- C5: for every finite sequence of inputs, SUM totals the numeric inputs,
COUNT counts the non-null non-absent inputs, AVG divides numeric sum by
numeric count (0 when none), MIN/MAX return the smallest/largest numeric
seen (0 when none), and DISTINCT counts distinct stringified non-null
inputs. -/
theorem C5_accumulator_semantics (xs : List MeasureValue) :
    runAccumulator .SUM xs = (numericInputs xs).sum ∧
    runAccumulator .COUNT xs = (xs.filter isPresent).length ∧
    runAccumulator .AVG xs =
      (if (numericInputs xs).length = 0 then 0
       else (numericInputs xs).sum / ((numericInputs xs).length : Rat)) ∧
    (numericInputs xs = [] → runAccumulator .MIN xs = 0) ∧
    (numericInputs xs ≠ [] →
      runAccumulator .MIN xs ∈ numericInputs xs ∧
      ∀ y ∈ numericInputs xs, runAccumulator .MIN xs ≤ y) ∧
    (numericInputs xs = [] → runAccumulator .MAX xs = 0) ∧
    (numericInputs xs ≠ [] →
      runAccumulator .MAX xs ∈ numericInputs xs ∧
      ∀ y ∈ numericInputs xs, y ≤ runAccumulator .MAX xs) ∧
    runAccumulator .DISTINCT xs = (presentStrings xs).toFinset.card := by
  refine ⟨?_, ?_, ?_, ?_, ?_, ?_, ?_, ?_⟩
  · simp [runAccumulator, createAccumulator, foldl_accAdd_sum, accFinalize]
  · simp [runAccumulator, createAccumulator, foldl_accAdd_count, accFinalize]
  · simp only [runAccumulator, createAccumulator, foldl_accAdd_avg, accFinalize]
    simp
  · intro h
    simp [runAccumulator, createAccumulator, foldl_accAdd_min, accFinalize, h]
  · intro h
    obtain ⟨q, l, hl⟩ := List.exists_cons_of_ne_nil h
    obtain ⟨m, hm, hmem, hle0, hall⟩ := foldl_omin_spec l q
    have hrun : runAccumulator .MIN xs = m := by
      simp [runAccumulator, createAccumulator, foldl_accAdd_min, accFinalize, hl, omin, hm]
    rw [hrun, hl]
    constructor
    · rcases hmem with rfl | h2
      · simp
      · simp [h2]
    · intro y hy
      rcases List.mem_cons.mp hy with rfl | hy2
      · exact hle0
      · exact hall y hy2
  · intro h
    simp [runAccumulator, createAccumulator, foldl_accAdd_max, accFinalize, h]
  · intro h
    obtain ⟨q, l, hl⟩ := List.exists_cons_of_ne_nil h
    have hfold := foldl_omax_spec l q
    obtain ⟨m, hm, hmem, hge, hall⟩ := hfold
    have hrun : runAccumulator .MAX xs = m := by
      simp [runAccumulator, createAccumulator, foldl_accAdd_max, accFinalize, hl, omax, hm]
    rw [hrun, hl]
    constructor
    · rcases hmem with rfl | h2
      · simp
      · simp [h2]
    · intro y hy
      rcases List.mem_cons.mp hy with rfl | hy2
      · exact hge
      · exact hall y hy2
  · obtain ⟨seen2, h1, h2, h3⟩ := foldl_accAdd_distinct xs [] List.nodup_nil
    have : runAccumulator .DISTINCT xs = seen2.length := by
      simp [runAccumulator, createAccumulator, h1, accFinalize]
    rw [this, ← List.toFinset_card_of_nodup h2, h3]
    simp [presentStrings]

/-- Witness for C5 at concrete inputs. -/
theorem C5_accumulator_semantics_witness :
    runAccumulator .SUM [.num 3, .str "x", .num 5] = 8 ∧
    runAccumulator .MIN [.num 3, .str "x", .num 5] ∈
      numericInputs [.num 3, .str "x", .num 5] ∧
    runAccumulator .DISTINCT [.str "a", .str "b", .null, .str "a"] = 2 := by
  have h1 := C5_accumulator_semantics [.num 3, .str "x", .num 5]
  have h2 := C5_accumulator_semantics [.str "a", .str "b", .null, .str "a"]
  have hn : numericInputs [.num 3, .str "x", .num 5] = [3, 5] := by
    simp [numericInputs]
  have hp : presentStrings [.str "a", .str "b", .null, .str "a"] = ["a", "b", "a"] := by
    simp [presentStrings, isPresent, measureValueToString]
  refine ⟨h1.1.trans ?_, ?_, h2.2.2.2.2.2.2.2.trans ?_⟩
  · rw [hn]
    norm_num
  · exact (h1.2.2.2.2.1 (by rw [hn]; simp)).1
  · rw [hp]
    decide

/-- C6 (counterexample): `between` with the numeric-string bound `"5"`
accepts the numeric fact value 10, although one side of the provided pair
is not numeric — the code coerces bounds with `Number(...)`, while the
claim demands the row fail the predicate. -/
theorem C6_between_counterexample :
    evaluateFilter (some (.num 10))
      { dimension := "d", operator := .between, value := .list [.str "5", .num 15] } = true ∧
    (∀ q : Rat, DimValue.str "5" ≠ DimValue.num q) := by
  constructor
  · decide
  · intro q h
    cases h

/-- C6 (amended): filters are evaluated on the fact's value at
(dimension, level-or-finest); `eq`/`neq` are strict equality, `in`/`nin`
membership over the provided list, the numeric comparisons require both
sides numeric, and `between` is inclusive on both ends, requires a numeric
fact value, and coerces its two bounds with `Number(...)` (a bound that
coerces to NaN fails the predicate). -/
theorem C6_filter_semantics (cube : CubeInstance) (row : FactRow) (f : FilterSpec)
    (dim : CubeDimension) (hdim : jsGet f.dimension cube.dimensionMap = some dim)
    (hh : dim.hierarchy ≠ []) :
    (valueForFilter row f cube =
      factDimValue row f.dimension (f.level.getD (dim.hierarchy.getLast hh))) ∧
    (∀ t, f.operator = .eq → f.value = .scalar t →
      (evaluateFilter (valueForFilter row f cube) f = true ↔
        valueForFilter row f cube = some t)) ∧
    (∀ t, f.operator = .neq → f.value = .scalar t →
      (evaluateFilter (valueForFilter row f cube) f = true ↔
        valueForFilter row f cube ≠ some t)) ∧
    (∀ ts, f.operator = .inOp → f.value = .list ts →
      (evaluateFilter (valueForFilter row f cube) f = true ↔
        ∃ t ∈ ts, valueForFilter row f cube = some t)) ∧
    (∀ ts, f.operator = .nin → f.value = .list ts →
      (evaluateFilter (valueForFilter row f cube) f = true ↔
        ∀ t ∈ ts, valueForFilter row f cube ≠ some t)) ∧
    (∀ t, f.operator = .gt → f.value = .scalar t →
      (evaluateFilter (valueForFilter row f cube) f = true ↔
        ∃ a b, valueForFilter row f cube = some (.num a) ∧ t = .num b ∧ b < a)) ∧
    (∀ t, f.operator = .gte → f.value = .scalar t →
      (evaluateFilter (valueForFilter row f cube) f = true ↔
        ∃ a b, valueForFilter row f cube = some (.num a) ∧ t = .num b ∧ b ≤ a)) ∧
    (∀ t, f.operator = .lt → f.value = .scalar t →
      (evaluateFilter (valueForFilter row f cube) f = true ↔
        ∃ a b, valueForFilter row f cube = some (.num a) ∧ t = .num b ∧ a < b)) ∧
    (∀ t, f.operator = .lte → f.value = .scalar t →
      (evaluateFilter (valueForFilter row f cube) f = true ↔
        ∃ a b, valueForFilter row f cube = some (.num a) ∧ t = .num b ∧ a ≤ b)) ∧
    (∀ mn mx, f.operator = .between → f.value = .list [mn, mx] →
      (evaluateFilter (valueForFilter row f cube) f = true ↔
        ∃ q m1 m2, valueForFilter row f cube = some (.num q) ∧
          jsNumber mn = some m1 ∧ jsNumber mx = some m2 ∧ m1 ≤ q ∧ q ≤ m2)) := by
  refine ⟨?_, ?_, ?_, ?_, ?_, ?_, ?_, ?_, ?_, ?_⟩
  · simp only [valueForFilter, hdim]
    cases hl : f.level with
    | some lv => simp
    | none => simp [List.getLast?_eq_getLast _ hh]
  · intro t hop hv
    simp [evaluateFilter, hop, hv, strictEq]
  · intro t hop hv
    simp [evaluateFilter, hop, hv, strictEq]
  · intro ts hop hv
    simp [evaluateFilter, hop, hv, strictEq]
  · intro ts hop hv
    simp [evaluateFilter, hop, hv, strictEq]
  · intro t hop hv
    cases hvv : valueForFilter row f cube with
    | none => simp [evaluateFilter, hop, hv, hvv]
    | some v =>
        cases v with
        | str s => simp [evaluateFilter, hop, hv, hvv]
        | num a =>
            cases t with
            | str s => simp [evaluateFilter, hop, hv, hvv]
            | num b =>
                simp [evaluateFilter, hop, hv, hvv]
  · intro t hop hv
    cases hvv : valueForFilter row f cube with
    | none => simp [evaluateFilter, hop, hv, hvv]
    | some v =>
        cases v with
        | str s => simp [evaluateFilter, hop, hv, hvv]
        | num a =>
            cases t with
            | str s => simp [evaluateFilter, hop, hv, hvv]
            | num b =>
                simp [evaluateFilter, hop, hv, hvv]
  · intro t hop hv
    cases hvv : valueForFilter row f cube with
    | none => simp [evaluateFilter, hop, hv, hvv]
    | some v =>
        cases v with
        | str s => simp [evaluateFilter, hop, hv, hvv]
        | num a =>
            cases t with
            | str s => simp [evaluateFilter, hop, hv, hvv]
            | num b =>
                simp [evaluateFilter, hop, hv, hvv]
  · intro t hop hv
    cases hvv : valueForFilter row f cube with
    | none => simp [evaluateFilter, hop, hv, hvv]
    | some v =>
        cases v with
        | str s => simp [evaluateFilter, hop, hv, hvv]
        | num a =>
            cases t with
            | str s => simp [evaluateFilter, hop, hv, hvv]
            | num b =>
                simp [evaluateFilter, hop, hv, hvv]
  · intro mn mx hop hv
    cases hvv : valueForFilter row f cube with
    | none =>
        simp [evaluateFilter, hop, hv, hvv]
    | some v =>
        cases v with
        | str s => simp [evaluateFilter, hop, hv, hvv]
        | num q =>
            cases hmn : jsNumber mn with
            | none => simp [evaluateFilter, hop, hv, hvv, hmn]
            | some m1 =>
                cases hmx : jsNumber mx with
                | none => simp [evaluateFilter, hop, hv, hvv, hmn, hmx]
                | some m2 =>
                    simp [evaluateFilter, hop, hv, hvv, hmn, hmx]

/-- Witness for C6 at a concrete cube, row, and filter. -/
theorem C6_filter_semantics_witness :
    jsGet "g"
        (mkCubeInstance
          { name := "w", dimensions := [{ name := "g", hierarchy := ["r"] }],
            measures := [], rows := [] }).dimensionMap =
      some { name := "g", hierarchy := ["r"] } ∧
    valueForFilter
        { dimensions := [("g", [("r", .str "NA")])], metrics := [] }
        { dimension := "g", operator := .eq, value := .scalar (.str "NA") }
        (mkCubeInstance
          { name := "w", dimensions := [{ name := "g", hierarchy := ["r"] }],
            measures := [], rows := [] }) =
      factDimValue { dimensions := [("g", [("r", .str "NA")])], metrics := [] } "g" "r" := by
  have hdim : jsGet "g"
      (mkCubeInstance
        { name := "w", dimensions := [{ name := "g", hierarchy := ["r"] }],
          measures := [], rows := [] }).dimensionMap =
      some { name := "g", hierarchy := ["r"] } := by
    simp [mkCubeInstance, mapOfList, jsSet, jsGet]
  have h := C6_filter_semantics
    (mkCubeInstance
      { name := "w", dimensions := [{ name := "g", hierarchy := ["r"] }],
        measures := [], rows := [] })
    { dimensions := [("g", [("r", .str "NA")])], metrics := [] }
    { dimension := "g", operator := .eq, value := .scalar (.str "NA") }
    { name := "g", hierarchy := ["r"] } hdim (by simp)
  exact ⟨hdim, h.1⟩

/-- C9 (counterexample): a definition whose only measure has the value
field `"nosuch"`, matching no metrics field of its fact row, registers
successfully — `registerCube` never validates measure value-fields. -/
theorem C9_register_counterexample :
    (registerCube (mkEngineState 200 30000)
      { name := "k", dimensions := [{ name := "d", hierarchy := ["l"] }],
        measures := [{ name := "m", valueField := "nosuch", aggregation := .COUNT }],
        rows := [{ dimensions := [("d", [("l", .str "v")])],
                   metrics := [("f", .str "x")] }] }).toOption.isSome = true ∧
    jsGet "nosuch" [("f", MeasureValue.str "x")] = none := by
  constructor
  · rfl
  · rfl

/-- C9 (amended): `registerCube` rejects exactly the duplicate-name and
empty-dimensions definitions, always with a 400-class error; unknown
measure value-fields are not checked. -/
theorem C9_register_validation (s : EngineState) (defn : CubeDefinition) :
    ((∃ e, registerCube s defn = .error e) ↔
      ((jsGet defn.name s.cubes).isSome = true ∨ defn.dimensions = [])) ∧
    (∀ e, registerCube s defn = .error e → e.status = 400) := by
  unfold registerCube
  by_cases h1 : (jsGet defn.name s.cubes).isSome = true
  · simp [h1]
  · by_cases h2 : defn.dimensions.length = 0
    · simp [h1, h2, List.length_eq_zero.mp h2]
    · have : defn.dimensions ≠ [] := by
        intro h
        exact h2 (by simp [h])
      simp [h1, h2, this]

/-- Witness for C9: registering the same name twice errors with status 400. -/
theorem C9_register_validation_witness :
    ∃ s2, registerCube (mkEngineState 200 30000)
        { name := "k", dimensions := [{ name := "d", hierarchy := ["l"] }],
          measures := [], rows := [] } = .ok s2 ∧
      ∃ e, registerCube s2
          { name := "k", dimensions := [{ name := "d", hierarchy := ["l"] }],
            measures := [], rows := [] } = .error e ∧ e.status = 400 := by
  refine ⟨_, rfl, ?_⟩
  have h := C9_register_validation
    (registerCube (mkEngineState 200 30000)
      { name := "k", dimensions := [{ name := "d", hierarchy := ["l"] }],
        measures := [], rows := [] } |>.toOption.getD (mkEngineState 200 30000))
    { name := "k", dimensions := [{ name := "d", hierarchy := ["l"] }],
      measures := [], rows := [] }
  obtain ⟨e, he⟩ := h.1.mpr (by left; rfl)
  exact ⟨e, he, h.2 e he⟩

/-- C10: a fact carrying no value at a filter's resolved coordinates —
including when the filter names a dimension unknown to the cube — passes
`neq` (and `nin` with a list target), so such rows flow into raw-scan
aggregation and no failure is raised for the unknown dimension. -/
theorem C10_undefined_value_filters (cube : CubeInstance) (row : FactRow)
    (f : FilterSpec) (q : NormalizedQuery) :
    (jsGet f.dimension cube.dimensionMap = none → valueForFilter row f cube = none) ∧
    (f.operator = .neq → valueForFilter row f cube = none →
      evaluateFilter (valueForFilter row f cube) f = true) ∧
    (f.operator = .nin → (∃ ts, f.value = .list ts) → valueForFilter row f cube = none →
      evaluateFilter (valueForFilter row f cube) f = true) ∧
    ((∀ fl ∈ q.allFilters,
        valueForFilter row fl cube = none ∧
          (fl.operator = .neq ∨ (fl.operator = .nin ∧ ∃ ts, fl.value = .list ts))) →
      q.drill = none →
      matchesFilters row q cube = true) := by
  refine ⟨?_, ?_, ?_, ?_⟩
  · intro h
    simp [valueForFilter, h]
  · intro hop hnone
    rw [hnone]
    cases hv : f.value <;> simp [evaluateFilter, hop, hv, strictEq]
  · intro hop hts hnone
    obtain ⟨ts, hv⟩ := hts
    rw [hnone]
    simp [evaluateFilter, hop, hv, strictEq]
  · intro hall hdrill
    have h1 : q.allFilters.all
        (fun fl => evaluateFilter (valueForFilter row fl cube) fl) = true := by
      rw [List.all_eq_true]
      intro fl hfl
      obtain ⟨hnone, hop⟩ := hall fl hfl
      rcases hop with hneq | ⟨hnin, ts, hv⟩
      · rw [hnone]
        cases hv : fl.value <;> simp [evaluateFilter, hneq, hv, strictEq]
      · rw [hnone]
        simp [evaluateFilter, hnin, hv, strictEq]
    simp [matchesFilters, h1, hdrill]

/-- Witness for C10: a filter on the unknown dimension `"zz"` with `neq`
accepts a concrete fact row. -/
theorem C10_undefined_value_filters_witness :
    matchesFilters
      { dimensions := [("g", [("r", .str "NA")])], metrics := [] }
      { cube := "w", measures := [], rows := [], columns := [], slices := [],
        dices := [],
        filters := [{ dimension := "zz", operator := .neq, value := .scalar (.str "x") }],
        allFilters := [{ dimension := "zz", operator := .neq, value := .scalar (.str "x") }],
        drill := none, rollup := none, includeFlattened := true, mdx := none }
      (mkCubeInstance
        { name := "w", dimensions := [{ name := "g", hierarchy := ["r"] }],
          measures := [], rows := [] }) = true := by
  apply (C10_undefined_value_filters _ _
    { dimension := "zz", operator := .neq, value := .scalar (.str "x") } _).2.2.2
  · intro fl hfl
    rw [List.mem_singleton] at hfl
    subst hfl
    exact ⟨rfl, Or.inl rfl⟩
  · rfl

/-- Equality of JSON documents up to permutation of object keys: arrays
must agree pointwise, objects may list their (unique) keys in any order,
with values related recursively. -/
inductive JPerm : Json → Json → Prop where
  | refl (j : Json) : JPerm j j
  | arr (xs ys : List Json) (hlen : xs.length = ys.length)
      (h : ∀ i : Fin xs.length, JPerm (xs.get i) (ys.get (Fin.cast hlen i))) :
      JPerm (.arr xs) (.arr ys)
  | obj (fs gs : List (String × Json))
      (nd1 : (fs.map Prod.fst).Nodup) (nd2 : (gs.map Prod.fst).Nodup)
      (hkeys : (fs.map Prod.fst).Perm (gs.map Prod.fst))
      (h : ∀ k x y, jsGet k fs = some x → jsGet k gs = some y → JPerm x y) :
      JPerm (.obj fs) (.obj gs)

theorem charListLe_total (a b : List Char) :
    charListLe a b = true ∨ charListLe b a = true := by
  induction a generalizing b with
  | nil => left; rfl
  | cons c cs ih =>
      cases b with
      | nil => right; rfl
      | cons d ds =>
          by_cases h : c = d
          · subst h
            rcases ih ds with h2 | h2
            · left; simp [charListLe, h2]
            · right; simp [charListLe, h2]
          · rcases lt_trichotomy c d with h2 | h2 | h2
            · left; simp [charListLe, h, h2]
            · exact absurd h2 h
            · right
              simp [charListLe, Ne.symm h, h2, not_lt_of_gt h2]

theorem charListLe_trans {a b c : List Char} (h1 : charListLe a b = true)
    (h2 : charListLe b c = true) : charListLe a c = true := by
  induction a generalizing b c with
  | nil => rfl
  | cons x xs ih =>
      cases b with
      | nil => simp [charListLe] at h1
      | cons y ys =>
          cases c with
          | nil => simp [charListLe] at h2
          | cons z zs =>
              by_cases hxy : x = y
              · subst hxy
                by_cases hyz : x = z
                · subst hyz
                  simp [charListLe] at h1 h2 ⊢
                  exact ih h1 h2
                · simp [charListLe, hyz] at h2 ⊢
                  exact h2
              · simp [charListLe, hxy] at h1
                by_cases hyz : y = z
                · subst hyz
                  simp [charListLe, hxy] at h2 ⊢
                  exact h1
                · simp [charListLe, hyz] at h2
                  have : x < z := lt_trans h1 h2
                  simp [charListLe, ne_of_lt this, this]

theorem charListLe_antisymm {a b : List Char} (h1 : charListLe a b = true)
    (h2 : charListLe b a = true) : a = b := by
  induction a generalizing b with
  | nil =>
      cases b with
      | nil => rfl
      | cons d ds => simp [charListLe] at h2
  | cons c cs ih =>
      cases b with
      | nil => simp [charListLe] at h1
      | cons d ds =>
          by_cases h : c = d
          · subst h
            simp [charListLe] at h1 h2
            rw [ih h1 h2]
          · simp [charListLe, h] at h1
            simp [charListLe, Ne.symm h] at h2
            exact absurd (lt_trans h1 h2) (lt_irrefl c)

theorem strLe_total (a b : String) : strLe a b = true ∨ strLe b a = true :=
  charListLe_total a.data b.data

theorem strLe_trans {a b c : String} (h1 : strLe a b = true)
    (h2 : strLe b c = true) : strLe a c = true :=
  charListLe_trans h1 h2

theorem strLe_antisymm {a b : String} (h1 : strLe a b = true)
    (h2 : strLe b a = true) : a = b := by
  have := charListLe_antisymm h1 h2
  cases a
  cases b
  exact congrArg String.mk this

theorem sortedInsert_perm (le : α → α → Bool) (x : α) (l : List α) :
    (sortedInsert le x l).Perm (x :: l) := by
  induction l with
  | nil => rfl
  | cons y ys ih =>
      by_cases h : le x y = true
      · simp [sortedInsert, h]
      · simp only [sortedInsert, h]
        exact (ih.cons y).trans (List.Perm.swap x y ys)

theorem stableSort_perm (le : α → α → Bool) (l : List α) :
    (stableSort le l).Perm l := by
  induction l with
  | nil => rfl
  | cons x xs ih =>
      exact (sortedInsert_perm le x (stableSort le xs)).trans (ih.cons x)

theorem mem_sortedInsert (le : α → α → Bool) (x z : α) (l : List α) :
    z ∈ sortedInsert le x l ↔ z = x ∨ z ∈ l := by
  constructor
  · intro h
    have := (sortedInsert_perm le x l).mem_iff.mp h
    simpa using this
  · intro h
    apply (sortedInsert_perm le x l).mem_iff.mpr
    simpa using h


theorem pairwise_sortedInsert (x : String × String) (l : List (String × String))
    (h : l.Pairwise (fun a b => fieldLe a b = true)) :
    (sortedInsert fieldLe x l).Pairwise (fun a b => fieldLe a b = true) := by
  induction l with
  | nil => simp [sortedInsert]
  | cons y ys ih =>
      rcases List.pairwise_cons.mp h with ⟨hy, hys⟩
      by_cases hle : fieldLe x y = true
      · simp only [sortedInsert, hle, if_true]
        refine List.pairwise_cons.mpr ⟨?_, h⟩
        intro z hz
        rcases List.mem_cons.mp hz with rfl | hz2
        · exact hle
        · exact strLe_trans hle (hy z hz2)
      · simp only [sortedInsert, if_neg hle]
        refine List.pairwise_cons.mpr ⟨?_, ih hys⟩
        intro z hz
        rcases (mem_sortedInsert fieldLe x z ys).mp hz with rfl | hz2
        · rcases strLe_total z.1 y.1 with h2 | h2
          · exact absurd h2 (by simpa [fieldLe] using hle)
          · exact h2
        · exact hy z hz2

theorem pairwise_stableSort (l : List (String × String)) :
    (stableSort fieldLe l).Pairwise (fun a b => fieldLe a b = true) := by
  induction l with
  | nil => simp [stableSort]
  | cons x xs ih => exact pairwise_sortedInsert x _ ih

theorem sorted_perm_nodupkeys_eq (A : List (String × String)) :
    ∀ B : List (String × String), A.Perm B →
      A.Pairwise (fun a b => fieldLe a b = true) →
      B.Pairwise (fun a b => fieldLe a b = true) →
      (A.map Prod.fst).Nodup → A = B := by
  induction A with
  | nil =>
      intro B hp _ _ _
      exact List.Perm.nil_eq hp
  | cons a A' ih =>
      intro B hp hA hB nd
      cases B with
      | nil => exact absurd hp.symm (by simp)
      | cons b B' =>
          have hab : a = b := by
            have haB : a ∈ b :: B' := hp.mem_iff.mp (by simp)
            rcases List.mem_cons.mp haB with h1 | h1
            · exact h1
            · have hbA : b ∈ a :: A' := hp.symm.mem_iff.mp (by simp)
              rcases List.mem_cons.mp hbA with h2 | h2
              · exact h2.symm
              · have h3 : strLe a.1 b.1 = true :=
                  (List.pairwise_cons.mp hA).1 b h2
                have h4 : strLe b.1 a.1 = true :=
                  (List.pairwise_cons.mp hB).1 a h1
                have hkey : a.1 = b.1 := strLe_antisymm h3 h4
                have ndB : ((b :: B').map Prod.fst).Nodup := (hp.map Prod.fst).nodup nd
                have : a.1 ∈ B'.map Prod.fst := List.mem_map_of_mem Prod.fst h1
                rw [hkey] at this
                exact absurd this (List.nodup_cons.mp (by simpa using ndB)).1
          subst hab
          have hp2 : A'.Perm B' := hp.cons_inv
          rw [ih B' hp2 (List.pairwise_cons.mp hA).2 (List.pairwise_cons.mp hB).2
            (List.nodup_cons.mp (by simpa using nd)).2]

theorem stableSort_eq_of_perm (A B : List (String × String)) (hp : A.Perm B)
    (nd : (A.map Prod.fst).Nodup) :
    stableSort fieldLe A = stableSort fieldLe B := by
  apply sorted_perm_nodupkeys_eq
  · exact (stableSort_perm fieldLe A).trans (hp.trans (stableSort_perm fieldLe B).symm)
  · exact pairwise_stableSort A
  · exact pairwise_stableSort B
  · exact (((stableSort_perm fieldLe A).map Prod.fst).symm).nodup nd

/-- `eraseKey k l`: drop the first entry with key `k`. -/
def eraseKey [DecidableEq α] (k : α) : List (α × β) → List (α × β)
  | [] => []
  | (k2, v) :: rest => if k = k2 then rest else (k2, v) :: eraseKey k rest

theorem perm_cons_eraseKey [DecidableEq α] {k : α} {v : β} {l : List (α × β)}
    (h : jsGet k l = some v) : l.Perm ((k, v) :: eraseKey k l) := by
  induction l with
  | nil => simp [jsGet] at h
  | cons kv rest ih =>
      by_cases h2 : k = kv.1
      · rw [jsGet] at h
        rw [if_pos h2] at h
        cases h
        obtain ⟨k1, v1⟩ := kv
        cases h2
        simp [eraseKey]
  
      · rw [jsGet] at h
        rw [if_neg h2] at h
        obtain ⟨k1, v1⟩ := kv
        have hne : k ≠ k1 := h2
        simp only [eraseKey, if_neg hne]
        exact ((ih h).cons (k1, v1)).trans (List.Perm.swap (k, v) (k1, v1) _)

theorem jsGet_eraseKey_ne [DecidableEq α] {k k2 : α} (l : List (α × β))
    (h : k2 ≠ k) : jsGet k2 (eraseKey k l) = jsGet k2 l := by
  induction l with
  | nil => simp [eraseKey]
  | cons kv rest ih =>
      by_cases h2 : k = kv.1
      · subst h2
        simp [eraseKey, jsGet, h]
      · by_cases h3 : k2 = kv.1 <;> simp [eraseKey, jsGet, h2, h3, ih]

theorem keys_eraseKey [DecidableEq α] (k : α) (l : List (α × β)) :
    (eraseKey k l).map Prod.fst = (l.map Prod.fst).erase k := by
  induction l with
  | nil => simp [eraseKey]
  | cons kv rest ih =>
      by_cases h2 : k = kv.1
      · subst h2
        simp [eraseKey, List.erase_cons_head]
      · rw [eraseKey, if_neg h2]
        simp only [List.map_cons]
        rw [List.erase_cons_tail (by simpa using Ne.symm h2)]
        rw [ih]

theorem jsGet_isSome_of_mem_keys [DecidableEq α] {k : α} {l : List (α × β)}
    (h : k ∈ l.map Prod.fst) : (jsGet k l).isSome = true := by
  induction l with
  | nil => simp at h
  | cons kv rest ih =>
      rw [List.map_cons, List.mem_cons] at h
      by_cases h2 : k = kv.1
      · simp [jsGet, h2]
      · rcases h with h3 | h3
        · exact absurd h3 h2
        · simp [jsGet, h2, ih h3]

theorem jsGet_eq_none_of_not_mem_keys [DecidableEq α] {k : α} {l : List (α × β)}
    (h : k ∉ l.map Prod.fst) : jsGet k l = none := by
  induction l with
  | nil => rfl
  | cons kv rest ih =>
      simp only [List.map_cons, List.mem_cons] at h
      push_neg at h
      simp [jsGet, h.1, ih h.2]

theorem perm_of_lookup_rel {γ : Type} (A : List (String × γ)) :
    ∀ B : List (String × γ),
      (A.map Prod.fst).Nodup → (B.map Prod.fst).Nodup →
      (A.map Prod.fst).Perm (B.map Prod.fst) →
      (∀ k v w, jsGet k A = some v → jsGet k B = some w → v = w) →
      A.Perm B := by
  induction A with
  | nil =>
      intro B _ _ hk _
      have : B.map Prod.fst = [] := (List.Perm.nil_eq hk).symm
      simp only [List.map_eq_nil] at this
      rw [this]
  | cons kv A' ih =>
      intro B ndA ndB hk hv
      obtain ⟨k, v⟩ := kv
      have hkB : k ∈ B.map Prod.fst := hk.mem_iff.mp (by simp)
      obtain ⟨w, hw⟩ := Option.isSome_iff_exists.mp (jsGet_isSome_of_mem_keys hkB)
      have hvw : v = w := hv k v w (by simp [jsGet]) hw
      subst hvw
      have hBperm : B.Perm ((k, v) :: eraseKey k B) := perm_cons_eraseKey hw
      have ndA' : (A'.map Prod.fst).Nodup := (List.nodup_cons.mp (by simpa using ndA)).2
      have hkA' : k ∉ A'.map Prod.fst := (List.nodup_cons.mp (by simpa using ndA)).1
      have ndB' : ((eraseKey k B).map Prod.fst).Nodup := by
        rw [keys_eraseKey]
        exact ndB.erase k
      have hk2 : (A'.map Prod.fst).Perm ((eraseKey k B).map Prod.fst) := by
        rw [keys_eraseKey]
        have h1 : (k :: A'.map Prod.fst).Perm (k :: (B.map Prod.fst).erase k) := by
          refine hk.trans ?_
          exact List.perm_cons_erase hkB
        exact h1.cons_inv
      have hv2 : ∀ k2 v2 w2, jsGet k2 A' = some v2 →
          jsGet k2 (eraseKey k B) = some w2 → v2 = w2 := by
        intro k2 v2 w2 h1 h2
        by_cases hkk : k2 = k
        · subst hkk
          rw [jsGet_eq_none_of_not_mem_keys hkA'] at h1
          cases h1
        · refine hv k2 v2 w2 ?_ ?_
          · simpa [jsGet, hkk] using h1
          · rwa [jsGet_eraseKey_ne _ hkk] at h2
      exact ((ih _ ndA' ndB' hk2 hv2).cons (k, v)).trans hBperm.symm

theorem stringifyItems_eq_map (xs : List Json) :
    stringifyItems xs = xs.map stableStringify := by
  induction xs with
  | nil => rfl
  | cons j rest ih => simp [stringifyItems, ih]

theorem stringifyFields_eq_map (fs : List (String × Json)) :
    stringifyFields fs = fs.map fun kv => (kv.1, stableStringify kv.2) := by
  induction fs with
  | nil => rfl
  | cons kv rest ih =>
      obtain ⟨k, j⟩ := kv
      simp [stringifyFields, ih]

theorem jperm_stableStringify {j1 j2 : Json} (h : JPerm j1 j2) :
    stableStringify j1 = stableStringify j2 := by
  induction h with
  | refl j => rfl
  | arr xs ys hlen h ih =>
      have hitems : stringifyItems xs = stringifyItems ys := by
        rw [stringifyItems_eq_map, stringifyItems_eq_map]
        apply List.ext_get (by simpa using hlen)
        intro n h1 h2
        rw [List.get_map, List.get_map]
        exact ih ⟨n, by simpa using h1⟩
      simp [stableStringify, hitems]
  | obj fs gs nd1 nd2 hkeys h ih =>
      have hkf : (stringifyFields fs).map Prod.fst = fs.map Prod.fst := by
        rw [stringifyFields_eq_map, List.map_map]
        rfl
      have hkg : (stringifyFields gs).map Prod.fst = gs.map Prod.fst := by
        rw [stringifyFields_eq_map, List.map_map]
        rfl
      have hlf : ∀ k, jsGet k (stringifyFields fs) =
          (jsGet k fs).map stableStringify := by
        intro k
        rw [stringifyFields_eq_map]
        exact jsGet_map_snd k stableStringify fs
      have hlg : ∀ k, jsGet k (stringifyFields gs) =
          (jsGet k gs).map stableStringify := by
        intro k
        rw [stringifyFields_eq_map]
        exact jsGet_map_snd k stableStringify gs
      have hperm : (stringifyFields fs).Perm (stringifyFields gs) := by
        apply perm_of_lookup_rel
        · rw [hkf]
          exact nd1
        · rw [hkg]
          exact nd2
        · rw [hkf, hkg]
          exact hkeys
        · intro k v w h1 h2
          rw [hlf k] at h1
          rw [hlg k] at h2
          obtain ⟨x, hx, rfl⟩ := Option.map_eq_some'.mp h1
          obtain ⟨y, hy, rfl⟩ := Option.map_eq_some'.mp h2
          exact ih k x y hx hy
      have hsort : stableSort fieldLe (stringifyFields fs) =
          stableSort fieldLe (stringifyFields gs) := by
        apply stableSort_eq_of_perm _ _ hperm
        rw [hkf]
        exact nd1
      simp only [stableStringify]
      rw [hsort]

/-- C7: the cache key `execute` computes is the canonical stringification
of the fingerprint — any document equal to the fingerprint up to
permutation of object key order stringifies to the very same key. -/
theorem C7_fingerprint_canonicity (q : NormalizedQuery) (j : Json)
    (h : JPerm (fingerprintJson q) j) :
    cacheKeyOf q = stableStringify j := by
  unfold cacheKeyOf
  exact jperm_stableStringify h

/-- The normalized query used in the C7 witness. -/
def c7Query : NormalizedQuery :=
  { cube := "w", measures := [], rows := [], columns := [], slices := [],
    dices := [], filters := [], allFilters := [], drill := none, rollup := none,
    includeFlattened := true, mdx := none }

/-- Witness for C7: swapping the `cube` and `query` fields of the
fingerprint object leaves the computed key unchanged. -/
theorem C7_fingerprint_canonicity_witness :
    cacheKeyOf c7Query =
      stableStringify (Json.obj
        [("query", normalizedQueryToJson c7Query),
         ("cube", .str c7Query.cube),
         ("plan", planToJson (planOf c7Query))]) := by
  apply C7_fingerprint_canonicity
  apply JPerm.obj
  · decide
  · decide
  · decide
  · intro k x y h1 h2
    by_cases hc : k = "cube"
    · subst hc
      simp [jsGet] at h1 h2
      rw [← h1, ← h2]
      exact JPerm.refl _
    · by_cases hq : k = "query"
      · subst hq
        simp [jsGet] at h1 h2
        rw [← h1, ← h2]
        exact JPerm.refl _
      · by_cases hp : k = "plan"
        · subst hp
          simp [jsGet] at h1 h2
          rw [← h1, ← h2]
          exact JPerm.refl _
        · simp [jsGet, hc, hq, hp] at h1

theorem mem_of_levelIndex {h : List String} {l : String} {i : Nat}
    (hfi : levelIndex h l = some i) : l ∈ h := by
  induction h generalizing i with
  | nil => simp [levelIndex] at hfi
  | cons x xs ih =>
      by_cases hx : x = l
      · simp [hx]
      · rw [levelIndex, if_neg hx] at hfi
        rcases Option.map_eq_some'.mp hfi with ⟨j, hj, _⟩
        exact List.mem_cons_of_mem x (ih hj)

theorem resolveRollupLevel_mem {axis : AxisSpec} {query : QueryPayload}
    {dimension : CubeDimension} {lv level1 : String}
    (hmem : lv ∈ dimension.hierarchy)
    (h : resolveRollupLevel axis query dimension lv = .ok level1) :
    level1 ∈ dimension.hierarchy := by
  unfold resolveRollupLevel at h
  cases hro : query.rollup with
  | none => rw [hro] at h; cases h; exact hmem
  | some rollup =>
      rw [hro] at h
      dsimp only at h
      by_cases hrd : rollup.dimension = axis.dimension
      · rw [if_pos hrd] at h
        cases hri : levelIndex dimension.hierarchy rollup.level with
        | none => rw [hri] at h; dsimp only at h; cases h
        | some rollupIdx =>
            rw [hri] at h
            cases hli : levelIndex dimension.hierarchy lv with
            | none => rw [hli] at h; dsimp only at h; cases h; exact hmem
            | some levelIdx =>
                rw [hli] at h
                dsimp only at h
                cases h
                split
                · exact mem_of_levelIndex hri
                · exact hmem
      · rw [if_neg hrd] at h
        cases h
        exact hmem

theorem resolveDrillLevel_mem {axis : AxisSpec} {query : QueryPayload}
    {dimension : CubeDimension} {level1 level2 : String}
    (hmem : level1 ∈ dimension.hierarchy)
    (h : resolveDrillLevel axis query dimension level1 = .ok level2) :
    level2 ∈ dimension.hierarchy := by
  unfold resolveDrillLevel at h
  cases hdr : query.drill with
  | none => rw [hdr] at h; cases h; exact hmem
  | some drill =>
      rw [hdr] at h
      dsimp only at h
      by_cases hdd : drill.dimension = axis.dimension
      · rw [if_pos hdd] at h
        by_cases htl : drill.toLevel ∈ dimension.hierarchy
        · rw [if_neg (by simpa using htl)] at h
          cases h
          exact htl
        · rw [if_pos (by simpa using htl)] at h
          cases h
      · rw [if_neg hdd] at h
        cases h
        exact hmem

theorem resolveAxis_ok_shape {axis : AxisSpec} {p : QueryPayload}
    {cube : CubeInstance} {axis2 : AxisSpec}
    (h : resolveAxis axis p cube = .ok axis2) :
    ∃ dm lv, jsGet axis.dimension cube.dimensionMap = some dm ∧
      axis2.dimension = axis.dimension ∧ axis2.level = some lv ∧
      lv ∈ dm.hierarchy := by
  unfold resolveAxis at h
  cases hdm : jsGet axis.dimension cube.dimensionMap with
  | none => rw [hdm] at h; cases h
  | some dm =>
      rw [hdm] at h
      dsimp only at h
      cases hl0 : (axis.level <|> dm.hierarchy.getLast?) with
      | none => rw [hl0] at h; dsimp only at h; cases h
      | some lv =>
          rw [hl0] at h
          dsimp only at h
          by_cases hmem : lv ∈ dm.hierarchy
          · rw [if_neg (by simpa using hmem)] at h
            cases hr : resolveRollupLevel axis p dm lv with
            | error e => rw [hr] at h; dsimp only at h; cases h
            | ok level1 =>
                rw [hr] at h
                dsimp only at h
                cases hd : resolveDrillLevel axis p dm level1 with
                | error e => rw [hd] at h; dsimp only at h; cases h
                | ok level2 =>
                    rw [hd] at h
                    dsimp only at h
                    cases h
                    exact ⟨dm, level2, rfl, rfl, rfl,
                      resolveDrillLevel_mem (resolveRollupLevel_mem hmem hr) hd⟩
          · rw [if_pos (by simpa using hmem)] at h
            cases h

theorem exceptOkBind (x : α) (f : α → Except ε β) :
    (Except.ok x >>= f : Except ε β) = f x := rfl

theorem exceptPureBind (x : α) (f : α → Except ε β) :
    ((pure x : Except ε α) >>= f) = f x := rfl

theorem mapExcept_ok_mem {f : α → Except ε β} {l : List α} {res : List β}
    (h : mapExcept f l = .ok res) : ∀ b ∈ res, ∃ a ∈ l, f a = .ok b := by
  induction l generalizing res with
  | nil =>
      cases h
      simp
  | cons a rest ih =>
      rw [mapExcept] at h
      cases hfa : f a with
      | error e => rw [hfa] at h; cases h
      | ok b =>
          rw [hfa] at h
          cases hrest : mapExcept f rest with
          | error e => rw [hrest] at h; cases h
          | ok bs =>
              rw [hrest] at h
              cases h
              intro b2 hb2
              rcases List.mem_cons.mp hb2 with rfl | hb3
              · exact ⟨a, by simp, hfa⟩
              · obtain ⟨a2, ha2, hfa2⟩ := ih hrest b2 hb3
                exact ⟨a2, List.mem_cons_of_mem a ha2, hfa2⟩

theorem mapExcept_ok_of_all {f : α → Except ε β} {l : List α}
    (h : ∀ a ∈ l, ∃ b, f a = .ok b) : ∃ res, mapExcept f l = .ok res := by
  induction l with
  | nil => exact ⟨[], rfl⟩
  | cons a rest ih =>
      obtain ⟨b, hb⟩ := h a (by simp)
      obtain ⟨bs, hbs⟩ := ih fun a2 ha2 => h a2 (List.mem_cons_of_mem a ha2)
      refine ⟨b :: bs, ?_⟩
      rw [mapExcept, hb]
      dsimp only
      rw [hbs]

theorem foldlExcept_ok_of_all {f : σ → α → Except ε σ} {l : List α}
    (h : ∀ st a, a ∈ l → ∃ st2, f st a = .ok st2) (init : σ) :
    ∃ stf, foldlExcept f init l = .ok stf := by
  induction l generalizing init with
  | nil => exact ⟨init, rfl⟩
  | cons a rest ih =>
      obtain ⟨st2, hst2⟩ := h init a (by simp)
      obtain ⟨stf, hstf⟩ := ih (fun st a2 ha2 => h st a2 (List.mem_cons_of_mem a ha2)) st2
      refine ⟨stf, ?_⟩
      rw [foldlExcept, hst2]
      exact hstf

/-- The shape every axis of a normalized query satisfies: either resolved
by `resolveAxis` (level known to the dimension map), or the synthesized
default row axis. -/
def AxisWellFormed (cube : CubeInstance) (axis : AxisSpec) : Prop :=
  (∃ dm lv, jsGet axis.dimension cube.dimensionMap = some dm ∧
    axis.level = some lv ∧ lv ∈ dm.hierarchy) ∨
  (∃ dm, cube.definition.dimensions.head? = some dm ∧
    axis.dimension = dm.name ∧ axis.level = dm.hierarchy.head?)

theorem normalizeQuery_axes {p : QueryPayload} {cube : CubeInstance}
    {q : NormalizedQuery} (h : normalizeQuery p cube = .ok q) :
    ∀ axis ∈ q.rows ++ q.columns, AxisWellFormed cube axis := by
  unfold normalizeQuery at h
  cases hmdx : parseLightweightMdx p.mdx with
  | error e => rw [hmdx] at h; cases h
  | ok hints =>
      rw [hmdx] at h
      simp only [exceptOkBind] at h
      cases hrows : mapExcept (resolveAxis · (mergeQueryPayload hints p) cube)
          (((mergeQueryPayload hints p).pivot.bind PivotSpec.rows <|>
            (mergeQueryPayload hints p).rows).getD []) with
      | error e => rw [hrows] at h; cases h
      | ok resolvedRows =>
          rw [hrows] at h
          simp only [exceptOkBind] at h
          cases hcols : mapExcept (resolveAxis · (mergeQueryPayload hints p) cube)
              (((mergeQueryPayload hints p).pivot.bind PivotSpec.columns <|>
                (mergeQueryPayload hints p).columns).getD []) with
          | error e => rw [hcols] at h; cases h
          | ok resolvedColumns =>
              rw [hcols] at h
              simp only [exceptOkBind] at h
              by_cases hne : resolvedRows.length ≠ 0 ∨ resolvedColumns.length ≠ 0
              · rw [if_pos hne] at h
                simp only [exceptPureBind] at h
                cases hfind : (mergeQueryPayload hints p).measures.find?
                    (fun m => (jsGet m cube.measureMap).isNone) with
                | some m => rw [hfind] at h; cases h
                | none =>
                    rw [hfind] at h
                    cases h
                    intro axis haxis
                    rcases List.mem_append.mp haxis with ha | ha
                    · obtain ⟨a0, _, hres⟩ := mapExcept_ok_mem hrows axis ha
                      obtain ⟨dm, lv, h1, h2, h3, h4⟩ := resolveAxis_ok_shape hres
                      exact Or.inl ⟨dm, lv, h2 ▸ h1, h3, h4⟩
                    · obtain ⟨a0, _, hres⟩ := mapExcept_ok_mem hcols axis ha
                      obtain ⟨dm, lv, h1, h2, h3, h4⟩ := resolveAxis_ok_shape hres
                      exact Or.inl ⟨dm, lv, h2 ▸ h1, h3, h4⟩
              · rw [if_neg hne] at h
                cases hdef : defaultRows cube with
                | error e => rw [hdef] at h; cases h
                | ok defRows =>
                    rw [hdef] at h
                    simp only [exceptOkBind] at h
                    cases hfind : (mergeQueryPayload hints p).measures.find?
                        (fun m => (jsGet m cube.measureMap).isNone) with
                    | some m => rw [hfind] at h; cases h
                    | none =>
                        rw [hfind] at h
                        cases h
                        intro axis haxis
                        rcases List.mem_append.mp haxis with ha | ha
                        · unfold defaultRows at hdef
                          cases hdims : cube.definition.dimensions with
                          | nil => rw [hdims] at hdef; cases hdef
                          | cons dm rest =>
                              rw [hdims] at hdef
                              dsimp only at hdef
                              cases hdef
                              rw [List.mem_singleton] at ha
                              subst ha
                              exact Or.inr ⟨dm, by rw [hdims]; rfl, rfl, rfl⟩
                        · obtain ⟨a0, _, hres⟩ := mapExcept_ok_mem hcols axis ha
                          obtain ⟨dm, lv, h1, h2, h3, h4⟩ := resolveAxis_ok_shape hres
                          exact Or.inl ⟨dm, lv, h2 ▸ h1, h3, h4⟩


/-- Is the `Except` an `ok`? -/
def exceptIsOk : Except ε α → Bool
  | .ok _ => true
  | .error _ => false

theorem exists_ok_of_isOk {x : Except ε α} (h : exceptIsOk x = true) :
    ∃ a, x = .ok a := by
  cases x with
  | error e => simp [exceptIsOk] at h
  | ok a => exact ⟨a, rfl⟩

theorem buildCoordinate_ok {row : FactRow} {axis : AxisSpec} {cube : CubeInstance}
    (hax : AxisWellFormed cube axis)
    (hinv1 : ∀ nm dm, jsGet nm cube.dimensionMap = some dm → "" ∉ dm.hierarchy)
    (hinv2 : ∀ dm ∈ cube.definition.dimensions, dm.hierarchy ≠ [] ∧ "" ∉ dm.hierarchy) :
    ∃ c, buildCoordinate row axis cube = .ok c := by
  apply exists_ok_of_isOk
  rcases hax with ⟨dm, lv, hdm, hlv, hmem⟩ | ⟨dm, hhead, hname, hlv⟩
  · have hne : lv ≠ "" := by
      intro he
      exact hinv1 axis.dimension dm hdm (he ▸ hmem)
    unfold buildCoordinate
    dsimp only
    have hsome : (axis.level <|>
        (jsGet axis.dimension cube.dimensionMap).bind fun d => d.hierarchy.getLast?) =
        some lv := by
      rw [hlv]
      rfl
    rw [hsome]
    dsimp only
    rw [if_neg hne]
    rfl
  · have hdmem : dm ∈ cube.definition.dimensions := by
      cases hds : cube.definition.dimensions with
      | nil => rw [hds] at hhead; cases hhead
      | cons d rest =>
          rw [hds] at hhead
          cases hhead
          simp
    obtain ⟨hhne, hbne⟩ := hinv2 dm hdmem
    obtain ⟨h0, hrest, hcons⟩ := List.exists_cons_of_ne_nil hhne
    have hlv2 : axis.level = some h0 := by
      rw [hlv, hcons]
      rfl
    have hne : h0 ≠ "" := by
      intro he
      apply hbne
      rw [hcons, he]
      simp
    unfold buildCoordinate
    dsimp only
    have hsome : (axis.level <|>
        (jsGet axis.dimension cube.dimensionMap).bind fun d => d.hierarchy.getLast?) =
        some h0 := by
      rw [hlv2]
      rfl
    rw [hsome]
    dsimp only
    rw [if_neg hne]
    rfl

theorem scanRow_ok {q : NormalizedQuery} {cube : CubeInstance}
    (measureDefs : List CubeMeasure) (st : ScanState) (row : FactRow)
    (haxes : ∀ axis ∈ q.rows ++ q.columns, AxisWellFormed cube axis)
    (hinv1 : ∀ nm dm, jsGet nm cube.dimensionMap = some dm → "" ∉ dm.hierarchy)
    (hinv2 : ∀ dm ∈ cube.definition.dimensions, dm.hierarchy ≠ [] ∧ "" ∉ dm.hierarchy) :
    ∃ st2, scanRow q cube measureDefs st row = .ok st2 := by
  apply exists_ok_of_isOk
  unfold scanRow
  by_cases hm : matchesFilters row q cube
  · rw [hm]
    obtain ⟨rcs, hrcs⟩ := mapExcept_ok_of_all
      (f := fun axis => buildCoordinate row axis cube) (l := q.rows)
      (fun axis ha => buildCoordinate_ok
        (haxes axis (List.mem_append.mpr (Or.inl ha))) hinv1 hinv2)
    obtain ⟨ccs, hccs⟩ := mapExcept_ok_of_all
      (f := fun axis => buildCoordinate row axis cube) (l := q.columns)
      (fun axis ha => buildCoordinate_ok
        (haxes axis (List.mem_append.mpr (Or.inr ha))) hinv1 hinv2)
    simp only [Bool.not_true, Bool.false_eq_true, if_false, ite_false]
    rw [show buildCoordinates row q.rows cube = .ok rcs from hrcs]
    simp only [exceptOkBind]
    rw [show buildCoordinates row q.columns cube = .ok ccs from hccs]
    simp only [exceptOkBind]
    rfl
  · rw [Bool.not_eq_true] at hm
    rw [hm]
    rfl

theorem mapExcept_lookupMeasureDef_error {cube : CubeInstance} {ms : List String}
    {e : CubeError} (h : mapExcept (lookupMeasureDef cube) ms = .error e) :
    e.status = 500 := by
  induction ms with
  | nil => cases h
  | cons n rest ih =>
      rw [mapExcept] at h
      cases hn : jsGet n cube.measureMap with
      | some m =>
          rw [show lookupMeasureDef cube n = .ok m by rw [lookupMeasureDef, hn]] at h
          dsimp only at h
          cases hrest : mapExcept (lookupMeasureDef cube) rest with
          | error e3 =>
              rw [hrest] at h
              cases h
              exact ih hrest
          | ok bs => rw [hrest] at h; cases h
      | none =>
          rw [show lookupMeasureDef cube n =
            .error ⟨500, "TypeError: cannot read properties of undefined"⟩ by
              rw [lookupMeasureDef, hn]] at h
          dsimp only at h
          cases h
          rfl

theorem runRawScan_error_status {q : NormalizedQuery} {cube : CubeInstance}
    {plan : ExecutionPlan} {e : CubeError}
    (haxes : ∀ axis ∈ q.rows ++ q.columns, AxisWellFormed cube axis)
    (hinv1 : ∀ nm dm, jsGet nm cube.dimensionMap = some dm → "" ∉ dm.hierarchy)
    (hinv2 : ∀ dm ∈ cube.definition.dimensions, dm.hierarchy ≠ [] ∧ "" ∉ dm.hierarchy)
    (h : runRawScan q cube plan = .error e) : e.status = 500 := by
  unfold runRawScan at h
  cases hmd : mapExcept (lookupMeasureDef cube) q.measures with
  | error e2 =>
      rw [hmd] at h
      have he : e2 = e := by
        have : (Except.error e2 >>= fun measureDefs =>
            (foldlExcept (scanRow q cube measureDefs)
              ({ rowOrder := [], columnOrder := [], table := [] } : ScanState)
              cube.definition.rows) >>= fun st => _) = Except.error e := h
        cases h
        rfl
      subst he
      exact mapExcept_lookupMeasureDef_error hmd
  | ok measureDefs =>
      rw [hmd] at h
      simp only [exceptOkBind] at h
      obtain ⟨stf, hstf⟩ := foldlExcept_ok_of_all
        (f := scanRow q cube measureDefs)
        (fun st a _ => scanRow_ok measureDefs st a haxes hinv1 hinv2)
        ({ rowOrder := [], columnOrder := [], table := [] } : ScanState)
      rw [hstf] at h
      simp only [exceptOkBind] at h
      cases h

/-- C8 (amended): under the data-model invariants — every dimension of the
queried cube has a nonempty hierarchy of nonempty level names — a query
that raises a 400-class (BadRequest) error leaves the engine state
(cache contents, `hits`, `misses`) exactly as it was. Without those
invariants the default-axis path can throw 400 after the miss counter was
already incremented (see the counterexample). -/
theorem C8_error_locality (s : EngineState) (p : QueryPayload) (now : Nat)
    (hinv : ∀ cube, jsGet p.cube s.cubes = some cube →
      (∀ dm ∈ cube.definition.dimensions, dm.hierarchy ≠ [] ∧ "" ∉ dm.hierarchy) ∧
      (∀ nm dm, jsGet nm cube.dimensionMap = some dm → "" ∉ dm.hierarchy)) :
    ∀ e, (execute s p now).1 = .error e → e.status = 400 →
      (execute s p now).2 = s := by
  intro e he h400
  unfold execute at he ⊢
  revert he
  cases hc : jsGet p.cube s.cubes with
  | none =>
      intro he
      rfl
  | some cube =>
      dsimp only
      cases hn : normalizeQuery p cube with
      | error e2 =>
          intro he
          rfl
      | ok q =>
          dsimp only
          cases hg : lruGet s.cache now (cacheKeyOf q) with
          | mk copt cache1 =>
              cases copt with
              | some cached =>
                  dsimp only
                  intro he
                  cases he
              | none =>
                  dsimp only
                  cases hr : runPlan (planOf q) q cube with
                  | ok fresh =>
                      dsimp only
                      intro he
                      cases he
                  | error e3 =>
                      dsimp only
                      intro he
                      cases he
                      unfold runPlan at hr
                      revert hr
                      cases hps : (planOf q).strategy with
                      | preAggregate =>
                          intro hr
                          cases hr
                      | rawScan =>
                          intro hr
                          dsimp only at hr
                          have h500 := runRawScan_error_status
                            (normalizeQuery_axes hn) (hinv cube hc).2 (hinv cube hc).1 hr
                          rw [h500] at h400
                          cases h400

/-- The cube with an empty hierarchy used in the C8 counterexample. -/
def c8Def : CubeDefinition :=
  { name := "e", dimensions := [{ name := "d", hierarchy := [] }],
    measures := [{ name := "m", valueField := "f", aggregation := .COUNT }],
    rows := [{ dimensions := [], metrics := [("f", .str "x")] }] }

/-- An engine with `c8Def` registered. -/
def c8State : EngineState :=
  (registerCube (mkEngineState 200 30000) c8Def).toOption.getD (mkEngineState 200 30000)

/-- A payload whose filter forces the raw scan over the default axis. -/
def c8Payload : QueryPayload :=
  { cube := "e", measures := ["m"],
    filters := some [{ dimension := "zz", operator := .neq, value := .scalar (.str "x") }] }

/-- C8 (counterexample): this query raises a 400-class BadRequest
("Unable to resolve level"), yet the miss counter has already been
incremented — the claim's "counters unchanged" fails as stated. -/
theorem C8_counterexample :
    (execute c8State c8Payload 0).1 =
      .error ⟨400, "Unable to resolve level for dimension d."⟩ ∧
    (execute c8State c8Payload 0).2.misses = c8State.misses + 1 := by
  exact ⟨rfl, rfl⟩

/-- The well-formed cube used in the C8 witness. -/
def c8wDef : CubeDefinition :=
  { name := "w", dimensions := [{ name := "g", hierarchy := ["r"] }],
    measures := [{ name := "m", valueField := "f", aggregation := .COUNT }],
    rows := [] }

/-- An engine with `c8wDef` registered. -/
def c8wState : EngineState :=
  (registerCube (mkEngineState 200 30000) c8wDef).toOption.getD (mkEngineState 200 30000)

/-- A payload naming an unknown measure (a 400-class failure). -/
def c8wPayload : QueryPayload := { cube := "w", measures := ["nope"] }

/-- Witness for C8: the unknown-measure BadRequest leaves the state
untouched. -/
theorem C8_error_locality_witness :
    (execute c8wState c8wPayload 0).1 =
      .error ⟨400, "Unknown measure nope for cube w."⟩ ∧
    (execute c8wState c8wPayload 0).2 = c8wState := by
  refine ⟨rfl, ?_⟩
  apply C8_error_locality c8wState c8wPayload 0 ?_
    ⟨400, "Unknown measure nope for cube w."⟩ rfl rfl
  intro cube hcu
  rw [show jsGet c8wPayload.cube c8wState.cubes = some (mkCubeInstance c8wDef) from rfl] at hcu
  cases hcu
  constructor
  · intro dm hdm
    rw [show (mkCubeInstance c8wDef).definition.dimensions =
      [{ name := "g", hierarchy := ["r"] }] from rfl] at hdm
    rw [List.mem_singleton] at hdm
    subst hdm
    exact ⟨by simp, by simp⟩
  · intro nm dm hmap
    rw [show (mkCubeInstance c8wDef).dimensionMap =
      [("g", { name := "g", hierarchy := ["r"] : CubeDimension })] from rfl] at hmap
    rw [jsGet] at hmap
    by_cases hnm : nm = "g"
    · rw [if_pos hnm] at hmap
      cases hmap
      simp
    · rw [if_neg hnm] at hmap
      cases hmap

theorem jsGet_filter_ne_none [DecidableEq α] (k : α) (l : List (α × β)) :
    jsGet k (l.filter fun kv => kv.1 != k) = none := by
  induction l with
  | nil => rfl
  | cons kv rest ih =>
      by_cases h : kv.1 = k
      · simp [List.filter_cons, h, ih]
      · simp only [List.filter_cons]
        rw [if_pos (by simpa using h)]
        rw [jsGet, if_neg (Ne.symm h), ih]

theorem jsGet_append_right [DecidableEq α] (k : α) (l1 l2 : List (α × β))
    (h : jsGet k l1 = none) : jsGet k (l1 ++ l2) = jsGet k l2 := by
  induction l1 with
  | nil => rfl
  | cons kv rest ih =>
      rw [jsGet] at h
      by_cases h2 : k = kv.1
      · rw [if_pos h2] at h
        cases h
      · rw [if_neg h2] at h
        rw [List.cons_append, jsGet, if_neg h2]
        exact ih h

theorem not_mem_keys_of_jsGet_none [DecidableEq α] {k : α} {l : List (α × β)}
    (h : jsGet k l = none) : k ∉ l.map Prod.fst := by
  intro hmem
  have := jsGet_isSome_of_mem_keys (l := l) hmem
  rw [h] at this
  cases this

theorem jsGet_drop_none [DecidableEq α] {k : α} {l : List (α × β)} (n : Nat)
    (h : jsGet k l = none) : jsGet k (l.drop n) = none := by
  apply jsGet_eq_none_of_not_mem_keys
  intro hmem
  apply not_mem_keys_of_jsGet_none h
  rcases List.mem_map.mp hmem with ⟨kv, hkv, rfl⟩
  exact List.mem_map_of_mem Prod.fst (List.mem_of_mem_drop hkv)

theorem jsGet_lruSet_self (c : LruCache) (now : Nat) (k : String) (p : CachedPayload) :
    jsGet k (lruSet c now k p).entries = some ⟨p, now⟩ := by
  unfold lruSet
  dsimp only
  have hn : jsGet k (c.entries.filter fun kv => kv.1 != k) = none :=
    jsGet_filter_ne_none k c.entries
  split
  · rw [jsGet_append_right _ _ _ (jsGet_drop_none _ hn)]
    simp [jsGet]
  · rw [jsGet_append_right _ _ _ hn]
    simp [jsGet]

theorem jsGet_bump_self (k : String) (l : List (String × CacheEntry)) (e : CacheEntry) :
    jsGet k (l.filter (fun kv => kv.1 != k) ++ [(k, e)]) = some e := by
  rw [jsGet_append_right _ _ _ (jsGet_filter_ne_none k l)]
  simp [jsGet]

/-- Executing against a live cache entry: the call is a hit, bumps the
entry's recency, increments `hits`, and returns the cached payload. -/
theorem execute_on_live_entry (s : EngineState) (p : QueryPayload) (now : Nat)
    (cube : CubeInstance) (q : NormalizedQuery) (e0 : CacheEntry)
    (hc : jsGet p.cube s.cubes = some cube)
    (hn : normalizeQuery p cube = .ok q)
    (hjs : jsGet (cacheKeyOf q) s.cache.entries = some e0)
    (hlive : now < e0.insertedAt + s.cache.ttlMs) :
    execute s p now =
      (.ok (decorateResponse cube q e0.payload (cacheKeyOf q) true
        { s with
          cache := { s.cache with entries :=
            s.cache.entries.filter (fun kv => kv.1 != cacheKeyOf q) ++
              [(cacheKeyOf q, e0)] }
          hits := s.hits + 1 } now),
       { s with
         cache := { s.cache with entries :=
           s.cache.entries.filter (fun kv => kv.1 != cacheKeyOf q) ++
             [(cacheKeyOf q, e0)] }
         hits := s.hits + 1 }) := by
  have hlg : lruGet s.cache now (cacheKeyOf q) =
      (some e0.payload,
       { s.cache with entries :=
         s.cache.entries.filter (fun kv => kv.1 != cacheKeyOf q) ++
           [(cacheKeyOf q, e0)] }) := by
    unfold lruGet
    rw [hjs]
    dsimp only
    rw [if_pos hlive]
  unfold execute
  rw [hc]
  dsimp only
  rw [hn]
  dsimp only
  rw [hlg]

/-- C3: two consecutive identical `execute` calls (same instant, positive
TTL, no intervening operation): the second is a hit, returns the first
call's data block unchanged, and reports `hits` strictly increased. -/
theorem C3_cache_idempotence (s : EngineState) (p : QueryPayload) (now : Nat)
    (r1 : OlapQueryResponse) (s1 : EngineState)
    (httl : 0 < s.cache.ttlMs)
    (h1 : execute s p now = (.ok r1, s1)) :
    ∃ r2 s2, execute s1 p now = (.ok r2, s2) ∧
      r2.data = r1.data ∧
      r2.metadata.cache.hit = true ∧
      r2.metadata.cache.stats.hits = s1.hits + 1 ∧
      s2.hits = s1.hits + 1 ∧ s2.misses = s1.misses := by
  unfold execute at h1
  revert h1
  cases hc : jsGet p.cube s.cubes with
  | none =>
      intro h1
      cases congrArg Prod.fst h1
  | some cube =>
      dsimp only
      cases hn : normalizeQuery p cube with
      | error e2 =>
          intro h1
          cases congrArg Prod.fst h1
      | ok q =>
          dsimp only
          cases hg : lruGet s.cache now (cacheKeyOf q) with
          | mk copt cache1 =>
              cases copt with
              | some cached =>
                  dsimp only
                  intro h1
                  injection h1 with hfst hsnd
                  injection hfst with hr1
                  unfold lruGet at hg
                  revert hg
                  cases hjs : jsGet (cacheKeyOf q) s.cache.entries with
                  | none =>
                      intro hg
                      cases congrArg Prod.fst hg
                  | some e0 =>
                      dsimp only
                      by_cases hlive : now < e0.insertedAt + s.cache.ttlMs
                      · rw [if_pos hlive]
                        intro hg
                        injection hg with hpay hcache
                        injection hpay with hpay
                        have h2 := execute_on_live_entry s1 p now cube q e0
                          (by rw [← hsnd]; exact hc)
                          hn
                          (by rw [← hsnd, ← hcache]
                              exact jsGet_bump_self (cacheKeyOf q) s.cache.entries e0)
                          (by rw [← hsnd, ← hcache]; exact hlive)
                        refine ⟨_, _, h2, ?_, rfl, ?_, ?_, ?_⟩
                        · rw [← hr1, ← hpay]
                          rfl
                        · rfl
                        · rfl
                        · rw [← hsnd]
                      · rw [if_neg hlive]
                        intro hg
                        cases congrArg Prod.fst hg
              | none =>
                  dsimp only
                  cases hr : runPlan (planOf q) q cube with
                  | error e3 =>
                      dsimp only
                      intro h1
                      cases congrArg Prod.fst h1
                  | ok fresh =>
                      dsimp only
                      intro h1
                      injection h1 with hfst hsnd
                      injection hfst with hr1
                      have httl1 : cache1.ttlMs = s.cache.ttlMs := by
                        unfold lruGet at hg
                        revert hg
                        cases hjs : jsGet (cacheKeyOf q) s.cache.entries with
                        | none =>
                            intro hg
                            injection hg with hg1 hg2
                            rw [← hg2]
                        | some e0 =>
                            dsimp only
                            by_cases hlive : now < e0.insertedAt + s.cache.ttlMs
                            · rw [if_pos hlive]
                              intro hg
                              cases congrArg Prod.fst hg
                            · rw [if_neg hlive]
                              intro hg
                              injection hg with hg1 hg2
                              rw [← hg2]
                      have h2 := execute_on_live_entry s1 p now cube q
                        ⟨fresh, now⟩
                        (by rw [← hsnd]; exact hc)
                        hn
                        (by rw [← hsnd]
                            exact jsGet_lruSet_self cache1 now (cacheKeyOf q) fresh)
                        (by rw [← hsnd]
                            show now < now + (lruSet cache1 now (cacheKeyOf q) fresh).ttlMs
                            have : (lruSet cache1 now (cacheKeyOf q) fresh).ttlMs =
                                cache1.ttlMs := rfl
                            rw [this, httl1]
                            omega)
                      refine ⟨_, _, h2, ?_, rfl, ?_, ?_, ?_⟩
                      · rw [← hr1]
                        rfl
                      · rfl
                      · rfl
                      · rw [← hsnd]

/-- The sample cube for the C3 witness. -/
def c3Def : CubeDefinition :=
  { name := "s3", dimensions := [{ name := "g", hierarchy := ["r"] }],
    measures := [{ name := "m", valueField := "f", aggregation := .COUNT }],
    rows := [{ dimensions := [("g", [("r", .str "NA")])], metrics := [("f", .str "x")] },
             { dimensions := [("g", [("r", .str "EU")])], metrics := [("f", .str "y")] }] }

/-- An engine with `c3Def` registered. -/
def c3State : EngineState :=
  (registerCube (mkEngineState 200 30000) c3Def).toOption.getD (mkEngineState 200 30000)

/-- A payload answered from the pre-aggregate path. -/
def c3Payload : QueryPayload := { cube := "s3", measures := ["m"] }

/-- Witness for C3: running the same query twice on the sample engine. -/
theorem C3_cache_idempotence_witness :
    ∃ r1 s1 r2 s2, execute c3State c3Payload 0 = (.ok r1, s1) ∧
      execute s1 c3Payload 0 = (.ok r2, s2) ∧ r2.data = r1.data ∧
      r2.metadata.cache.hit = true ∧ s2.hits = s1.hits + 1 := by
  rcases hE : execute c3State c3Payload 0 with ⟨res, s1⟩
  cases res with
  | error e =>
      have hcomp : exceptIsOk (execute c3State c3Payload 0).1 = true := rfl
      rw [hE] at hcomp
      cases hcomp
  | ok r1 =>
      obtain ⟨r2, s2, h2, hdata, hhit, _, hhits, _⟩ :=
        C3_cache_idempotence c3State c3Payload 0 r1 s1 (by decide) hE
      exact ⟨r1, s1, r2, s2, rfl, h2, hdata, hhit, hhits⟩


theorem jsGet_mem [DecidableEq α] {k : α} {v : β} {l : List (α × β)}
    (h : jsGet k l = some v) : (k, v) ∈ l := by
  induction l with
  | nil => cases h
  | cons kv rest ih =>
      cases kv with
      | mk a b =>
          rw [jsGet] at h
          by_cases h2 : k = a
          · rw [if_pos h2] at h
            injection h with h
            subst h2
            subst h
            exact List.mem_cons_self _ _
          · rw [if_neg h2] at h
            exact List.mem_cons_of_mem _ (ih h)

theorem listStarts_append [DecidableEq α] (l r : List α) :
    listStarts l (l ++ r) = true := by
  induction l with
  | nil => rfl
  | cons a as ih => simp [listStarts, ih]

theorem stableSort_fingerprint_fields (a b c : String) :
    stableSort fieldLe [("cube", a), ("query", b), ("plan", c)] =
      [("cube", a), ("plan", c), ("query", b)] := by
  show sortedInsert fieldLe ("cube", a)
    (sortedInsert fieldLe ("query", b)
      (sortedInsert fieldLe ("plan", c) [])) = _
  rw [sortedInsert, sortedInsert,
    show fieldLe ("query", b) ("plan", c) = false from rfl,
    if_neg (by simp), sortedInsert, sortedInsert,
    show fieldLe ("cube", a) ("plan", c) = true from rfl, if_pos rfl]

theorem normalizeQuery_cube {p : QueryPayload} {cube : CubeInstance}
    {q : NormalizedQuery} (h : normalizeQuery p cube = .ok q) :
    q.cube = p.cube := by
  unfold normalizeQuery at h
  cases hmdx : parseLightweightMdx p.mdx with
  | error e => rw [hmdx] at h; cases h
  | ok hints =>
      rw [hmdx] at h
      simp only [exceptOkBind] at h
      cases hrows : mapExcept (resolveAxis · (mergeQueryPayload hints p) cube)
          (((mergeQueryPayload hints p).pivot.bind PivotSpec.rows <|>
            (mergeQueryPayload hints p).rows).getD []) with
      | error e => rw [hrows] at h; cases h
      | ok resolvedRows =>
          rw [hrows] at h
          simp only [exceptOkBind] at h
          cases hcols : mapExcept (resolveAxis · (mergeQueryPayload hints p) cube)
              (((mergeQueryPayload hints p).pivot.bind PivotSpec.columns <|>
                (mergeQueryPayload hints p).columns).getD []) with
          | error e => rw [hcols] at h; cases h
          | ok resolvedColumns =>
              rw [hcols] at h
              simp only [exceptOkBind] at h
              by_cases hne : resolvedRows.length ≠ 0 ∨ resolvedColumns.length ≠ 0
              · rw [if_pos hne] at h
                simp only [exceptPureBind] at h
                cases hfind : (mergeQueryPayload hints p).measures.find?
                    (fun m => (jsGet m cube.measureMap).isNone) with
                | some m => rw [hfind] at h; cases h
                | none =>
                    rw [hfind] at h
                    cases h
                    rfl
              · rw [if_neg hne] at h
                cases hdef : defaultRows cube with
                | error e => rw [hdef] at h; cases h
                | ok defRows =>
                    rw [hdef] at h
                    simp only [exceptOkBind] at h
                    cases hfind : (mergeQueryPayload hints p).measures.find?
                        (fun m => (jsGet m cube.measureMap).isNone) with
                    | some m => rw [hfind] at h; cases h
                    | none =>
                        rw [hfind] at h
                        cases h
                        rfl


theorem stableStringify_obj (fields : List (String × Json)) :
    stableStringify (.obj fields) =
      "\x7b" ++
        ",".intercalate
          ((stableSort fieldLe (stringifyFields fields)).map
            fun kv => jsonQuote kv.1 ++ ":" ++ kv.2) ++
      "\x7d" := rfl

theorem stableStringify_str (s : String) :
    stableStringify (.str s) = jsonQuote s := rfl

theorem cacheKey_starts (q : NormalizedQuery) :
    listStarts (cubeKeyStart q.cube).toList (cacheKeyOf q).toList = true := by
  have hkey : cacheKeyOf q =
      "\x7b" ++
        (jsonQuote "cube" ++ ":" ++ jsonQuote q.cube ++ "," ++
         (jsonQuote "plan" ++ ":" ++ stableStringify (planToJson (planOf q))) ++ "," ++
         (jsonQuote "query" ++ ":" ++ stableStringify (normalizedQueryToJson q))) ++
      "\x7d" := by
    show stableStringify (fingerprintJson q) = _
    rw [fingerprintJson, stableStringify_obj, stringifyFields_eq_map]
    simp only [List.map_cons, List.map_nil, stableStringify_str]
    rw [stableSort_fingerprint_fields]
    simp only [List.map_cons, List.map_nil]
    rfl
  have hsplit : cacheKeyOf q = cubeKeyStart q.cube ++
      ("," ++
       (jsonQuote "plan" ++ ":" ++ stableStringify (planToJson (planOf q))) ++ "," ++
       (jsonQuote "query" ++ ":" ++ stableStringify (normalizedQueryToJson q)) ++
       "\x7d") := by
    rw [hkey]
    apply String.ext
    simp only [cubeKeyStart, String.data_append, List.append_assoc]
    rfl
  rw [hsplit]
  have htl : (cubeKeyStart q.cube ++
      ("," ++
       (jsonQuote "plan" ++ ":" ++ stableStringify (planToJson (planOf q))) ++ "," ++
       (jsonQuote "query" ++ ":" ++ stableStringify (normalizedQueryToJson q)) ++
       "\x7d")).toList = (cubeKeyStart q.cube).toList ++
      ("," ++
       (jsonQuote "plan" ++ ":" ++ stableStringify (planToJson (planOf q))) ++ "," ++
       (jsonQuote "query" ++ ":" ++ stableStringify (normalizedQueryToJson q)) ++
       "\x7d").toList := by
    simp [String.toList, String.data_append]
  rw [htl]
  exact listStarts_append _ _

/-- A cube for exercising invalidation. -/
def c4Def : CubeDefinition :=
  { name := "s4", dimensions := [{ name := "g", hierarchy := ["r"] }],
    measures := [{ name := "m", valueField := "f", aggregation := .COUNT }],
    rows := [{ dimensions := [("g", [("r", .str "NA")])], metrics := [("f", .str "x")] }] }

/-- A payload for the invalidation scenario. -/
def c4Payload : QueryPayload := { cube := "s4", measures := ["m"] }

/-- The engine after registering `c4Def` and caching one query result. -/
def c4State : EngineState :=
  (execute ((registerCube (mkEngineState 200 30000) c4Def).toOption.getD
    (mkEngineState 200 30000)) c4Payload 0).2

/-- **C4**: after `invalidateCube(name)`, every cache entry whose
fingerprint starts with that cube name has been evicted, an invalidation
event has been recorded, and the next `execute` call for that cube that
succeeds reports `metadata.cache.hit = false` (a cache miss). -/
theorem C4_invalidation (s : EngineState) (name reason : String) (tInv : Nat) :
    (∀ k e, (k, e) ∈ (invalidateCube s name reason tInv).cache.entries →
       listStarts (cubeKeyStart name).toList k.toList = false) ∧
    (invalidateCube s name reason tInv).invalidations =
      s.invalidations ++
        [{ cube := name, sources := [], timestamp := tInv, reason := reason }] ∧
    ∀ p now r s3, p.cube = name →
      execute (invalidateCube s name reason tInv) p now = (.ok r, s3) →
      r.metadata.cache.hit = false := by
  refine ⟨?_, rfl, ?_⟩
  · intro k e hmem
    have hmem2 : (k, e) ∈ s.cache.entries.filter
        (fun kv => !listStarts (cubeKeyStart name).toList kv.1.toList) := hmem
    simpa using (List.mem_filter.mp hmem2).2
  · intro p now r s3 hcube hex
    unfold execute at hex
    revert hex
    cases hc : jsGet p.cube (invalidateCube s name reason tInv).cubes with
    | none => intro hex; cases congrArg Prod.fst hex
    | some cube =>
        dsimp only
        cases hn : normalizeQuery p cube with
        | error e2 => intro hex; cases congrArg Prod.fst hex
        | ok q =>
            dsimp only
            have hqc : q.cube = name := (normalizeQuery_cube hn).trans hcube
            have hjs : jsGet (cacheKeyOf q)
                (invalidateCube s name reason tInv).cache.entries = none := by
              cases hjs2 : jsGet (cacheKeyOf q)
                  (invalidateCube s name reason tInv).cache.entries with
              | none => rfl
              | some e0 =>
                  exfalso
                  have hmem : (cacheKeyOf q, e0) ∈ s.cache.entries.filter
                      (fun kv => !listStarts (cubeKeyStart name).toList kv.1.toList) :=
                    jsGet_mem hjs2
                  have hfalse := (List.mem_filter.mp hmem).2
                  have htrue := cacheKey_starts q
                  rw [hqc] at htrue
                  rw [htrue] at hfalse
                  cases hfalse
            have hlg : lruGet (invalidateCube s name reason tInv).cache now
                (cacheKeyOf q) = (none, (invalidateCube s name reason tInv).cache) := by
              unfold lruGet
              rw [hjs]
            rw [hlg]
            dsimp only
            cases hp : runPlan (planOf q) q cube with
            | error e2 => intro hex; cases congrArg Prod.fst hex
            | ok fresh =>
                dsimp only
                intro hex
                injection hex with hfst hsnd
                injection hfst with hr
                rw [← hr]
                rfl

set_option maxRecDepth 4000 in
/-- Witness for C4: register a cube, cache one query, invalidate, and
observe that re-running the identical query is a miss. -/
theorem C4_invalidation_witness :
    ∃ r s3, execute (invalidateCube c4State "s4" "refresh" 1) c4Payload 1 =
      (.ok r, s3) ∧ r.metadata.cache.hit = false := by
  rcases hE : execute (invalidateCube c4State "s4" "refresh" 1) c4Payload 1 with ⟨res, s3⟩
  cases res with
  | error e =>
      have hcomp : exceptIsOk
          (execute (invalidateCube c4State "s4" "refresh" 1) c4Payload 1).1 = true := rfl
      rw [hE] at hcomp
      cases hcomp
  | ok r =>
      exact ⟨r, s3, rfl,
        (C4_invalidation c4State "s4" "refresh" 1).2.2 c4Payload 1 r s3 rfl hE⟩


/-- A cube whose two (dimension, level) pairs collide on the store key
`"a.b.c"`. -/
def c2Def : CubeDefinition :=
  { name := "s2"
    dimensions := [{ name := "a.b", hierarchy := ["c"] },
                   { name := "a", hierarchy := ["b.c"] }]
    measures := [{ name := "m", valueField := "f", aggregation := .COUNT }]
    rows := [{ dimensions := [("a.b", [("c", .str "v")])], metrics := [("f", .str "x")] },
             { dimensions := [("a", [("b.c", .str "v")])], metrics := [("f", .str "y")] }] }

/-- **C2** counterexample: `storeKey` concatenates with a dot, so dimension
`"a.b"` level `"c"` and dimension `"a"` level `"b.c"` share the key
`"a.b.c"`; the stored COUNT for measure `m` at value `"v"` is 2, while the
claim demands the accumulator run over exactly the facts whose
`dimensions["a.b"]["c"]` equals `"v"`, which yields 1. -/
theorem C2_preaggregate_counterexample :
    ((jsGet (storeKey "a.b" "c") (materializeAggregates c2Def)).bind fun ls =>
      (jsGet (DimValue.str "v") ls).bind fun rec => jsGet "m" rec) =
      some (2 : Rat) ∧
    runAccumulator AggregationType.COUNT
      ((c2Def.rows.filter fun row =>
          decide (factDimValue row "a.b" "c" = some (DimValue.str "v"))).map
        fun row => factMetric row "f") = (1 : Rat) := ⟨rfl, rfl⟩


/-- The (dimension name, level) pairs scanned by `materializeAggregates`,
in loop order. -/
def levelPairs (defn : CubeDefinition) : List (String × String) :=
  defn.dimensions.flatMap fun dm => dm.hierarchy.map fun lv => (dm.name, lv)

/-- Every store key of a definition, in scan order. -/
def allStoreKeys (defn : CubeDefinition) : List String :=
  defn.dimensions.flatMap fun dm => dm.hierarchy.map (storeKey dm.name)

theorem allStoreKeys_eq_map (defn : CubeDefinition) :
    allStoreKeys defn = (levelPairs defn).map fun pr => storeKey pr.1 pr.2 := by
  unfold allStoreKeys levelPairs
  rw [List.map_flatMap]
  congr 1
  funext dm
  rw [List.map_map]
  rfl

theorem processRow_eq_foldPairs (defn : CubeDefinition) (ws : WorkingStore)
    (row : FactRow) :
    processRow defn ws row =
      (levelPairs defn).foldl
        (fun ws pr => processRowLevel defn.measures row pr.1 pr.2 ws) ws := by
  unfold processRow levelPairs
  induction defn.dimensions generalizing ws with
  | nil => rfl
  | cons dm rest ih =>
      rw [List.foldl_cons, List.flatMap_cons, List.foldl_append, List.foldl_map, ih]

/-- The effect of one (row, dimension, level) visit on the cell stored
under its key. -/
def cellStep (measures : List CubeMeasure) (dName level : String) (row : FactRow)
    (c : Option (List (DimValue × AccRecord))) : Option (List (DimValue × AccRecord)) :=
  match factDimValue row dName level with
  | none => c
  | some v =>
      let ls := c.getD []
      let ls :=
        if (jsGet v ls).isSome then ls
        else jsSet v (createMeasureAccumulatorSet measures) ls
      some (jsUpdate v (ingestRow measures row) ls)

theorem jsGet_processRowLevel_miss {k : String} (measures : List CubeMeasure)
    (row : FactRow) (dName level : String) (ws : WorkingStore)
    (h : storeKey dName level ≠ k) :
    jsGet k (processRowLevel measures row dName level ws) = jsGet k ws := by
  unfold processRowLevel
  cases factDimValue row dName level with
  | none => rfl
  | some v =>
      dsimp only
      exact jsGet_jsSet_ne _ _ (fun he => h he.symm)

theorem jsGet_processRowLevel_hit (measures : List CubeMeasure)
    (row : FactRow) (dName level : String) (ws : WorkingStore) :
    jsGet (storeKey dName level) (processRowLevel measures row dName level ws) =
      cellStep measures dName level row (jsGet (storeKey dName level) ws) := by
  unfold processRowLevel cellStep
  cases factDimValue row dName level with
  | none => rfl
  | some v =>
      dsimp only
      rw [jsGet_jsSet_self]

theorem jsGet_foldPairs_miss {k : String} (measures : List CubeMeasure) (row : FactRow)
    (P : List (String × String)) (hmiss : ∀ pr ∈ P, storeKey pr.1 pr.2 ≠ k) :
    ∀ ws, jsGet k
      (P.foldl (fun ws pr => processRowLevel measures row pr.1 pr.2 ws) ws) =
      jsGet k ws := by
  induction P with
  | nil => intro ws; rfl
  | cons pr P2 ih =>
      intro ws
      rw [List.foldl_cons, ih (fun q hq => hmiss q (List.mem_cons_of_mem pr hq)),
        jsGet_processRowLevel_miss _ _ _ _ _ (hmiss pr (List.mem_cons_self pr P2))]

theorem jsGet_foldPairs (measures : List CubeMeasure) (row : FactRow)
    (dn lv : String) (P : List (String × String))
    (hN : (P.map fun pr => storeKey pr.1 pr.2).Nodup)
    (hmem : (dn, lv) ∈ P) :
    ∀ ws, jsGet (storeKey dn lv)
      (P.foldl (fun ws pr => processRowLevel measures row pr.1 pr.2 ws) ws) =
      cellStep measures dn lv row (jsGet (storeKey dn lv) ws) := by
  induction P with
  | nil => cases hmem
  | cons pr P2 ih =>
      intro ws
      rw [List.map_cons, List.nodup_cons] at hN
      by_cases hk : storeKey pr.1 pr.2 = storeKey dn lv
      · have hpr : pr = (dn, lv) := by
          cases List.mem_cons.mp hmem with
          | inl h => exact h.symm
          | inr h =>
              exfalso
              exact hN.1 (hk ▸ List.mem_map.mpr ⟨(dn, lv), h, rfl⟩)
        subst hpr
        rw [List.foldl_cons,
          jsGet_foldPairs_miss measures row P2
            (fun q hq hqe => hN.1 (List.mem_map.mpr ⟨q, hq, hqe⟩)),
          jsGet_processRowLevel_hit]
      · have hmem2 : (dn, lv) ∈ P2 := by
          cases List.mem_cons.mp hmem with
          | inl h => exact absurd (show storeKey pr.1 pr.2 = storeKey dn lv by rw [← h]) hk
          | inr h => exact h
        rw [List.foldl_cons, ih hN.2 hmem2,
          jsGet_processRowLevel_miss _ _ _ _ _ hk]


theorem jsGet_processRow (defn : CubeDefinition)
    (hkeys : (allStoreKeys defn).Nodup)
    {d : CubeDimension} (hd : d ∈ defn.dimensions) {l : String} (hl : l ∈ d.hierarchy)
    (ws : WorkingStore) (row : FactRow) :
    jsGet (storeKey d.name l) (processRow defn ws row) =
      cellStep defn.measures d.name l row (jsGet (storeKey d.name l) ws) := by
  rw [processRow_eq_foldPairs]
  refine jsGet_foldPairs defn.measures row d.name l (levelPairs defn) ?_ ?_ ws
  · rw [← allStoreKeys_eq_map]
    exact hkeys
  · unfold levelPairs
    exact List.mem_flatMap.mpr ⟨d, hd, List.mem_map.mpr ⟨l, hl, rfl⟩⟩

theorem jsGet_materializeWorking (defn : CubeDefinition)
    (hkeys : (allStoreKeys defn).Nodup)
    {d : CubeDimension} (hd : d ∈ defn.dimensions) {l : String} (hl : l ∈ d.hierarchy) :
    jsGet (storeKey d.name l) (materializeWorking defn) =
      defn.rows.foldl (fun c row => cellStep defn.measures d.name l row c) none := by
  unfold materializeWorking
  have hgen : ∀ (rows : List FactRow) (ws : WorkingStore),
      jsGet (storeKey d.name l) (rows.foldl (processRow defn) ws) =
        rows.foldl (fun c row => cellStep defn.measures d.name l row c)
          (jsGet (storeKey d.name l) ws) := by
    intro rows
    induction rows with
    | nil => intro ws; rfl
    | cons row rest ih =>
        intro ws
        rw [List.foldl_cons, List.foldl_cons, ih,
          jsGet_processRow defn hkeys hd hl ws row]
  exact hgen defn.rows []

theorem jsGet_cellFold (measures : List CubeMeasure) (dn lv : String) (v : DimValue) :
    ∀ (rows : List FactRow) (c : Option (List (DimValue × AccRecord))),
      jsGet v ((rows.foldl (fun c row => cellStep measures dn lv row c) c).getD []) =
        rows.foldl
          (fun acc row =>
            if factDimValue row dn lv = some v then
              some (ingestRow measures row
                (acc.getD (createMeasureAccumulatorSet measures)))
            else acc)
          (jsGet v (c.getD [])) := by
  intro rows
  induction rows with
  | nil => intro c; rfl
  | cons row rest ih =>
      intro c
      rw [List.foldl_cons, List.foldl_cons, ih]
      congr 1
      unfold cellStep
      cases hfd : factDimValue row dn lv with
      | none =>
          rw [if_neg (fun he => Option.noConfusion he)]
      | some w =>
          dsimp only
          by_cases hw : w = v
          · subst hw
            rw [if_pos rfl, Option.getD_some, jsGet_jsUpdate_self]
            by_cases hs : (jsGet w (c.getD [])).isSome
            · rw [if_pos hs]
              rcases Option.isSome_iff_exists.mp hs with ⟨st, hst⟩
              rw [hst]
              rfl
            · rw [if_neg hs, jsGet_jsSet_self]
              rw [Option.not_isSome_iff_eq_none] at hs
              rw [hs]
              rfl
          · rw [if_neg (fun he => hw (Option.some.inj he)),
              Option.getD_some, jsGet_jsUpdate_ne _ _ (fun he => hw he.symm)]
            by_cases hs : (jsGet w (c.getD [])).isSome
            · rw [if_pos hs]
            · rw [if_neg hs, jsGet_jsSet_ne _ _ (fun he => hw he.symm)]


theorem cellFold_filter (measures : List CubeMeasure) (dn lv : String) (v : DimValue) :
    ∀ (rows : List FactRow) (acc : Option AccRecord),
      rows.foldl
        (fun acc row =>
          if factDimValue row dn lv = some v then
            some (ingestRow measures row
              (acc.getD (createMeasureAccumulatorSet measures)))
          else acc) acc =
      (rows.filter fun row => decide (factDimValue row dn lv = some v)).foldl
        (fun acc row =>
          some (ingestRow measures row
            (acc.getD (createMeasureAccumulatorSet measures)))) acc := by
  intro rows
  induction rows with
  | nil => intro acc; rfl
  | cons row rest ih =>
      intro acc
      by_cases h : factDimValue row dn lv = some v
      · rw [List.foldl_cons, if_pos h, List.filter_cons,
          if_pos (by exact decide_eq_true h), List.foldl_cons, ih]
      · rw [List.foldl_cons, if_neg h, List.filter_cons,
          if_neg (by simp [h]), ih]

theorem optFoldIngest_some (measures : List CubeMeasure) :
    ∀ (fl : List FactRow) (rec : AccRecord),
      fl.foldl
        (fun acc row =>
          some (ingestRow measures row
            (acc.getD (createMeasureAccumulatorSet measures)))) (some rec) =
      some (fl.foldl (fun rec row => ingestRow measures row rec) rec) := by
  intro fl
  induction fl with
  | nil => intro rec; rfl
  | cons row rest ih =>
      intro rec
      rw [List.foldl_cons, List.foldl_cons, Option.getD_some, ih]

theorem optFoldIngest_none (measures : List CubeMeasure) (fl : List FactRow)
    (hne : fl ≠ []) :
    fl.foldl
      (fun acc row =>
        some (ingestRow measures row
          (acc.getD (createMeasureAccumulatorSet measures)))) none =
    some (fl.foldl (fun rec row => ingestRow measures row rec)
      (createMeasureAccumulatorSet measures)) := by
  cases fl with
  | nil => exact absurd rfl hne
  | cons row rest =>
      rw [List.foldl_cons, List.foldl_cons, Option.getD_none, optFoldIngest_some]

theorem jsGet_foldSet_miss {γ : Type} (g : CubeMeasure → γ) (nm : String)
    (ms : List CubeMeasure) (hmiss : ∀ m ∈ ms, m.name ≠ nm) :
    ∀ acc : List (String × γ),
      jsGet nm (ms.foldl (fun acc m => jsSet m.name (g m) acc) acc) = jsGet nm acc := by
  induction ms with
  | nil => intro acc; rfl
  | cons m rest ih =>
      intro acc
      rw [List.foldl_cons, ih (fun q hq => hmiss q (List.mem_cons_of_mem m hq)),
        jsGet_jsSet_ne _ _ (fun he => hmiss m (List.mem_cons_self m rest) he.symm)]

theorem jsGet_foldSet {γ : Type} (g : CubeMeasure → γ) (M : CubeMeasure)
    (ms : List CubeMeasure) (hnd : (ms.map CubeMeasure.name).Nodup) (hM : M ∈ ms) :
    ∀ acc : List (String × γ),
      jsGet M.name (ms.foldl (fun acc m => jsSet m.name (g m) acc) acc) = some (g M) := by
  induction ms with
  | nil => cases hM
  | cons m rest ih =>
      intro acc
      rw [List.map_cons, List.nodup_cons] at hnd
      cases List.mem_cons.mp hM with
      | inl h =>
          subst h
          rw [List.foldl_cons,
            jsGet_foldSet_miss g M.name rest
              (fun q hq hqe => hnd.1 (hqe ▸ List.mem_map.mpr ⟨q, hq, rfl⟩)),
            jsGet_jsSet_self]
      | inr h =>
          rw [List.foldl_cons, ih hnd.2 h]

theorem jsGet_createMeasureAccumulatorSet (M : CubeMeasure)
    (ms : List CubeMeasure) (hnd : (ms.map CubeMeasure.name).Nodup) (hM : M ∈ ms) :
    jsGet M.name (createMeasureAccumulatorSet ms) =
      some (createAccumulator M.aggregation) :=
  jsGet_foldSet (fun m => createAccumulator m.aggregation) M ms hnd hM []

theorem jsGet_finalizeRecord (M : CubeMeasure) (rec : AccRecord)
    (ms : List CubeMeasure) (hnd : (ms.map CubeMeasure.name).Nodup) (hM : M ∈ ms) :
    jsGet M.name (finalizeRecord ms rec) =
      some (accFinalize ((jsGet M.name rec).getD (createAccumulator M.aggregation))) :=
  jsGet_foldSet
    (fun m => accFinalize ((jsGet m.name rec).getD (createAccumulator m.aggregation)))
    M ms hnd hM []

theorem jsGet_foldUpdate_miss (row : FactRow) (nm : String)
    (ms : List CubeMeasure) (hmiss : ∀ m ∈ ms, m.name ≠ nm) :
    ∀ rec : AccRecord,
      jsGet nm
        (ms.foldl
          (fun r m => jsUpdate m.name (fun st => accAdd st (factMetric row m.valueField)) r)
          rec) = jsGet nm rec := by
  induction ms with
  | nil => intro rec; rfl
  | cons m rest ih =>
      intro rec
      rw [List.foldl_cons, ih (fun q hq => hmiss q (List.mem_cons_of_mem m hq)),
        jsGet_jsUpdate_ne _ _ (fun he => hmiss m (List.mem_cons_self m rest) he.symm)]

theorem jsGet_ingestRow (M : CubeMeasure) (row : FactRow)
    (ms : List CubeMeasure) (hnd : (ms.map CubeMeasure.name).Nodup) (hM : M ∈ ms)
    (rec : AccRecord) :
    jsGet M.name (ingestRow ms row rec) =
      (jsGet M.name rec).map (fun st => accAdd st (factMetric row M.valueField)) := by
  unfold ingestRow
  induction ms generalizing rec with
  | nil => cases hM
  | cons m rest ih =>
      rw [List.map_cons, List.nodup_cons] at hnd
      cases List.mem_cons.mp hM with
      | inl h =>
          subst h
          rw [List.foldl_cons,
            jsGet_foldUpdate_miss row M.name rest
              (fun q hq hqe => hnd.1 (hqe ▸ List.mem_map.mpr ⟨q, hq, rfl⟩)),
            jsGet_jsUpdate_self]
      | inr h =>
          rw [List.foldl_cons, ih hnd.2 h,
            jsGet_jsUpdate_ne _ _
              (fun he => hnd.1 (by rw [← he]; exact List.mem_map.mpr ⟨M, h, rfl⟩))]

theorem jsGet_foldIngest (M : CubeMeasure)
    (ms : List CubeMeasure) (hnd : (ms.map CubeMeasure.name).Nodup) (hM : M ∈ ms) :
    ∀ (R : List FactRow) (rec : AccRecord) (st : AccState),
      jsGet M.name rec = some st →
      jsGet M.name (R.foldl (fun rec row => ingestRow ms row rec) rec) =
        some ((R.map fun row => factMetric row M.valueField).foldl accAdd st) := by
  intro R
  induction R with
  | nil =>
      intro rec st hst
      rw [List.foldl_nil, List.map_nil, List.foldl_nil]
      exact hst
  | cons row rest ih =>
      intro rec st hst
      rw [List.foldl_cons, List.map_cons, List.foldl_cons]
      refine ih _ _ ?_
      rw [jsGet_ingestRow M row ms hnd hM, hst]
      rfl


/-- **C2** (amended): when no two (dimension, level) pairs collide on their
dot-joined store key and measure names are distinct, the finalized
pre-aggregate value at (d.l, v) for M is the measure accumulator run over
exactly the facts carrying v at (d, l), in fact order. -/
theorem C2_preaggregate_correctness (defn : CubeDefinition)
    (hkeys : (allStoreKeys defn).Nodup)
    (hmeas : (defn.measures.map CubeMeasure.name).Nodup)
    {d : CubeDimension} (hd : d ∈ defn.dimensions)
    {l : String} (hl : l ∈ d.hierarchy)
    {M : CubeMeasure} (hM : M ∈ defn.measures)
    (v : DimValue)
    (hv : ∃ row ∈ defn.rows, factDimValue row d.name l = some v) :
    ((jsGet (storeKey d.name l) (materializeAggregates defn)).bind fun ls =>
      (jsGet v ls).bind fun rec => jsGet M.name rec) =
      some (runAccumulator M.aggregation
        ((defn.rows.filter fun row =>
            decide (factDimValue row d.name l = some v)).map
          fun row => factMetric row M.valueField)) := by
  have hR : (defn.rows.filter fun row =>
      decide (factDimValue row d.name l = some v)) ≠ [] := by
    rcases hv with ⟨row, hrow, hfd⟩
    exact List.ne_nil_of_mem (List.mem_filter.mpr ⟨hrow, decide_eq_true hfd⟩)
  have hw : jsGet (storeKey d.name l) (materializeWorking defn) =
      defn.rows.foldl (fun c row => cellStep defn.measures d.name l row c) none :=
    jsGet_materializeWorking defn hkeys hd hl
  have hcell : jsGet v ((defn.rows.foldl
      (fun c row => cellStep defn.measures d.name l row c) none).getD []) =
      some ((defn.rows.filter fun row =>
          decide (factDimValue row d.name l = some v)).foldl
        (fun rec row => ingestRow defn.measures row rec)
        (createMeasureAccumulatorSet defn.measures)) := by
    rw [jsGet_cellFold, cellFold_filter]
    exact optFoldIngest_none defn.measures _ hR
  have hst : jsGet M.name ((defn.rows.filter fun row =>
      decide (factDimValue row d.name l = some v)).foldl
        (fun rec row => ingestRow defn.measures row rec)
        (createMeasureAccumulatorSet defn.measures)) =
      some (((defn.rows.filter fun row =>
          decide (factDimValue row d.name l = some v)).map
        fun row => factMetric row M.valueField).foldl accAdd
        (createAccumulator M.aggregation)) :=
    jsGet_foldIngest M defn.measures hmeas hM _ _ _
      (jsGet_createMeasureAccumulatorSet M defn.measures hmeas hM)
  have hagg : jsGet (storeKey d.name l) (materializeAggregates defn) =
      (jsGet (storeKey d.name l) (materializeWorking defn)).map
        (fun ls => ls.map fun cell => (cell.1, finalizeRecord defn.measures cell.2)) := by
    unfold materializeAggregates
    exact jsGet_map_snd _ _ _
  rw [hagg, hw]
  cases hfold : defn.rows.foldl
      (fun c row => cellStep defn.measures d.name l row c) none with
  | none =>
      exfalso
      rw [hfold] at hcell
      cases hcell
  | some ls0 =>
      rw [hfold, Option.getD_some] at hcell
      rw [Option.map_some', Option.some_bind, jsGet_map_snd, hcell,
        Option.map_some', Option.some_bind,
        jsGet_finalizeRecord M _ defn.measures hmeas hM, hst, Option.getD_some]
      rfl


/-- A collision-free single-dimension cube for exercising the amended C2
statement. -/
def c2wDef : CubeDefinition :=
  { name := "s2w", dimensions := [{ name := "g", hierarchy := ["r"] }],
    measures := [{ name := "m", valueField := "f", aggregation := .COUNT }],
    rows := [{ dimensions := [("g", [("r", .str "NA")])], metrics := [("f", .str "x")] },
             { dimensions := [("g", [("r", .str "EU")])], metrics := [("f", .str "y")] }] }

/-- Witness for the amended C2 theorem at a concrete cube. -/
theorem C2_preaggregate_correctness_witness :
    ((jsGet (storeKey "g" "r") (materializeAggregates c2wDef)).bind fun ls =>
      (jsGet (DimValue.str "NA") ls).bind fun rec => jsGet "m" rec) =
      some (runAccumulator AggregationType.COUNT
        ((c2wDef.rows.filter fun row =>
            decide (factDimValue row "g" "r" = some (DimValue.str "NA"))).map
          fun row => factMetric row "f")) :=
  @C2_preaggregate_correctness c2wDef (by decide) (by decide)
    { name := "g", hierarchy := ["r"] } (by decide) "r" (by decide)
    { name := "m", valueField := "f", aggregation := .COUNT } (by decide)
    (DimValue.str "NA")
    ⟨{ dimensions := [("g", [("r", .str "NA")])], metrics := [("f", .str "x")] },
      by decide, rfl⟩


/-! ### Grouping combinators shared by the two execution paths (for C1) -/

/-- The distinct values observed at (dimension, level) over a fact list,
in first-appearance order. -/
def groupVals (dn lv : String) (rows : List FactRow) : List DimValue :=
  rows.foldl
    (fun vs row =>
      match factDimValue row dn lv with
      | none => vs
      | some v => if v ∈ vs then vs else vs ++ [v]) []

/-- The accumulator record obtained by ingesting exactly the facts carrying
`v` at (dimension, level), in fact order. -/
def groupRec (ms : List CubeMeasure) (dn lv : String) (v : DimValue)
    (rows : List FactRow) : AccRecord :=
  (rows.filter fun row => decide (factDimValue row dn lv = some v)).foldl
    (fun rec row => ingestRow ms row rec) (createMeasureAccumulatorSet ms)

theorem groupVals_append (dn lv : String) (pref : List FactRow) (row : FactRow) :
    groupVals dn lv (pref ++ [row]) =
      match factDimValue row dn lv with
      | none => groupVals dn lv pref
      | some v =>
          if v ∈ groupVals dn lv pref then groupVals dn lv pref
          else groupVals dn lv pref ++ [v] := by
  unfold groupVals
  rw [List.foldl_append, List.foldl_cons, List.foldl_nil]

theorem groupRec_append (ms : List CubeMeasure) (dn lv : String) (v : DimValue)
    (pref : List FactRow) (row : FactRow) :
    groupRec ms dn lv v (pref ++ [row]) =
      if factDimValue row dn lv = some v then
        ingestRow ms row (groupRec ms dn lv v pref)
      else groupRec ms dn lv v pref := by
  unfold groupRec
  rw [List.filter_append]
  by_cases h : factDimValue row dn lv = some v
  · rw [if_pos h, show List.filter (fun row => decide (factDimValue row dn lv = some v))
      [row] = [row] by simp [List.filter, h], List.foldl_append, List.foldl_cons,
      List.foldl_nil]
  · rw [if_neg h, show List.filter (fun row => decide (factDimValue row dn lv = some v))
      [row] = [] by simp [List.filter, h], List.append_nil]

theorem foldGroup_mem {dn lv : String} {v : DimValue} :
    ∀ (rows : List FactRow) (acc : List DimValue),
      v ∈ rows.foldl
        (fun vs row =>
          match factDimValue row dn lv with
          | none => vs
          | some w => if w ∈ vs then vs else vs ++ [w]) acc →
      v ∈ acc ∨ ∃ r ∈ rows, factDimValue r dn lv = some v := by
  intro rows
  induction rows with
  | nil => intro acc hv; exact Or.inl hv
  | cons row rest ih =>
      intro acc hv
      rw [List.foldl_cons] at hv
      cases ih _ hv with
      | inr h =>
          rcases h with ⟨r, hr, hfr⟩
          exact Or.inr ⟨r, List.mem_cons_of_mem row hr, hfr⟩
      | inl h =>
          cases hfd : factDimValue row dn lv with
          | none =>
              rw [hfd] at h
              exact Or.inl h
          | some u =>
              rw [hfd] at h
              dsimp only at h
              by_cases hu : u ∈ acc
              · rw [if_pos hu] at h
                exact Or.inl h
              · rw [if_neg hu] at h
                cases List.mem_append.mp h with
                | inl h2 => exact Or.inl h2
                | inr h2 =>
                    exact Or.inr ⟨row, List.mem_cons_self row rest,
                      by rw [hfd, List.mem_singleton.mp h2]⟩

theorem mem_groupVals {dn lv : String} {v : DimValue} {rows : List FactRow}
    (hv : v ∈ groupVals dn lv rows) :
    ∃ r ∈ rows, factDimValue r dn lv = some v := by
  cases foldGroup_mem rows [] hv with
  | inl h => cases h
  | inr h => exact h

theorem foldGroup_nodup {dn lv : String} :
    ∀ (rows : List FactRow) (acc : List DimValue), acc.Nodup →
      (rows.foldl
        (fun vs row =>
          match factDimValue row dn lv with
          | none => vs
          | some w => if w ∈ vs then vs else vs ++ [w]) acc).Nodup := by
  intro rows
  induction rows with
  | nil => intro acc h; exact h
  | cons row rest ih =>
      intro acc h
      rw [List.foldl_cons]
      refine ih _ ?_
      cases hfd : factDimValue row dn lv with
      | none => exact h
      | some u =>
          dsimp only
          by_cases hu : u ∈ acc
          · rw [if_pos hu]; exact h
          · rw [if_neg hu]
            exact List.nodup_append.mpr ⟨h, List.nodup_singleton u,
              fun a ha hb => hu (List.mem_singleton.mp hb ▸ ha)⟩

theorem groupVals_nodup (dn lv : String) (rows : List FactRow) :
    (groupVals dn lv rows).Nodup :=
  foldGroup_nodup rows [] List.nodup_nil


/-! ### Keyed-list lemmas (for C1) -/

theorem jsGet_keyed_map [DecidableEq κ] [DecidableEq α] (key : α → κ) (f : α → β)
    (v : α) :
    ∀ (l : List α), (∀ w ∈ l, key w = key v → w = v) →
      jsGet (key v) (l.map fun a => (key a, f a)) =
        if v ∈ l then some (f v) else none := by
  intro l
  induction l with
  | nil => intro _; rfl
  | cons a rest ih =>
      intro hkinj
      rw [List.map_cons, jsGet]
      by_cases hk : key v = (key a, f a).1
      · have hav : a = v := hkinj a (List.mem_cons_self a rest) hk.symm
        subst hav
        rw [if_pos hk, if_pos (List.mem_cons_self a rest)]
      · have hne : v ≠ a := fun he => hk (by rw [he])
        rw [if_neg hk, ih (fun w hw => hkinj w (List.mem_cons_of_mem a hw))]
        by_cases hv : v ∈ rest
        · rw [if_pos hv, if_pos (List.mem_cons_of_mem a hv)]
        · rw [if_neg hv, if_neg (fun hm => by
            cases List.mem_cons.mp hm with
            | inl h => exact hne h
            | inr h => exact hv h)]

theorem jsSet_keyed_map_mem [DecidableEq κ] [DecidableEq α] (key : α → κ)
    (f : α → β) (v : α) (x : β) :
    ∀ (l : List α), l.Nodup → (∀ w ∈ l, key w = key v → w = v) → v ∈ l →
      jsSet (key v) x (l.map fun a => (key a, f a)) =
        l.map fun a => (key a, if a = v then x else f a) := by
  intro l
  induction l with
  | nil => intro _ _ hv; cases hv
  | cons a rest ih =>
      intro hnd hkinj hv
      rw [List.map_cons, List.map_cons, jsSet]
      rw [List.nodup_cons] at hnd
      by_cases hk : key v = (key a, f a).1
      · have hav : a = v := hkinj a (List.mem_cons_self a rest) hk.symm
        subst hav
        rw [if_pos hk, if_pos rfl]
        congr 1
        refine (List.map_congr_left ?_).symm
        intro w hw
        rw [if_neg (fun he => hnd.1 (by rw [← he]; exact hw))]
      · have hne : v ≠ a := fun he => hk (by rw [he])
        have hv2 : v ∈ rest := by
          cases List.mem_cons.mp hv with
          | inl h => exact absurd h hne
          | inr h => exact h
        rw [if_neg hk, if_neg (fun he => hne he.symm),
          ih hnd.2 (fun w hw => hkinj w (List.mem_cons_of_mem a hw)) hv2]

theorem jsSet_keyed_map_absent [DecidableEq κ] [DecidableEq α] (key : α → κ)
    (f : α → β) (v : α) (x : β) :
    ∀ (l : List α), (∀ w ∈ l, key w = key v → w = v) → v ∉ l →
      jsSet (key v) x (l.map fun a => (key a, f a)) =
        (l.map fun a => (key a, f a)) ++ [(key v, x)] := by
  intro l
  induction l with
  | nil => intro _ _; rfl
  | cons a rest ih =>
      intro hkinj hv
      rw [List.map_cons, jsSet]
      have hne : v ≠ a := fun he => hv (he ▸ List.mem_cons_self a rest)
      rw [if_neg (fun hk => hne (hkinj a (List.mem_cons_self a rest) hk.symm).symm),
        ih (fun w hw => hkinj w (List.mem_cons_of_mem a hw))
          (fun h2 => hv (List.mem_cons_of_mem a h2)), List.cons_append]

theorem jsUpdate_keyed_map_mem [DecidableEq κ] [DecidableEq α] (key : α → κ)
    (f : α → β) (g : β → β) (v : α) :
    ∀ (l : List α), l.Nodup → (∀ w ∈ l, key w = key v → w = v) → v ∈ l →
      jsUpdate (key v) g (l.map fun a => (key a, f a)) =
        l.map fun a => (key a, if a = v then g (f a) else f a) := by
  intro l
  induction l with
  | nil => intro _ _ hv; cases hv
  | cons a rest ih =>
      intro hnd hkinj hv
      rw [List.map_cons, List.map_cons, jsUpdate]
      rw [List.nodup_cons] at hnd
      by_cases hk : key v = (key a, f a).1
      · have hav : a = v := hkinj a (List.mem_cons_self a rest) hk.symm
        subst hav
        rw [if_pos hk, if_pos rfl]
        congr 1
        refine (List.map_congr_left ?_).symm
        intro w hw
        rw [if_neg (fun he => hnd.1 (by rw [← he]; exact hw))]
      · have hne : v ≠ a := fun he => hk (by rw [he])
        have hv2 : v ∈ rest := by
          cases List.mem_cons.mp hv with
          | inl h => exact absurd h hne
          | inr h => exact h
        rw [if_neg hk, if_neg (fun he => hne he.symm),
          ih hnd.2 (fun w hw => hkinj w (List.mem_cons_of_mem a hw)) hv2]

theorem contains_keyed_map [DecidableEq κ] [BEq κ] [LawfulBEq κ] [DecidableEq α]
    (key : α → κ) (v : α) :
    ∀ (l : List α), (∀ w ∈ l, key w = key v → w = v) →
      ((l.map key).contains (key v)) = decide (v ∈ l) := by
  intro l
  induction l with
  | nil => intro _; rfl
  | cons a rest ih =>
      intro hkinj
      rw [List.map_cons, List.contains_cons]
      by_cases hk : key v = key a
      · have hav : a = v := hkinj a (List.mem_cons_self a rest) hk.symm
        subst hav
        simp
      · have hne : v ≠ a := fun he => hk (by rw [he])
        have h1 : (key v == key a) = false := by
          rw [beq_eq_false_iff_ne]
          exact hk
        rw [h1, Bool.false_or, ih (fun w hw => hkinj w (List.mem_cons_of_mem a hw))]
        by_cases hv : v ∈ rest
        · rw [decide_eq_true hv, decide_eq_true (List.mem_cons_of_mem a hv)]
        · rw [decide_eq_false hv, decide_eq_false (fun hm => by
            cases List.mem_cons.mp hm with
            | inl h => exact hne h
            | inr h => exact hv h)]


theorem sortedInsert_map (le : β → β → Bool) (f : α → β) (x : α) :
    ∀ (l : List α),
      sortedInsert le (f x) (l.map f) =
        (sortedInsert (fun a b => le (f a) (f b)) x l).map f := by
  intro l
  induction l with
  | nil => rfl
  | cons a rest ih =>
      rw [List.map_cons, sortedInsert, sortedInsert]
      by_cases h : le (f x) (f a) = true
      · rw [if_pos h, if_pos h, List.map_cons, List.map_cons]
      · rw [if_neg h, if_neg h, List.map_cons, ih]

theorem stableSort_map (le : β → β → Bool) (f : α → β) (l : List α) :
    stableSort le (l.map f) =
      (stableSort (fun a b => le (f a) (f b)) l).map f := by
  unfold stableSort
  induction l with
  | nil => rfl
  | cons a rest ih =>
      rw [List.map_cons, List.foldr_cons, List.foldr_cons, ih, sortedInsert_map]

theorem mem_mapOfList [DecidableEq α] {k : α} {b : β} :
    ∀ {l : List (α × β)}, (k, b) ∈ mapOfList l → (k, b) ∈ l := by
  have hset : ∀ (m : List (α × β)) (k2 : α) (b2 : β) (kv : α × β),
      (k2, b2) ∈ jsSet kv.1 kv.2 m → (k2, b2) ∈ m ∨ (k2, b2) = kv := by
    intro m
    induction m with
    | nil =>
        intro k2 b2 kv h
        rw [jsSet] at h
        exact Or.inr (List.mem_singleton.mp h)
    | cons e rest ih =>
        intro k2 b2 kv h
        rw [jsSet] at h
        by_cases hk : kv.1 = e.1
        · rw [if_pos hk] at h
          cases List.mem_cons.mp h with
          | inl h2 => exact Or.inr h2
          | inr h2 => exact Or.inl (List.mem_cons_of_mem e h2)
        · rw [if_neg hk] at h
          cases List.mem_cons.mp h with
          | inl h2 => exact Or.inl (h2 ▸ List.mem_cons_self e rest)
          | inr h2 =>
              cases ih k2 b2 kv h2 with
              | inl h3 => exact Or.inl (List.mem_cons_of_mem e h3)
              | inr h3 => exact Or.inr h3
  have hgen : ∀ (l : List (α × β)) (acc : List (α × β)),
      (k, b) ∈ l.foldl (fun m kv => jsSet kv.1 kv.2 m) acc →
      (k, b) ∈ acc ∨ (k, b) ∈ l := by
    intro l
    induction l with
    | nil => intro acc h; exact Or.inl h
    | cons kv rest ih =>
        intro acc h
        rw [List.foldl_cons] at h
        cases ih _ h with
        | inl h2 =>
            cases hset acc k b kv h2 with
            | inl h3 => exact Or.inl h3
            | inr h3 => exact Or.inr (h3 ▸ List.mem_cons_self kv rest)
        | inr h2 => exact Or.inr (List.mem_cons_of_mem kv h2)
  intro l h
  cases hgen l [] h with
  | inl h2 => cases h2
  | inr h2 => exact h2

theorem jsGet_measureMap {defn : CubeDefinition} {mn : String} {M : CubeMeasure}
    (h : jsGet mn (mkCubeInstance defn).measureMap = some M) :
    M ∈ defn.measures ∧ M.name = mn := by
  have hmem : (mn, M) ∈ mapOfList (defn.measures.map fun m => (m.name, m)) :=
    jsGet_mem h
  have hmem2 := mem_mapOfList hmem
  rcases List.mem_map.mp hmem2 with ⟨m, hm, hpair⟩
  have h1 : m.name = mn := congrArg Prod.fst hpair
  have h2 : m = M := congrArg Prod.snd hpair
  exact ⟨h2 ▸ hm, h2 ▸ h1⟩

theorem string_append_right_cancel {p s1 s2 : String} (h : p ++ s1 = p ++ s2) :
    s1 = s2 := by
  apply String.ext
  have hd : p.data ++ s1.data = p.data ++ s2.data := by
    have := congrArg String.data h
    simpa [String.data_append] using this
  exact List.append_cancel_left hd


/-- The row key emitted by `buildAxisKey` for a single-coordinate axis. -/
def rawKey (dim lv : String) (v : DimValue) : String :=
  dim ++ "." ++ lv ++ ":" ++ dimValueToString v

/-- The row header emitted for a single-coordinate axis. -/
def rawHeader (dim lv : String) (v : DimValue) : PivotHeader :=
  toHeader (rawKey dim lv v) [{ dimension := dim, level := lv, value := v }]

/-- The all-spanning column header of a column-free query. -/
def allColumnHeader : PivotHeader := toHeader "__all__" []

/-- The scan state of `runRawScan` after processing a prefix of the facts,
for a single-axis filter-free query. -/
def rawState (ms : List CubeMeasure) (dim lv : String) (pref : List FactRow) :
    ScanState :=
  { rowOrder := (groupVals dim lv pref).map (rawHeader dim lv)
    columnOrder := if pref.isEmpty then [] else [allColumnHeader]
    table := (groupVals dim lv pref).map fun w =>
      (rawKey dim lv w, [("__all__", groupRec ms dim lv w pref)]) }

theorem rawKey_inj {dim lv : String} {v w : DimValue}
    (hs : dimValueToString w = dimValueToString v)
    : rawKey dim lv w = rawKey dim lv v := by
  unfold rawKey
  rw [hs]

theorem rawKey_cancel {dim lv : String} {v w : DimValue}
    (h : rawKey dim lv w = rawKey dim lv v) :
    dimValueToString w = dimValueToString v :=
  string_append_right_cancel h

theorem groupVals_complete {dn lv : String} {v : DimValue} :
    ∀ {rows : List FactRow} {r : FactRow}, r ∈ rows →
      factDimValue r dn lv = some v → v ∈ groupVals dn lv rows := by
  have hmono : ∀ (rows : List FactRow) (acc : List DimValue), v ∈ acc →
      v ∈ rows.foldl
        (fun vs row =>
          match factDimValue row dn lv with
          | none => vs
          | some w => if w ∈ vs then vs else vs ++ [w]) acc := by
    intro rows
    induction rows with
    | nil => intro acc h; exact h
    | cons row rest ih =>
        intro acc h
        rw [List.foldl_cons]
        refine ih _ ?_
        cases hfd : factDimValue row dn lv with
        | none => exact h
        | some u =>
            dsimp only
            by_cases hu : u ∈ acc
            · rw [if_pos hu]; exact h
            · rw [if_neg hu]; exact List.mem_append_left _ h
  have hgen : ∀ (rows : List FactRow) (acc : List DimValue) (r : FactRow),
      r ∈ rows → factDimValue r dn lv = some v →
      v ∈ rows.foldl
        (fun vs row =>
          match factDimValue row dn lv with
          | none => vs
          | some w => if w ∈ vs then vs else vs ++ [w]) acc := by
    intro rows
    induction rows with
    | nil => intro acc r hr; cases hr
    | cons row rest ih =>
        intro acc r hr hfd
        rw [List.foldl_cons]
        cases List.mem_cons.mp hr with
        | inr h => exact ih _ r h hfd
        | inl h =>
            subst h
            rw [hfd]
            dsimp only
            refine hmono rest _ ?_
            by_cases hv2 : v ∈ acc
            · rw [if_pos hv2]; exact hv2
            · rw [if_neg hv2]
              exact List.mem_append_right _ (List.mem_singleton.mpr rfl)
  intro rows r hr hfd
  exact hgen rows [] r hr hfd

theorem groupRec_of_not_mem {ms : List CubeMeasure} {dn lv : String} {v : DimValue}
    {rows : List FactRow} (hv : v ∉ groupVals dn lv rows) :
    groupRec ms dn lv v rows = createMeasureAccumulatorSet ms := by
  unfold groupRec
  rw [List.filter_eq_nil.mpr, List.foldl_nil]
  intro r hr hp
  exact hv (groupVals_complete hr (of_decide_eq_true hp))


theorem scanRow_step (q : NormalizedQuery) (cube : CubeInstance)
    (ms : List CubeMeasure) (axis : AxisSpec) (lv : String)
    (hax : q.rows = [axis]) (hlv : axis.level = some lv) (hlvne : lv ≠ "")
    (hcols : q.columns = []) (hfilt : q.allFilters = []) (hdrill : q.drill = none)
    (pref : List FactRow) (row : FactRow) (v : DimValue)
    (hrow : factDimValue row axis.dimension lv = some v)
    (hobs : ∀ w ∈ groupVals axis.dimension lv pref,
      dimValueToString w = dimValueToString v → w = v) :
    scanRow q cube ms (rawState ms axis.dimension lv pref) row =
      .ok (rawState ms axis.dimension lv (pref ++ [row])) := by
  have hkinj : ∀ w ∈ groupVals axis.dimension lv pref,
      rawKey axis.dimension lv w = rawKey axis.dimension lv v → w = v :=
    fun w hw hk => hobs w hw (rawKey_cancel hk)
  have hmf : matchesFilters row q cube = true := by
    unfold matchesFilters
    rw [hfilt, hdrill]
    rfl
  have hbcoord : buildCoordinate row axis cube =
      .ok { dimension := axis.dimension, level := lv, value := v } := by
    unfold buildCoordinate
    rw [hlv]
    dsimp only [HOrElse.hOrElse, OrElse.orElse, Option.orElse]
    rw [if_neg hlvne, hrow]
    rfl
  have hbc1 : buildCoordinates row q.rows cube =
      .ok [{ dimension := axis.dimension, level := lv, value := v }] := by
    rw [hax]
    unfold buildCoordinates
    unfold mapExcept
    rw [hbcoord]
    rfl
  have hbc2 : buildCoordinates row q.columns cube = .ok [] := by
    rw [hcols]
    rfl
  unfold scanRow
  rw [hmf]
  rw [if_neg (show ¬((!true) = true) by decide)]
  rw [exceptPureBind, hbc1, exceptOkBind, hbc2, exceptOkBind]
  dsimp only [rawState]
  have hing : ∀ X : AccRecord,
      List.foldl (fun c m =>
        jsUpdate m.name (fun acc => accAdd acc (factMetric row m.valueField)) c) X ms =
      ingestRow ms row X := fun X => rfl
  have hcont : (((groupVals axis.dimension lv pref).map
      (rawHeader axis.dimension lv)).map PivotHeader.key).contains
        (buildAxisKey [{ dimension := axis.dimension, level := lv, value := v }]) =
      decide (v ∈ groupVals axis.dimension lv pref) := by
    rw [List.map_map]
    exact contains_keyed_map (fun w => rawKey axis.dimension lv w) v _ hkinj
  have htable : jsGet (buildAxisKey
      [{ dimension := axis.dimension, level := lv, value := v }])
      ((groupVals axis.dimension lv pref).map fun w =>
        (rawKey axis.dimension lv w, [("__all__", groupRec ms axis.dimension lv w pref)])) =
      if v ∈ groupVals axis.dimension lv pref then
        some [("__all__", groupRec ms axis.dimension lv v pref)] else none :=
    jsGet_keyed_map (fun w => rawKey axis.dimension lv w)
      (fun w => [("__all__", groupRec ms axis.dimension lv w pref)]) v _ hkinj
  rw [hcont, htable]
  have hgvapp := groupVals_append axis.dimension lv pref row
  rw [hrow] at hgvapp
  dsimp only at hgvapp
  by_cases hv : v ∈ groupVals axis.dimension lv pref
  · rw [if_pos hv] at hgvapp
    have hne : ¬pref.isEmpty = true := by
      rcases mem_groupVals hv with ⟨r, hr, _⟩
      cases pref with
      | nil => cases hr
      | cons a b => exact fun h2 => by cases h2
    rw [if_neg hne,
      if_neg (show ¬(pref ++ [row]).isEmpty = true by
        cases pref with
        | nil => exact fun h2 => by cases h2
        | cons a b => exact fun h2 => by cases h2)]
    rw [if_pos (show ((List.map PivotHeader.key [allColumnHeader]).contains
        (buildAxisKey ([] : List PivotCoordinate))) = true from rfl)]
    rw [if_pos (decide_eq_true hv)]
    rw [if_pos hv, hgvapp]
    rw [Option.getD_some]
    rw [show jsGet (buildAxisKey ([] : List PivotCoordinate))
        [("__all__", groupRec ms axis.dimension lv v pref)] =
        some (groupRec ms axis.dimension lv v pref) from rfl]
    rw [Option.getD_some, hing]
    rw [show jsSet (buildAxisKey ([] : List PivotCoordinate))
        (ingestRow ms row (groupRec ms axis.dimension lv v pref))
        [("__all__", groupRec ms axis.dimension lv v pref)] =
        [("__all__", ingestRow ms row (groupRec ms axis.dimension lv v pref))] from rfl]
    rw [show (buildAxisKey [{ dimension := axis.dimension, level := lv, value := v }]) =
      rawKey axis.dimension lv v from rfl]
    rw [jsSet_keyed_map_mem (fun w => rawKey axis.dimension lv w)
      (fun w => [("__all__", groupRec ms axis.dimension lv w pref)])
      v _ _ (groupVals_nodup axis.dimension lv pref) hkinj hv]
    refine congrArg Except.ok ?_
    congr 1
    refine (List.map_congr_left ?_).symm
    intro w hw
    rw [groupRec_append]
    by_cases hwv : w = v
    · subst hwv
      rw [if_pos hrow, if_pos rfl]
    · rw [if_neg (fun he => hwv (Option.some.inj (hrow.symm.trans he)).symm),
        if_neg hwv]
  · rw [if_neg hv] at hgvapp
    have hdf : decide (v ∈ groupVals axis.dimension lv pref) = false := decide_eq_false hv
    rw [if_neg (fun hc => Bool.false_ne_true (hdf.symm.trans hc))]
    rw [if_neg hv, hgvapp]
    rw [if_neg (show ¬(pref ++ [row]).isEmpty = true by
      cases pref with
      | nil => exact fun h2 => by cases h2
      | cons a b => exact fun h2 => by cases h2)]
    have hco : (if (List.map PivotHeader.key
        (if pref.isEmpty = true then [] else [allColumnHeader])).contains
          (buildAxisKey ([] : List PivotCoordinate)) = true then
        (if pref.isEmpty = true then [] else [allColumnHeader])
      else (if pref.isEmpty = true then [] else [allColumnHeader]) ++
        [toHeader (buildAxisKey ([] : List PivotCoordinate)) []]) = [allColumnHeader] := by
      by_cases hpe : pref.isEmpty = true
      · rw [if_pos hpe]
        rw [if_neg (show ¬((List.map PivotHeader.key
          ([] : List PivotHeader)).contains
            (buildAxisKey ([] : List PivotCoordinate)) = true) by decide)]
        rfl
      · rw [if_neg hpe]
        rw [if_pos (show ((List.map PivotHeader.key [allColumnHeader]).contains
          (buildAxisKey ([] : List PivotCoordinate))) = true from rfl)]
    rw [hco]
    rw [Option.getD_none]
    rw [show jsGet (buildAxisKey ([] : List PivotCoordinate))
        ([] : List (String × AccRecord)) = none from rfl]
    rw [Option.getD_none, hing]
    rw [show jsSet (buildAxisKey ([] : List PivotCoordinate))
        (ingestRow ms row (createMeasureAccumulatorSet ms))
        ([] : List (String × AccRecord)) =
        [("__all__", ingestRow ms row (createMeasureAccumulatorSet ms))] from rfl]
    rw [show (buildAxisKey [{ dimension := axis.dimension, level := lv, value := v }]) =
      rawKey axis.dimension lv v from rfl]
    rw [jsSet_keyed_map_absent (fun w => rawKey axis.dimension lv w)
      (fun w => [("__all__", groupRec ms axis.dimension lv w pref)])
      v _ _ hkinj hv]
    refine congrArg Except.ok ?_
    have hrh : toHeader (rawKey axis.dimension lv v)
        [{ dimension := axis.dimension, level := lv, value := v }] =
        rawHeader axis.dimension lv v := rfl
    congr 1
    · rw [List.map_append, List.map_cons, List.map_nil, hrh]
    · rw [List.map_append, List.map_cons, List.map_nil]
      congr 1
      · refine (List.map_congr_left ?_).symm
        intro w hw
        rw [groupRec_append,
          if_neg (fun he => hv ((Option.some.inj (hrow.symm.trans he)).symm ▸ hw))]
      · rw [groupRec_append, if_pos hrow, groupRec_of_not_mem hv]


theorem scan_loop (q : NormalizedQuery) (cube : CubeInstance)
    (ms : List CubeMeasure) (axis : AxisSpec) (lv : String)
    (hax : q.rows = [axis]) (hlv : axis.level = some lv) (hlvne : lv ≠ "")
    (hcols : q.columns = []) (hfilt : q.allFilters = []) (hdrill : q.drill = none) :
    ∀ (rest pref : List FactRow),
      (∀ r ∈ pref ++ rest, (factDimValue r axis.dimension lv).isSome = true) →
      (∀ r1 ∈ pref ++ rest, ∀ r2 ∈ pref ++ rest, ∀ v1 v2,
        factDimValue r1 axis.dimension lv = some v1 →
        factDimValue r2 axis.dimension lv = some v2 →
        dimValueToString v1 = dimValueToString v2 → v1 = v2) →
      foldlExcept (scanRow q cube ms) (rawState ms axis.dimension lv pref) rest =
        .ok (rawState ms axis.dimension lv (pref ++ rest)) := by
  intro rest
  induction rest with
  | nil =>
      intro pref hall hinj
      rw [List.append_nil]
      rfl
  | cons row rest2 ih =>
      intro pref hall hinj
      have hrowmem : row ∈ pref ++ row :: rest2 :=
        List.mem_append_right pref (List.mem_cons_self row rest2)
      rcases Option.isSome_iff_exists.mp (hall row hrowmem) with ⟨v, hrow⟩
      have hobs : ∀ w ∈ groupVals axis.dimension lv pref,
          dimValueToString w = dimValueToString v → w = v := by
        intro w hw hs
        rcases mem_groupVals hw with ⟨r, hr, hfr⟩
        exact hinj r (List.mem_append_left _ hr) row hrowmem w v hfr hrow hs
      have hstep := scanRow_step q cube ms axis lv hax hlv hlvne hcols hfilt hdrill
        pref row v hrow hobs
      rw [foldlExcept, hstep]
      have happ : (pref ++ [row]) ++ rest2 = pref ++ row :: rest2 := by simp
      have h2 := ih (pref ++ [row]) (by rw [happ]; exact hall) (by rw [happ]; exact hinj)
      rw [happ] at h2
      exact h2


/-- The cell stored by the pre-aggregate scan after a prefix of the facts. -/
def preCell (ms : List CubeMeasure) (dn lv : String) (pref : List FactRow) :
    Option (List (DimValue × AccRecord)) :=
  match groupVals dn lv pref with
  | [] => none
  | _ => some ((groupVals dn lv pref).map fun w => (w, groupRec ms dn lv w pref))

theorem preCell_getD (ms : List CubeMeasure) (dn lv : String) (pref : List FactRow) :
    (preCell ms dn lv pref).getD [] =
      (groupVals dn lv pref).map fun w => (w, groupRec ms dn lv w pref) := by
  unfold preCell
  cases hg : groupVals dn lv pref with
  | nil => rfl
  | cons a rest => rfl

theorem preCell_step (ms : List CubeMeasure) (dn lv : String) (pref : List FactRow)
    (row : FactRow) :
    cellStep ms dn lv row (preCell ms dn lv pref) =
      preCell ms dn lv (pref ++ [row]) := by
  have hgvapp := groupVals_append dn lv pref row
  unfold cellStep
  cases hfd : factDimValue row dn lv with
  | none =>
      rw [hfd] at hgvapp
      dsimp only at hgvapp
      unfold preCell
      rw [hgvapp]
      cases hg : groupVals dn lv pref with
      | nil => rfl
      | cons a rest =>
          dsimp only
          congr 1
          refine List.map_congr_left ?_
          intro w hw
          rw [groupRec_append, if_neg (fun he => Option.noConfusion (hfd.symm.trans he))]
  | some v =>
      rw [hfd] at hgvapp
      dsimp only at hgvapp
      dsimp only
      rw [preCell_getD]
      rw [jsGet_keyed_map (fun w : DimValue => w)
        (fun w => groupRec ms dn lv w pref) v _ (fun w _ h => h)]
      by_cases hv : v ∈ groupVals dn lv pref
      · rw [if_pos hv] at hgvapp
        rw [if_pos (show (if v ∈ groupVals dn lv pref then
            some (groupRec ms dn lv v pref) else none).isSome = true by
          rw [if_pos hv]; rfl)]
        rw [jsUpdate_keyed_map_mem (fun w : DimValue => w)
          (fun w => groupRec ms dn lv w pref) (fun rec => ingestRow ms row rec)
          v _ (groupVals_nodup dn lv pref) (fun w _ h => h) hv]
        unfold preCell
        rw [hgvapp]
        cases hg : groupVals dn lv pref with
        | nil => rw [hg] at hv; cases hv
        | cons a rest =>
            dsimp only
            congr 1
            refine List.map_congr_left ?_
            intro w hw
            rw [groupRec_append]
            by_cases hwv : w = v
            · subst hwv
              rw [if_pos hfd, if_pos rfl]
            · rw [if_neg (fun he => hwv (Option.some.inj (hfd.symm.trans he)).symm),
                if_neg hwv]
      · rw [if_neg hv] at hgvapp
        rw [if_neg (show ¬((if v ∈ groupVals dn lv pref then
            some (groupRec ms dn lv v pref) else none).isSome = true) by
          rw [if_neg hv]; exact fun h => Bool.false_ne_true h)]
        rw [jsSet_keyed_map_absent (fun w : DimValue => w)
          (fun w => groupRec ms dn lv w pref) v _ _ (fun w _ h => h) hv]
        have hview : (groupVals dn lv pref).map
            (fun a => (a, groupRec ms dn lv a pref)) ++
              [(v, createMeasureAccumulatorSet ms)] =
            (groupVals dn lv pref ++ [v]).map fun a =>
              (a, if a = v then createMeasureAccumulatorSet ms
                  else groupRec ms dn lv a pref) := by
          rw [List.map_append, List.map_cons, List.map_nil]
          congr 1
          · refine List.map_congr_left ?_
            intro w hw
            rw [if_neg (fun he => hv (by rw [← he]; exact hw))]
          · rw [if_pos rfl]
        rw [hview]
        rw [jsUpdate_keyed_map_mem (fun w : DimValue => w)
          (fun a => if a = v then createMeasureAccumulatorSet ms
            else groupRec ms dn lv a pref) (fun rec => ingestRow ms row rec)
          v _ (by
            refine List.nodup_append.mpr ⟨groupVals_nodup dn lv pref,
              List.nodup_singleton v, ?_⟩
            exact fun a ha hb => hv (List.mem_singleton.mp hb ▸ ha))
          (fun w _ h => h) (List.mem_append_right _ (List.mem_singleton.mpr rfl))]
        unfold preCell
        rw [hgvapp]
        cases hg2 : groupVals dn lv pref ++ [v] with
        | nil => cases List.append_eq_nil.mp hg2 |>.2
        | cons a rest =>
            dsimp only
            rw [← hg2]
            congr 1
            refine List.map_congr_left ?_
            intro w hw
            rw [groupRec_append]
            by_cases hwv : w = v
            · subst hwv
              rw [if_pos rfl, if_pos rfl, if_pos hfd, groupRec_of_not_mem hv]
            · rw [if_neg hwv, if_neg hwv,
                if_neg (fun he => hwv (Option.some.inj (hfd.symm.trans he)).symm)]


theorem preCell_loop (ms : List CubeMeasure) (dn lv : String) :
    ∀ (rest pref : List FactRow),
      rest.foldl (fun c row => cellStep ms dn lv row c) (preCell ms dn lv pref) =
        preCell ms dn lv (pref ++ rest) := by
  intro rest
  induction rest with
  | nil =>
      intro pref
      rw [List.foldl_nil, List.append_nil]
  | cons row rest2 ih =>
      intro pref
      rw [List.foldl_cons, preCell_step, ih]
      congr 1
      simp

theorem preCell_closed (ms : List CubeMeasure) (dn lv : String)
    (rows : List FactRow) :
    rows.foldl (fun c row => cellStep ms dn lv row c) none =
      preCell ms dn lv rows := by
  have h := preCell_loop ms dn lv rows []
  rw [List.nil_append] at h
  exact h


theorem jsGet_foldSetKey_miss {γ : Type} [DecidableEq κ] (key : α → κ) (g : α → γ)
    (nm : κ) (l : List α) (hmiss : ∀ a ∈ l, key a ≠ nm) :
    ∀ acc : List (κ × γ),
      jsGet nm (l.foldl (fun acc a => jsSet (key a) (g a) acc) acc) = jsGet nm acc := by
  induction l with
  | nil => intro acc; rfl
  | cons a rest ih =>
      intro acc
      rw [List.foldl_cons, ih (fun b hb => hmiss b (List.mem_cons_of_mem a hb)),
        jsGet_jsSet_ne _ _ (fun he => hmiss a (List.mem_cons_self a rest) he.symm)]

theorem jsGet_foldSetKey {γ : Type} [DecidableEq κ] (key : α → κ) (g : α → γ)
    (M : α) (l : List α) (hnd : (l.map key).Nodup) (hM : M ∈ l) :
    ∀ acc : List (κ × γ),
      jsGet (key M) (l.foldl (fun acc a => jsSet (key a) (g a) acc) acc) =
        some (g M) := by
  induction l with
  | nil => cases hM
  | cons a rest ih =>
      intro acc
      rw [List.map_cons, List.nodup_cons] at hnd
      cases List.mem_cons.mp hM with
      | inl h =>
          subst h
          rw [List.foldl_cons,
            jsGet_foldSetKey_miss key g (key M) rest
              (fun b hb hbe => hnd.1 (hbe ▸ List.mem_map.mpr ⟨b, hb, rfl⟩)),
            jsGet_jsSet_self]
      | inr h =>
          rw [List.foldl_cons, ih hnd.2 h]

theorem jsGet_resolveCell {qms : List String} {mn : String} (cell : AccRecord)
    (hnd : qms.Nodup) (hmn : mn ∈ qms) :
    jsGet mn (resolveCell qms cell) =
      some (accFinalize ((jsGet mn cell).getD (createAccumulator .SUM))) := by
  have h := jsGet_foldSetKey (fun s : String => s)
    (fun mName => accFinalize ((jsGet mName cell).getD (createAccumulator .SUM)))
    mn qms (by simpa using hnd) hmn []
  exact h

/-- Total measure lookup (the `get(name)!` of the raw scan, with a junk
default that is never read when the name resolves). -/
def mLookup (cube : CubeInstance) (mn : String) : CubeMeasure :=
  (jsGet mn cube.measureMap).getD { name := mn, valueField := mn, aggregation := .SUM }

theorem mapExcept_lookupMeasureDef_ok (cube : CubeInstance) :
    ∀ (qms : List String), (∀ mn ∈ qms, (jsGet mn cube.measureMap).isSome = true) →
      mapExcept (lookupMeasureDef cube) qms = .ok (qms.map (mLookup cube)) := by
  intro qms
  induction qms with
  | nil => intro _; rfl
  | cons mn rest ih =>
      intro hall
      rw [mapExcept]
      rcases Option.isSome_iff_exists.mp (hall mn (List.mem_cons_self mn rest)) with ⟨m, hm⟩
      have hlk : lookupMeasureDef cube mn = .ok m := by
        unfold lookupMeasureDef
        rw [hm]
      rw [hlk, ih (fun b hb => hall b (List.mem_cons_of_mem mn hb))]
      dsimp only
      rw [List.map_cons]
      have : mLookup cube mn = m := by
        unfold mLookup
        rw [hm]
        rfl
      rw [this]

theorem stableSort_congr (le1 le2 : α → α → Bool)
    (h : ∀ a b, le1 a b = le2 a b) (l : List α) :
    stableSort le1 l = stableSort le2 l := by
  have hins : ∀ (x : α) (l2 : List α),
      sortedInsert le1 x l2 = sortedInsert le2 x l2 := by
    intro x l2
    induction l2 with
    | nil => rfl
    | cons a rest ih =>
        rw [sortedInsert, sortedInsert, h, ih]
  unfold stableSort
  induction l with
  | nil => rfl
  | cons a rest ih =>
      rw [List.foldr_cons, List.foldr_cons, ih, hins]

theorem planOf_pre {q : NormalizedQuery}
    (h : (planOf q).strategy = .preAggregate) :
    q.columns = [] ∧ q.allFilters = [] ∧ q.drill = none ∧ q.rollup = none ∧
      q.rows.length = 1 := by
  unfold planOf plannerPlan planningContextOf at h
  dsimp only at h
  split at h
  case isTrue hc =>
      obtain ⟨h1, h2, h3, h4, h5, h6⟩ := hc
      have hcols : q.columns = [] := List.length_eq_zero.mp h2
      have hfilt : q.allFilters = [] := List.length_eq_zero.mp h4
      have hdrill : q.drill = none := Option.not_isSome_iff_eq_none.mp (by rw [h5]; exact Bool.false_ne_true)
      have hrollup : q.rollup = none := Option.not_isSome_iff_eq_none.mp (by rw [h6]; exact Bool.false_ne_true)
      have hlen : q.rows.length = 1 := by
        rw [h2] at h1
        simpa using h1
      exact ⟨hcols, hfilt, hdrill, hrollup, hlen⟩
  case isFalse hc => exact PlanningStrategy.noConfusion h


/-- The cell value both execution paths produce for measure `mn` at group
value `v`: the measure accumulator run over exactly the matching facts. -/
def c1CellValue (defn : CubeDefinition) (dn lv mn : String) (v : DimValue) : Rat :=
  accFinalize
    (((defn.rows.filter fun row => decide (factDimValue row dn lv = some v)).map
      fun row => factMetric row (mLookup (mkCubeInstance defn) mn).valueField).foldl
      accAdd (createAccumulator (mLookup (mkCubeInstance defn) mn).aggregation))

theorem mLookup_spec {defn : CubeDefinition} {mn : String}
    (h : (jsGet mn (mkCubeInstance defn).measureMap).isSome = true) :
    (mLookup (mkCubeInstance defn) mn).name = mn ∧
      mLookup (mkCubeInstance defn) mn ∈ defn.measures := by
  rcases Option.isSome_iff_exists.mp h with ⟨m, hm⟩
  have hspec := jsGet_measureMap hm
  have hml : mLookup (mkCubeInstance defn) mn = m := by
    unfold mLookup
    rw [hm]
    rfl
  rw [hml]
  exact ⟨hspec.2, hspec.1⟩

theorem measureDefs_names {defn : CubeDefinition} {qms : List String}
    (hqm : ∀ mn ∈ qms, (jsGet mn (mkCubeInstance defn).measureMap).isSome = true) :
    (qms.map (mLookup (mkCubeInstance defn))).map CubeMeasure.name = qms := by
  rw [List.map_map]
  have : ∀ mn ∈ qms, (CubeMeasure.name ∘ mLookup (mkCubeInstance defn)) mn = id mn :=
    fun mn hmn => (mLookup_spec (hqm mn hmn)).1
  rw [List.map_congr_left this, List.map_id]


theorem runRawScan_closed (defn : CubeDefinition) (q : NormalizedQuery)
    (plan : ExecutionPlan) (axis : AxisSpec) (lv : String)
    (hax : q.rows = [axis]) (hlv : axis.level = some lv) (hlvne : lv ≠ "")
    (hcols : q.columns = []) (hfilt : q.allFilters = []) (hdrill : q.drill = none)
    (hqm : ∀ mn ∈ q.measures,
      (jsGet mn (mkCubeInstance defn).measureMap).isSome = true)
    (hmeasQ : q.measures.Nodup)
    (hfacts : defn.rows ≠ [])
    (hall : ∀ r ∈ defn.rows, (factDimValue r axis.dimension lv).isSome = true)
    (hinj : ∀ r1 ∈ defn.rows, ∀ r2 ∈ defn.rows, ∀ v1 v2,
      factDimValue r1 axis.dimension lv = some v1 →
      factDimValue r2 axis.dimension lv = some v2 →
      dimValueToString v1 = dimValueToString v2 → v1 = v2) :
    ∃ payload, runRawScan q (mkCubeInstance defn) plan = .ok payload ∧
      payload.data.pivot.rows =
        (groupVals axis.dimension lv defn.rows).map (rawHeader axis.dimension lv) ∧
      payload.data.pivot.columns = [allColumnHeader] ∧
      payload.data.pivot.measures =
        q.measures.map (fun mn =>
          { name := mn
            values := (groupVals axis.dimension lv defn.rows).map fun v =>
              [c1CellValue defn axis.dimension lv mn v] }) := by
  have hmd := mapExcept_lookupMeasureDef_ok (mkCubeInstance defn) q.measures hqm
  have hnd : ((q.measures.map (mLookup (mkCubeInstance defn))).map
      CubeMeasure.name).Nodup := by
    rw [measureDefs_names hqm]
    exact hmeasQ
  have hscan := scan_loop q (mkCubeInstance defn)
    (q.measures.map (mLookup (mkCubeInstance defn))) axis lv
    hax hlv hlvne hcols hfilt hdrill defn.rows []
    (by simpa using hall) (by simpa using hinj)
  rw [List.nil_append] at hscan
  unfold runRawScan
  rw [hmd, exceptOkBind]
  rw [show ({ rowOrder := [], columnOrder := [], table := [] } : ScanState) =
    rawState (q.measures.map (mLookup (mkCubeInstance defn))) axis.dimension lv []
    from rfl]
  rw [show (mkCubeInstance defn).definition.rows = defn.rows from rfl]
  rw [hscan, exceptOkBind]
  dsimp only [rawState]
  have hnemp : ¬defn.rows.isEmpty = true := by
    cases hrw : defn.rows with
    | nil => exact absurd hrw hfacts
    | cons a b => exact fun h2 => by cases h2
  have hkinjw : ∀ w ∈ groupVals axis.dimension lv defn.rows,
      ∀ u ∈ groupVals axis.dimension lv defn.rows,
      rawKey axis.dimension lv u = rawKey axis.dimension lv w → u = w := by
    intro w hw u hu hk
    rcases mem_groupVals hw with ⟨rw2, hrw2, hfw⟩
    rcases mem_groupVals hu with ⟨ru, hru, hfu⟩
    exact hinj ru hru rw2 hrw2 u w hfu hfw (rawKey_cancel hk)
  refine ⟨_, rfl, rfl, ?_, ?_⟩
  · rw [if_neg hnemp]
  · rw [if_neg hnemp]
    refine List.map_congr_left ?_
    intro mn hmn
    congr 1
    rw [List.map_map]
    refine List.map_congr_left ?_
    intro w hw
    dsimp only [Function.comp]
    rw [List.map_cons, List.map_nil]
    have hres : List.map (fun kv =>
        (kv.1, List.map (fun cell => (cell.1, resolveCell q.measures cell.2)) kv.2))
        (List.map (fun u => (rawKey axis.dimension lv u,
          [("__all__", groupRec (List.map (mLookup (mkCubeInstance defn)) q.measures)
            axis.dimension lv u defn.rows)]))
          (groupVals axis.dimension lv defn.rows)) =
        List.map (fun u => (rawKey axis.dimension lv u,
          [("__all__", resolveCell q.measures
            (groupRec (List.map (mLookup (mkCubeInstance defn)) q.measures)
              axis.dimension lv u defn.rows))]))
          (groupVals axis.dimension lv defn.rows) := by
      rw [List.map_map]
      rfl
    rw [hres]
    rw [show (rawHeader axis.dimension lv w).key = rawKey axis.dimension lv w from rfl]
    rw [jsGet_keyed_map (fun u => rawKey axis.dimension lv u)
      (fun u => [("__all__", resolveCell q.measures
        (groupRec (List.map (mLookup (mkCubeInstance defn)) q.measures)
          axis.dimension lv u defn.rows))])
      w _ (fun u hu hk => hkinjw w hw u hu hk), if_pos hw, Option.getD_some]
    rw [show jsGet allColumnHeader.key
        [("__all__", resolveCell q.measures
          (groupRec (List.map (mLookup (mkCubeInstance defn)) q.measures)
            axis.dimension lv w defn.rows))] =
        some (resolveCell q.measures
          (groupRec (List.map (mLookup (mkCubeInstance defn)) q.measures)
            axis.dimension lv w defn.rows)) from rfl]
    dsimp only
    rw [jsGet_resolveCell _ hmeasQ hmn, Option.getD_some]
    have hM := mLookup_spec (hqm mn hmn)
    have hMmem : mLookup (mkCubeInstance defn) mn ∈
        List.map (mLookup (mkCubeInstance defn)) q.measures :=
      List.mem_map.mpr ⟨mn, hmn, rfl⟩
    have hgr : jsGet (mLookup (mkCubeInstance defn) mn).name
        (groupRec (List.map (mLookup (mkCubeInstance defn)) q.measures)
          axis.dimension lv w defn.rows) =
        some (((defn.rows.filter fun row =>
            decide (factDimValue row axis.dimension lv = some w)).map
          fun row => factMetric row (mLookup (mkCubeInstance defn) mn).valueField).foldl
          accAdd (createAccumulator (mLookup (mkCubeInstance defn) mn).aggregation)) := by
      unfold groupRec
      exact jsGet_foldIngest (mLookup (mkCubeInstance defn) mn)
        (List.map (mLookup (mkCubeInstance defn)) q.measures) hnd hMmem _ _ _
        (jsGet_createMeasureAccumulatorSet (mLookup (mkCubeInstance defn) mn)
          (List.map (mLookup (mkCubeInstance defn)) q.measures) hnd hMmem)
    rw [hM.1] at hgr
    rw [hgr, Option.getD_some]
    rfl


theorem groupVals_ne_nil {dn lv : String} {rows : List FactRow}
    (hfacts : rows ≠ [])
    (hall : ∀ r ∈ rows, (factDimValue r dn lv).isSome = true) :
    groupVals dn lv rows ≠ [] := by
  cases hrw : rows with
  | nil => exact absurd hrw hfacts
  | cons r rest =>
      subst hrw
      rcases Option.isSome_iff_exists.mp
        (hall r (List.mem_cons_self r rest)) with ⟨v, hv⟩
      exact List.ne_nil_of_mem
        (groupVals_complete (List.mem_cons_self r rest) hv)

theorem runPreAggregate_closed (defn : CubeDefinition) (q : NormalizedQuery)
    (plan : ExecutionPlan) (axis : AxisSpec) (lv : String)
    (hax : q.rows = [axis]) (hlv : axis.level = some lv)
    (hkeys : (allStoreKeys defn).Nodup)
    (d : CubeDimension) (hd : d ∈ defn.dimensions) (hdn : d.name = axis.dimension)
    (hl : lv ∈ d.hierarchy)
    (hqm : ∀ mn ∈ q.measures,
      (jsGet mn (mkCubeInstance defn).measureMap).isSome = true)
    (hmeasD : (defn.measures.map CubeMeasure.name).Nodup)
    (hfacts : defn.rows ≠ [])
    (hall : ∀ r ∈ defn.rows, (factDimValue r axis.dimension lv).isSome = true) :
    (runPreAggregate q (mkCubeInstance defn) plan).data.pivot.rows =
      (stableSort (fun a b => decide (compareValues a b ≤ 0))
        (groupVals axis.dimension lv defn.rows)).map (rawHeader axis.dimension lv) ∧
    (runPreAggregate q (mkCubeInstance defn) plan).data.pivot.columns =
      [allColumnHeader] ∧
    (runPreAggregate q (mkCubeInstance defn) plan).data.pivot.measures =
      q.measures.map (fun mn =>
        { name := mn
          values := (stableSort (fun a b => decide (compareValues a b ≤ 0))
            (groupVals axis.dimension lv defn.rows)).map fun v =>
            [c1CellValue defn axis.dimension lv mn v] }) := by
  have hw := jsGet_materializeWorking defn hkeys hd hl
  rw [hdn] at hw
  rw [preCell_closed] at hw
  have hgv := groupVals_ne_nil hfacts hall
  have hpc : preCell defn.measures axis.dimension lv defn.rows =
      some ((groupVals axis.dimension lv defn.rows).map fun w =>
        (w, groupRec defn.measures axis.dimension lv w defn.rows)) := by
    unfold preCell
    cases hg : groupVals axis.dimension lv defn.rows with
    | nil => exact absurd hg hgv
    | cons a rest => rfl
  rw [hpc] at hw
  have hagg : jsGet (storeKey axis.dimension lv) (materializeAggregates defn) =
      some ((groupVals axis.dimension lv defn.rows).map fun w =>
        (w, finalizeRecord defn.measures
          (groupRec defn.measures axis.dimension lv w defn.rows))) := by
    unfold materializeAggregates
    rw [jsGet_map_snd, hw, Option.map_some']
    rw [List.map_map]
    rfl
  unfold runPreAggregate
  rw [hax]
  rw [show (([axis] : List AxisSpec).head? <|> q.columns.head?) = some axis from rfl]
  dsimp only
  rw [hlv]
  rw [show (some lv).getD "undefined" = lv from rfl]
  rw [show (mkCubeInstance defn).aggregateStore = materializeAggregates defn from rfl]
  rw [hagg, Option.getD_some]
  have hsort : stableSort (fun a b => decide (compareValues a.1 b.1 ≤ 0))
      ((groupVals axis.dimension lv defn.rows).map fun w =>
        (w, finalizeRecord defn.measures
          (groupRec defn.measures axis.dimension lv w defn.rows))) =
      (stableSort (fun a b => decide (compareValues a b ≤ 0))
        (groupVals axis.dimension lv defn.rows)).map fun w =>
        (w, finalizeRecord defn.measures
          (groupRec defn.measures axis.dimension lv w defn.rows)) := by
    rw [stableSort_map]
  rw [hsort]
  refine ⟨?_, rfl, ?_⟩
  · rw [List.map_map]
    rfl
  · refine List.map_congr_left ?_
    intro mn hmn
    congr 1
    rw [List.map_map]
    refine List.map_congr_left ?_
    intro w hw2
    dsimp only [Function.comp]
    have hM := mLookup_spec (hqm mn hmn)
    have hfin := jsGet_finalizeRecord (mLookup (mkCubeInstance defn) mn)
      (groupRec defn.measures axis.dimension lv w defn.rows)
      defn.measures hmeasD hM.2
    rw [hM.1] at hfin
    rw [hfin, Option.getD_some]
    have hgr : jsGet (mLookup (mkCubeInstance defn) mn).name
        (groupRec defn.measures axis.dimension lv w defn.rows) =
        some (((defn.rows.filter fun row =>
            decide (factDimValue row axis.dimension lv = some w)).map
          fun row => factMetric row (mLookup (mkCubeInstance defn) mn).valueField).foldl
          accAdd (createAccumulator (mLookup (mkCubeInstance defn) mn).aggregation)) := by
      unfold groupRec
      exact jsGet_foldIngest (mLookup (mkCubeInstance defn) mn)
        defn.measures hmeasD hM.2 _ _ _
        (jsGet_createMeasureAccumulatorSet (mLookup (mkCubeInstance defn) mn)
          defn.measures hmeasD hM.2)
    rw [hM.1] at hgr
    rw [hgr, Option.getD_some]
    rfl


theorem hinj_of_toList {dn lv : String} {rows : List FactRow}
    (h : ∀ r1 ∈ rows, ∀ r2 ∈ rows, ∀ v1 ∈ (factDimValue r1 dn lv).toList,
      ∀ v2 ∈ (factDimValue r2 dn lv).toList,
      dimValueToString v1 = dimValueToString v2 → v1 = v2) :
    ∀ r1 ∈ rows, ∀ r2 ∈ rows, ∀ v1 v2,
      factDimValue r1 dn lv = some v1 → factDimValue r2 dn lv = some v2 →
      dimValueToString v1 = dimValueToString v2 → v1 = v2 := by
  intro r1 h1 r2 h2 v1 v2 e1 e2 hs
  refine h r1 h1 r2 h2 v1 ?_ v2 ?_ hs
  · rw [e1]
    exact List.mem_singleton.mpr rfl
  · rw [e2]
    exact List.mem_singleton.mpr rfl

/-- **C1** (amended): for a query the planner routes to pre-aggregate (one
row axis, no columns, no filters, no drill), over a registered cube whose
store keys are collision-free, whose measure names are distinct, whose
queried measures resolve, and whose facts all carry a value at the queried
(dimension, level) with string-distinct distinct values: the raw scan
succeeds, both paths produce the same column headers, and both pivots are
images of the same group values and the same per-measure cell values — the
raw scan in first-appearance order, the pre-aggregate path in the order of
the canonical comparator. The two `data.pivot` blocks are therefore
identical up to sorting the row axis by the canonical comparator. -/
theorem C1_plan_equivalence (defn : CubeDefinition) (q : NormalizedQuery)
    (axis : AxisSpec) (lv : String) (d : CubeDimension)
    (hplan : (planOf q).strategy = .preAggregate)
    (hax : q.rows = [axis]) (hlv : axis.level = some lv) (hlvne : lv ≠ "")
    (hd : d ∈ defn.dimensions) (hdn : d.name = axis.dimension)
    (hl : lv ∈ d.hierarchy)
    (hkeys : (allStoreKeys defn).Nodup)
    (hmeasD : (defn.measures.map CubeMeasure.name).Nodup)
    (hmeasQ : q.measures.Nodup)
    (hqm : ∀ mn ∈ q.measures,
      (jsGet mn (mkCubeInstance defn).measureMap).isSome = true)
    (hfacts : defn.rows ≠ [])
    (hall : ∀ r ∈ defn.rows, (factDimValue r axis.dimension lv).isSome = true)
    (hinj : ∀ r1 ∈ defn.rows, ∀ r2 ∈ defn.rows, ∀ v1 v2,
      factDimValue r1 axis.dimension lv = some v1 →
      factDimValue r2 axis.dimension lv = some v2 →
      dimValueToString v1 = dimValueToString v2 → v1 = v2) :
    ∃ payload, runRawScan q (mkCubeInstance defn) (planOf q) = .ok payload ∧
      payload.data.pivot.columns =
        (runPreAggregate q (mkCubeInstance defn) (planOf q)).data.pivot.columns ∧
      payload.data.pivot.rows =
        (groupVals axis.dimension lv defn.rows).map (rawHeader axis.dimension lv) ∧
      (runPreAggregate q (mkCubeInstance defn) (planOf q)).data.pivot.rows =
        (stableSort (fun a b => decide (compareValues a b ≤ 0))
          (groupVals axis.dimension lv defn.rows)).map (rawHeader axis.dimension lv) ∧
      payload.data.pivot.measures =
        q.measures.map (fun mn =>
          { name := mn
            values := (groupVals axis.dimension lv defn.rows).map fun v =>
              [c1CellValue defn axis.dimension lv mn v] }) ∧
      (runPreAggregate q (mkCubeInstance defn) (planOf q)).data.pivot.measures =
        q.measures.map (fun mn =>
          { name := mn
            values := (stableSort (fun a b => decide (compareValues a b ≤ 0))
              (groupVals axis.dimension lv defn.rows)).map fun v =>
              [c1CellValue defn axis.dimension lv mn v] }) := by
  obtain ⟨hcols, hfilt, hdrill, _, _⟩ := planOf_pre hplan
  obtain ⟨payload, hrun, hrows, hcolsr, hmeas⟩ :=
    runRawScan_closed defn q (planOf q) axis lv hax hlv hlvne hcols hfilt hdrill
      hqm hmeasQ hfacts hall hinj
  obtain ⟨hprerows, hprecols, hpremeas⟩ :=
    runPreAggregate_closed defn q (planOf q) axis lv hax hlv hkeys d hd hdn hl
      hqm hmeasD hfacts hall
  exact ⟨payload, hrun, by rw [hcolsr, hprecols], hrows, hprerows, hmeas, hpremeas⟩


/-- A cube where one fact lacks the queried level: the raw scan emits an
extra `All` row that the pre-aggregate store does not contain. -/
def c1Def : CubeDefinition :=
  { name := "s1", dimensions := [{ name := "d", hierarchy := ["l"] }],
    measures := [{ name := "m", valueField := "f", aggregation := .COUNT }],
    rows := [{ dimensions := [("d", [("l", .str "v")])], metrics := [("f", .str "x")] },
             { dimensions := [], metrics := [("f", .str "y")] }] }

/-- A single-axis, filter-free normalized query on `c1Def`. -/
def c1Query : NormalizedQuery :=
  { cube := "s1", measures := ["m"]
    rows := [{ dimension := "d", level := some "l" }], columns := []
    slices := [], dices := [], filters := [], allFilters := []
    drill := none, rollup := none, includeFlattened := false, mdx := none }

/-- **C1** counterexample: the planner routes `c1Query` to pre-aggregate,
but the raw scan groups the fact lacking a value at (d, l) under an `All`
coordinate, producing a second pivot row that the pre-aggregate path never
emits — the two `data.pivot` blocks differ as sets of rows, not merely in
ordering. -/
theorem C1_plan_equivalence_counterexample :
    (planOf c1Query).strategy = .preAggregate ∧
    (runPreAggregate c1Query (mkCubeInstance c1Def)
      (planOf c1Query)).data.pivot.rows.map PivotHeader.key = ["d.l:v"] ∧
    (runRawScan c1Query (mkCubeInstance c1Def) (planOf c1Query)).toOption.map
      (fun p => p.data.pivot.rows.map PivotHeader.key) =
      some ["d.l:v", "d.l:All"] :=
  ⟨rfl, rfl, rfl⟩


/-- A well-behaved cube for the amended C1 statement: every fact carries a
value at (g, r) and first-appearance order (NA before EU) differs from the
canonical order (EU before NA). -/
def c1wDef : CubeDefinition :=
  { name := "s1w", dimensions := [{ name := "g", hierarchy := ["r"] }],
    measures := [{ name := "m", valueField := "f", aggregation := .COUNT }],
    rows := [{ dimensions := [("g", [("r", .str "NA")])], metrics := [("f", .str "x")] },
             { dimensions := [("g", [("r", .str "EU")])], metrics := [("f", .str "y")] }] }

/-- The single-axis query for the C1 witness. -/
def c1wQuery : NormalizedQuery :=
  { cube := "s1w", measures := ["m"]
    rows := [{ dimension := "g", level := some "r" }], columns := []
    slices := [], dices := [], filters := [], allFilters := []
    drill := none, rollup := none, includeFlattened := false, mdx := none }

/-- Witness for the amended C1 theorem at a concrete cube and query. -/
theorem C1_plan_equivalence_witness :
    ∃ payload, runRawScan c1wQuery (mkCubeInstance c1wDef) (planOf c1wQuery) =
        .ok payload ∧
      payload.data.pivot.columns =
        (runPreAggregate c1wQuery (mkCubeInstance c1wDef)
          (planOf c1wQuery)).data.pivot.columns ∧
      payload.data.pivot.rows =
        (groupVals "g" "r" c1wDef.rows).map (rawHeader "g" "r") ∧
      (runPreAggregate c1wQuery (mkCubeInstance c1wDef)
        (planOf c1wQuery)).data.pivot.rows =
        (stableSort (fun a b => decide (compareValues a b ≤ 0))
          (groupVals "g" "r" c1wDef.rows)).map (rawHeader "g" "r") ∧
      payload.data.pivot.measures =
        c1wQuery.measures.map (fun mn =>
          { name := mn
            values := (groupVals "g" "r" c1wDef.rows).map fun v =>
              [c1CellValue c1wDef "g" "r" mn v] }) ∧
      (runPreAggregate c1wQuery (mkCubeInstance c1wDef)
        (planOf c1wQuery)).data.pivot.measures =
        c1wQuery.measures.map (fun mn =>
          { name := mn
            values := (stableSort (fun a b => decide (compareValues a b ≤ 0))
              (groupVals "g" "r" c1wDef.rows)).map fun v =>
              [c1CellValue c1wDef "g" "r" mn v] }) :=
  C1_plan_equivalence c1wDef c1wQuery
    { dimension := "g", level := some "r" } "r" { name := "g", hierarchy := ["r"] }
    rfl rfl rfl (by decide) (by decide) rfl (by decide) (by decide) (by decide)
    (by decide) (by decide) (by decide) (by decide)
    (hinj_of_toList (by decide))
